import Mathlib

/-!
# DearPyGui `mvApp`: the per-frame mutation scheduler

A shallow embedding of `src/Core/mvApp.cpp`: the item tree owned by `mvApp`, the
structural queues drained by `mvApp::postrender`, and the idle check on the worker
pool in `mvApp::prerender`.

Conventions of the embedding.

* A `mvAppItem*` is rendered as the item it points to; the address of the object is
  kept in the field `addr`, so that pointer identity (`m_parent`, the entries of
  `m_windows`) can still be spoken about.  A null pointer is `none`.
* A member function that mutates the object returns the new value of the object next
  to its C++ result (`bool f()` becomes `Bool × mvAppItem`).
* The messages handed to `ThrowPythonException` end up in `m_errors`, in the order in
  which they are reported; `mvAppLog::Log(msg)` appends to `m_log`.
* `while (!q.empty()) { ... q.front() ...; q.pop(); }` is a recursion over the queue.
* Time values (`double` seconds) are rationals.
-/

/-- The item type tags that `mvApp.cpp` dispatches on; every other tag is `Other`. -/
inductive mvAppItemType where
  | Window
  | Child
  | Popup
  | Menu
  | Other (tag : Nat)
deriving DecidableEq, Repr

/-- Modelled from the spec: class `mvAppItem` (declared in `mvAppItem.h`, which is not
part of the sources).  The spec's Item has a name (identity key), a type tag, a
non-owning back-reference to its parent and an ordered sequence of owned children.
`addr` is the address of the object, `parent` the address held in `m_parent`.
Transient per-frame state and callback identifiers play no role in the queues and are
left out. -/
inductive mvAppItem where
  | mk (addr : Nat) (name : String) (type : mvAppItemType) (parent : Option Nat)
      (children : List mvAppItem)
deriving Repr

namespace mvAppItem

/-- Address of the object (the value of a `mvAppItem*` pointing to it). -/
def addr : mvAppItem → Nat
  | mk a _ _ _ _ => a

/-- The member `getName()`. -/
def getName : mvAppItem → String
  | mk _ n _ _ _ => n

/-- The member `getType()`. -/
def getType : mvAppItem → mvAppItemType
  | mk _ _ t _ _ => t

/-- The back-reference `m_parent`. -/
def getParent : mvAppItem → Option Nat
  | mk _ _ _ p _ => p

/-- The owned children `m_children`. -/
def getChildren : mvAppItem → List mvAppItem
  | mk _ _ _ _ cs => cs

/-- The member `setParent(parent)`: stores the pointer to the new parent. -/
def setParent (parentAddr : Nat) : mvAppItem → mvAppItem
  | mk a n t _ cs => mk a n t (some parentAddr) cs

/-- Modelled from the spec: `mvAppItem::deleteChildren` (not part of the sources),
"removes only the children of the named item, leaving the item itself intact". -/
def deleteChildren : mvAppItem → mvAppItem
  | mk a n t p _ => mk a n t p []

mutual
/-- Modelled from the spec: `mvAppItem::getChild` (not part of the sources), the
per-window part of `find(name)`: "depth-first search across ... descendants; returns
first match by identity name". -/
def getChild (nm : String) : mvAppItem → Option mvAppItem
  | mk _ _ _ _ cs => getChildIn nm cs
/-- Modelled from the spec: the depth-first search of `getChild` through a child
sequence and the subtrees below it. -/
def getChildIn (nm : String) : List mvAppItem → Option mvAppItem
  | [] => none
  | c :: rest =>
    if c.getName = nm then some c
    else match getChild nm c with
      | some r => some r
      | none => getChildIn nm rest
end

mutual
/-- Modelled from the spec: `mvAppItem::deleteChild` (not part of the sources), the
per-window part of `remove(name) -> bool`: removes the named descendant (the one the
depth-first search finds) together with its subtree and "returns whether anything was
removed". -/
def deleteChild (nm : String) : mvAppItem → Bool × mvAppItem
  | mk a n t p cs => ((deleteChildIn nm cs).1, mk a n t p (deleteChildIn nm cs).2)
/-- Modelled from the spec: the removal of `deleteChild` from a child sequence or from
a subtree below it. -/
def deleteChildIn (nm : String) : List mvAppItem → Bool × List mvAppItem
  | [] => (false, [])
  | c :: rest =>
    if c.getName = nm then (true, rest)
    else if (deleteChild nm c).1 then (true, (deleteChild nm c).2 :: rest)
    else ((deleteChildIn nm rest).1, c :: (deleteChildIn nm rest).2)
end

mutual
/-- Modelled from the spec: the effect of `getChild(nm)->deleteChildren()` on the item
that owns the found descendant; the tree is rebuilt with the children of the pointee
removed. -/
def deleteChildrenOfChild (nm : String) : mvAppItem → mvAppItem
  | mk a n t p cs => mk a n t p (deleteChildrenOfChildIn nm cs)
/-- Modelled from the spec: the same on a child sequence, following the search order of
`getChildIn`. -/
def deleteChildrenOfChildIn (nm : String) : List mvAppItem → List mvAppItem
  | [] => []
  | c :: rest =>
    if c.getName = nm then c.deleteChildren :: rest
    else if (getChild nm c).isSome then deleteChildrenOfChild nm c :: rest
    else c :: deleteChildrenOfChildIn nm rest
end

/-- Modelled from the spec: the insertion of `addRuntimeChild` "before the named
sibling, preserving order", in front of the first sibling called `before`. -/
def insertBefore (before : String) (item : mvAppItem) : List mvAppItem → List mvAppItem
  | [] => []
  | c :: rest =>
    if c.getName = before then item :: c :: rest
    else c :: insertBefore before item rest

mutual
/-- Modelled from the spec: `mvAppItem::addRuntimeChild` (not part of the sources), the
per-window part of `insert(parent, beforeSibling?, item)`: the item called `parent` is
searched depth-first starting with the receiver; the new item is appended to its
children, or inserted before the sibling called `before` when `before` is not empty;
the insertion fails when the parent or the sibling is not found.  The inserted item's
back-reference is set to its new owner. -/
def addRuntimeChild (parent before : String) (item : mvAppItem) :
    mvAppItem → Bool × mvAppItem
  | mk a n t p cs =>
    if n = parent then
      if before = "" then (true, mk a n t p (cs ++ [item.setParent a]))
      else if cs.any (fun c => c.getName == before) then
        (true, mk a n t p (insertBefore before (item.setParent a) cs))
      else (false, mk a n t p cs)
    else
      ((addRuntimeChildIn parent before item cs).1,
        mk a n t p (addRuntimeChildIn parent before item cs).2)
/-- Modelled from the spec: the search of `addRuntimeChild` for the parent through a
child sequence, first success wins. -/
def addRuntimeChildIn (parent before : String) (item : mvAppItem) :
    List mvAppItem → Bool × List mvAppItem
  | [] => (false, [])
  | c :: rest =>
    if (addRuntimeChild parent before item c).1 then
      (true, (addRuntimeChild parent before item c).2 :: rest)
    else
      ((addRuntimeChildIn parent before item rest).1,
        c :: (addRuntimeChildIn parent before item rest).2)
end

mutual
/-- Modelled from the spec: `mvAppItem::moveChildUp` (not part of the sources), the
per-window part of `moveUp(name) -> bool`: "swaps the named item with its previous
sibling in its parent's ordered child sequence; no-op at the boundary; returns whether
a swap occurred". -/
def moveChildUp (nm : String) : mvAppItem → Bool × mvAppItem
  | mk a n t p cs => ((moveChildUpIn nm cs).1, mk a n t p (moveChildUpIn nm cs).2)
/-- Modelled from the spec: `moveChildUp` on a child sequence.  The head of the
sequence is its first element: a match there is at the boundary. -/
def moveChildUpIn (nm : String) : List mvAppItem → Bool × List mvAppItem
  | [] => (false, [])
  | [c] =>
    if c.getName = nm then (false, [c])
    else ((moveChildUp nm c).1, [(moveChildUp nm c).2])
  | c :: d :: rest =>
    if c.getName = nm then (false, c :: d :: rest)
    else if (moveChildUp nm c).1 then (true, (moveChildUp nm c).2 :: d :: rest)
    else if d.getName = nm then (true, d :: c :: rest)
    else ((moveChildUpIn nm (d :: rest)).1, c :: (moveChildUpIn nm (d :: rest)).2)
end

mutual
/-- Modelled from the spec: `mvAppItem::moveChildDown` (not part of the sources), the
per-window part of `moveDown(name) -> bool`: swaps the named item with its next
sibling; no-op at the boundary; returns whether a swap occurred. -/
def moveChildDown (nm : String) : mvAppItem → Bool × mvAppItem
  | mk a n t p cs => ((moveChildDownIn nm cs).1, mk a n t p (moveChildDownIn nm cs).2)
/-- Modelled from the spec: `moveChildDown` on a child sequence.  A match on the last
element of the sequence is at the boundary. -/
def moveChildDownIn (nm : String) : List mvAppItem → Bool × List mvAppItem
  | [] => (false, [])
  | [c] =>
    if c.getName = nm then (false, [c])
    else ((moveChildDown nm c).1, [(moveChildDown nm c).2])
  | c :: d :: rest =>
    if c.getName = nm then (true, d :: c :: rest)
    else if (moveChildDown nm c).1 then (true, (moveChildDown nm c).2 :: d :: rest)
    else ((moveChildDownIn nm (d :: rest)).1, c :: (moveChildDownIn nm (d :: rest)).2)
end

mutual
/-- Names carried by an item and all its descendants, in depth-first order. -/
def names : mvAppItem → List String
  | mk _ n _ _ cs => n :: namesIn cs
/-- Names carried by the items of a sequence and all their descendants. -/
def namesIn : List mvAppItem → List String
  | [] => []
  | c :: rest => names c ++ namesIn rest
end

end mvAppItem

/-- A Python object as seen through a `PyObject*`; a null pointer is `none`. -/
inductive PyObject where
  | None
  | object (id : Nat)
deriving DecidableEq, Repr

/-- The record `{ item, before, parent }` pushed by `mvApp::addRuntimeItem`. -/
structure NewRuntimeItem where
  item : mvAppItem
  before : String
  parent : String
deriving Repr

/-- The record `{ name, data, returnname }` pushed by `mvApp::addMTCallback`; the result
queue holds records `{ returnname, result }` of the same shape. -/
structure AsyncronousCallback where
  name : String
  data : Option PyObject
  returnname : String
deriving DecidableEq, Repr

/-- Modelled from the spec: class `mvThreadPool` (`Core/mvThreadPool.h`, not part of the
sources).  `submit(job)` "enqueues a unit of work for execution by an available
thread"; the pool is the thread count it was built with and the work handed to it, in
submission order.  A unit of work is the bound call
`runAsyncCallback(name, data, returnname)`. -/
structure mvThreadPool where
  threads : Nat
  submitted : List AsyncronousCallback
deriving DecidableEq, Repr

/-- The member `submit`. -/
def mvThreadPool.submit (pool : mvThreadPool) (job : AsyncronousCallback) : mvThreadPool :=
  { pool with submitted := pool.submitted ++ [job] }

/-- A definition found in a namespace of the host interpreter: `PyCallable_Check` and
the outcome of `PyObject_CallObject` on the argument tuple `(sender, data)`, where
`none` is the null result of a call that raised. -/
structure PyHandler where
  id : Nat
  callable : Bool
  call : String → PyObject → Option PyObject

/-- A namespace of the host interpreter (the dictionary of a module). -/
abbrev PyDict := List (String × PyHandler)

/-- One invocation made through `PyObject_CallObject`. -/
structure PyCall where
  handler : Nat
  sender : String
  data : PyObject
deriving DecidableEq, Repr

/-- The part of the state of `mvApp` that the frame scheduler reads and writes, followed
by the state of the host interpreter it talks to: the dictionary of `__main__`, the
dictionaries of the loaded modules in the order of `PyImport_GetModuleDict`, the
invocations made so far and the line number of the running frame. -/
structure mvApp where
  m_mainThreadID : Nat
  m_windows : List mvAppItem
  m_parents : List mvAppItem
  m_deleteChildrenQueue : List String
  m_deleteQueue : List String
  m_newItemVec : List NewRuntimeItem
  m_upQueue : List String
  m_downQueue : List String
  m_asyncCallbacks : List AsyncronousCallback
  m_asyncReturns : List AsyncronousCallback
  m_tpool : Option mvThreadPool
  m_poolStart : ℚ
  m_threadTime : ℚ
  m_threadPoolTimeout : ℚ
  m_threadPool : Bool
  m_threads : Nat
  m_threadPoolHighPerformance : Bool
  m_errors : List String
  m_log : List String
  m_hostLine : Nat
  m_hostMain : PyDict
  m_hostModules : List PyDict
  m_hostCalls : List PyCall

namespace mvApp

/-!
A function of `mvApp` that reports errors returns, next to its result, the messages it
hands to `ThrowPythonException` (or prints through `PyErr_Print`); the caller appends
them to `m_errors`.
-/

/-- The message printed by `checkIfMainThread` for a call made on another thread; the
line number is the one the interpreter reports for the running frame. -/
def wrongThreadMessage (line : Nat) : String :=
  "DearPyGui command on line " ++ toString line ++ " can not be called asycronously"

/-- The member `mvApp::checkIfMainThread` called on thread `tid`. -/
def checkIfMainThread (s : mvApp) (tid : Nat) : Bool × List String :=
  if tid ≠ s.m_mainThreadID then (false, [wrongThreadMessage s.m_hostLine])
  else (true, [])

/-- The loop of `mvApp::getRuntimeItem` over `m_newItemVec`. -/
def findRuntimeItem (nm : String) : List NewRuntimeItem → Option mvAppItem
  | [] => none
  | e :: rest => if e.item.getName = nm then some e.item else findRuntimeItem nm rest

/-- The member `mvApp::getRuntimeItem`. -/
def getRuntimeItem (s : mvApp) (tid : Nat) (nm : String) : Option mvAppItem × List String :=
  if (checkIfMainThread s tid).1 = false then (none, (checkIfMainThread s tid).2)
  else (findRuntimeItem nm s.m_newItemVec, (checkIfMainThread s tid).2)

/-- The loop of `mvApp::getItem` over `m_windows`. -/
def findItem (nm : String) : List mvAppItem → Option mvAppItem
  | [] => none
  | w :: rest =>
    if w.getName = nm then some w
    else match w.getChild nm with
      | some c => some c
      | none => findItem nm rest

/-- The member `mvApp::getItem(name, ignoreRuntime)`. -/
def getItem (s : mvApp) (tid : Nat) (nm : String) (ignoreRuntime : Bool) :
    Option mvAppItem × List String :=
  if (checkIfMainThread s tid).1 = false then (none, (checkIfMainThread s tid).2)
  else
    let r := if ignoreRuntime = false then getRuntimeItem s tid nm else (none, [])
    match r.1 with
    | some item => (some item, (checkIfMainThread s tid).2 ++ r.2)
    | none => (findItem nm s.m_windows, (checkIfMainThread s tid).2 ++ r.2)

/-- The effect of `item->deleteChildren()` when `item` was found in `m_newItemVec`. -/
def deleteChildrenOfRuntimeItem (nm : String) : List NewRuntimeItem → List NewRuntimeItem
  | [] => []
  | e :: rest =>
    if e.item.getName = nm then { e with item := e.item.deleteChildren } :: rest
    else e :: deleteChildrenOfRuntimeItem nm rest

/-- The effect of `item->deleteChildren()` when `item` was found by the loop of `getItem`
over `m_windows`. -/
def deleteChildrenOfItem (nm : String) : List mvAppItem → List mvAppItem
  | [] => []
  | w :: rest =>
    if w.getName = nm then w.deleteChildren :: rest
    else if (w.getChild nm).isSome then w.deleteChildrenOfChild nm :: rest
    else w :: deleteChildrenOfItem nm rest

/-- One iteration of the first loop of `postrender` (lines 224-226), for the front `nm`
of `m_deleteChildrenQueue`: the new `m_windows`, the new `m_newItemVec` and the
messages reported.  The call `getItem(name)` leaves the flag `ignoreRuntime` to its
default, which is set in `mvApp.h`; that file is not part of the sources, and the
default is the parameter `runtimeDflt`. -/
def deleteChildrenOf (tid : Nat) (runtimeDflt : Bool) (nm : String) (s : mvApp) :
    List mvAppItem × List NewRuntimeItem × List String :=
  let r := getItem s tid nm runtimeDflt
  match r.1 with
  | none => (s.m_windows, s.m_newItemVec, r.2)
  | some _ =>
    if runtimeDflt = false ∧ (findRuntimeItem nm s.m_newItemVec).isSome then
      (s.m_windows, deleteChildrenOfRuntimeItem nm s.m_newItemVec, r.2)
    else
      (deleteChildrenOfItem nm s.m_windows, s.m_newItemVec, r.2)

/-- The loop `while (!m_deleteChildrenQueue.empty())`. -/
def drainDeleteChildrenQueue (tid : Nat) (runtimeDflt : Bool) : List String → mvApp → mvApp
  | [], s => s
  | nm :: q, s =>
    drainDeleteChildrenQueue tid runtimeDflt q
      { s with
        m_windows := (deleteChildrenOf tid runtimeDflt nm s).1
        m_newItemVec := (deleteChildrenOf tid runtimeDflt nm s).2.1
        m_errors := s.m_errors ++ (deleteChildrenOf tid runtimeDflt nm s).2.2
        m_deleteChildrenQueue := q }

/-- The loop "try to delete item" (lines 236-241): `deleteChild` on each window until one
reports a removal. -/
def deleteFromWindows (nm : String) : List mvAppItem → Bool × List mvAppItem
  | [] => (false, [])
  | w :: rest =>
    if (w.deleteChild nm).1 then (true, (w.deleteChild nm).2 :: rest)
    else ((deleteFromWindows nm rest).1, (w.deleteChild nm).2 :: (deleteFromWindows nm rest).2)

/-- The loop "check if attempting to delete a window" (lines 246-253). -/
def windowDeleting (nm : String) : List mvAppItem → Bool
  | [] => false
  | w :: rest => if w.getName = nm then true else windowDeleting nm rest

/-- The loop over `oldwindows` (lines 264-274): the flag tells whether a window was
deleted, the list is the rebuilt `m_windows`. -/
def removeWindows (nm : String) : List mvAppItem → Bool × List mvAppItem
  | [] => (false, [])
  | w :: rest =>
    if w.getName = nm then (true, (removeWindows nm rest).2)
    else ((removeWindows nm rest).1, w :: (removeWindows nm rest).2)

/-- The text of the error for a delete request that removed nothing. -/
def notDeletedMessage (nm : String) : String :=
  nm ++ " not deleted because it was not found"

/-- One iteration of the delete loop of `postrender` (lines 233-278), for the front `nm`
of `m_deleteQueue`: the new `m_windows` and the messages reported. -/
def deleteItem (nm : String) (windows : List mvAppItem) : List mvAppItem × List String :=
  let r := deleteFromWindows nm windows
  let w := if windowDeleting nm r.2 then removeWindows nm r.2 else (false, r.2)
  let deletedItem := r.1 || w.1
  (w.2, if deletedItem = false then [notDeletedMessage nm] else [])

/-- The loop `while (!m_deleteQueue.empty())`. -/
def drainDeleteQueue : List String → mvApp → mvApp
  | [], s => s
  | nm :: q, s =>
    drainDeleteQueue q
      { s with
        m_windows := (deleteItem nm s.m_windows).1
        m_errors := s.m_errors ++ (deleteItem nm s.m_windows).2
        m_deleteQueue := q }

/-- The loop over `m_windows` of the add step (lines 304-309): `addRuntimeChild` on each
window until one accepts the item. -/
def addToWindows (parent before : String) (item : mvAppItem) :
    List mvAppItem → Bool × List mvAppItem
  | [] => (false, [])
  | w :: rest =>
    if (mvAppItem.addRuntimeChild parent before item w).1 then
      (true, (mvAppItem.addRuntimeChild parent before item w).2 :: rest)
    else
      ((addToWindows parent before item rest).1,
        (mvAppItem.addRuntimeChild parent before item w).2 ::
          (addToWindows parent before item rest).2)

/-- The text of the error for a runtime item whose name is taken. -/
def duplicateNameMessage (nm : String) : String :=
  nm ++ ": Items of this type must have unique names"

/-- The text of the error for a runtime item whose parent was not found. -/
def parentNotFoundMessage (nm : String) : String :=
  nm ++ " not added because its parent was not found"

/-- One iteration of the loop over `m_newItemVec` (lines 287-316): the new `m_windows`
and the messages reported. -/
def addNewItem (tid : Nat) (e : NewRuntimeItem) (s : mvApp) : List mvAppItem × List String :=
  let r := getItem s tid e.item.getName true
  if r.1.isSome then (s.m_windows, r.2 ++ [duplicateNameMessage e.item.getName])
  else if e.item.getType = mvAppItemType.Window then (s.m_windows ++ [e.item], r.2)
  else
    let a := addToWindows e.parent e.before e.item s.m_windows
    if a.1 = false then (a.2, r.2 ++ [parentNotFoundMessage e.item.getName])
    else (a.2, r.2)

/-- The loop `for (auto& newItem : m_newItemVec)`. -/
def addNewItems (tid : Nat) : List NewRuntimeItem → mvApp → mvApp
  | [], s => s
  | e :: rest, s =>
    addNewItems tid rest
      { s with
        m_windows := (addNewItem tid e s).1
        m_errors := s.m_errors ++ (addNewItem tid e s).2 }

/-- The loop over `m_windows` of a move-up request (lines 329-334). -/
def moveUpInWindows (nm : String) : List mvAppItem → Bool × List mvAppItem
  | [] => (false, [])
  | w :: rest =>
    if (w.moveChildUp nm).1 then (true, (w.moveChildUp nm).2 :: rest)
    else ((moveUpInWindows nm rest).1, (w.moveChildUp nm).2 :: (moveUpInWindows nm rest).2)

/-- The loop over `m_windows` of a move-down request (lines 349-354). -/
def moveDownInWindows (nm : String) : List mvAppItem → Bool × List mvAppItem
  | [] => (false, [])
  | w :: rest =>
    if (w.moveChildDown nm).1 then (true, (w.moveChildDown nm).2 :: rest)
    else ((moveDownInWindows nm rest).1, (w.moveChildDown nm).2 :: (moveDownInWindows nm rest).2)

/-- The text of the error for a move request that moved nothing. -/
def notMovedMessage (nm : String) : String :=
  nm ++ " not moved because it was not found"

/-- One iteration of the move-up loop (lines 325-337): the new `m_windows` and the
messages reported. -/
def moveItemUp (nm : String) (windows : List mvAppItem) : List mvAppItem × List String :=
  let r := moveUpInWindows nm windows
  (r.2, if r.1 = false then [notMovedMessage nm] else [])

/-- One iteration of the move-down loop (lines 345-357): the new `m_windows` and the
messages reported. -/
def moveItemDown (nm : String) (windows : List mvAppItem) : List mvAppItem × List String :=
  let r := moveDownInWindows nm windows
  (r.2, if r.1 = false then [notMovedMessage nm] else [])

/-- The loop `while (!m_upQueue.empty())`. -/
def drainUpQueue : List String → mvApp → mvApp
  | [], s => s
  | nm :: q, s =>
    drainUpQueue q
      { s with
        m_windows := (moveItemUp nm s.m_windows).1
        m_errors := s.m_errors ++ (moveItemUp nm s.m_windows).2
        m_upQueue := q }

/-- The loop `while (!m_downQueue.empty())`. -/
def drainDownQueue : List String → mvApp → mvApp
  | [], s => s
  | nm :: q, s =>
    drainDownQueue q
      { s with
        m_windows := (moveItemDown nm s.m_windows).1
        m_errors := s.m_errors ++ (moveItemDown nm s.m_windows).2
        m_downQueue := q }

/-- The loop `for (auto& callback : m_asyncCallbacks) m_tpool->submit(...)`. -/
def submitAll : List AsyncronousCallback → mvThreadPool → mvThreadPool
  | [], pool => pool
  | job :: rest, pool => submitAll rest (pool.submit job)

/-- The block "async callbacks" of `postrender` (lines 363-381); `now` is the value of
`clock_::now()` read when the pool is created. -/
def submitAsyncCallbacks (now : ℚ) (s : mvApp) : mvApp :=
  if s.m_asyncCallbacks.isEmpty = false then
    match s.m_tpool with
    | none =>
      { s with
        m_tpool := some (submitAll s.m_asyncCallbacks
          ⟨if s.m_threadPoolHighPerformance then 0 else s.m_threads, []⟩)
        m_poolStart := now
        m_threadPool := true
        m_log := s.m_log ++ ["Threadpool created"]
        m_asyncCallbacks := [] }
    | some pool =>
      { s with
        m_tpool := some (submitAll s.m_asyncCallbacks pool)
        m_asyncCallbacks := [] }
  else s

/-- The block "update timer if thread pool exists" (lines 384-385); `now` is the value
of `clock_::now()` read there. -/
def updateThreadTime (now : ℚ) (s : mvApp) : mvApp :=
  match s.m_tpool with
  | some _ => { s with m_threadTime := now - s.m_poolStart }
  | none => s

/-- The member `mvApp::postrender`, from the first queue on (the standard windows
rendered before are drawing code).  It runs on thread `tid`; `runtimeDflt` is the
default of the flag `ignoreRuntime` of `getItem` (see `deleteChildrenOf`); `tCreate` and
`tEnd` are the two readings of the clock. -/
def postrender (tid : Nat) (runtimeDflt : Bool) (tCreate tEnd : ℚ) (s : mvApp) : mvApp :=
  let s1 := drainDeleteChildrenQueue tid runtimeDflt s.m_deleteChildrenQueue s
  let s2 := drainDeleteQueue s1.m_deleteQueue s1
  let s3 := { addNewItems tid s2.m_newItemVec s2 with m_newItemVec := [] }
  let s4 := drainUpQueue s3.m_upQueue s3
  let s5 := drainDownQueue s4.m_downQueue s4
  let s6 := submitAsyncCallbacks tCreate s5
  updateThreadTime tEnd s6

/-- The block "check if threadpool is ready to be cleaned up" of `mvApp::prerender`
(lines 135-146). -/
def cleanupThreadPool (s : mvApp) : mvApp :=
  if s.m_threadTime > s.m_threadPoolTimeout then
    match s.m_tpool with
    | some _ =>
      { s with
        m_tpool := none
        m_threadTime := 0
        m_threadPool := false
        m_log := s.m_log ++ ["Threadpool destroyed"] }
    | none => s
  else s

/-- The scan of the loaded modules in `runCallback` (lines 766-776): the first module
that defines the name wins. -/
def scanModules (nm : String) : List PyDict → Option PyHandler
  | [] => none
  | m :: rest =>
    match m.lookup nm with
    | some h => some h
    | none => scanModules nm rest

/-- The resolution of a handler name in `runCallback` (lines 761-779): `__main__` first,
then the loaded modules. -/
def resolveHandler (s : mvApp) (nm : String) : Option PyHandler :=
  match s.m_hostMain.lookup nm with
  | some h => some h
  | none => scanModules nm s.m_hostModules

/-- The member `mvApp::runCallback(name, sender, data)`: the invocation made, if any,
and the messages reported. -/
def runCallback (s : mvApp) (nm sender : String) (data : Option PyObject) :
    List PyCall × List String :=
  if nm = "" then ([], [])
  else
    match resolveHandler s nm with
    | none => ([], [nm ++ " Callback doesn't exist"])
    | some h =>
      if h.callable then
        ([⟨h.id, sender, data.getD PyObject.None⟩],
          if (h.call sender (data.getD PyObject.None)).isNone then [nm ++ "Callback failed"]
          else [])
      else ([], [nm ++ " Callback not callable"])

/-- The member `mvApp::runReturnCallback(name, sender, data)`. -/
def runReturnCallback (s : mvApp) (nm sender : String) (data : Option PyObject) :
    List PyCall × List String :=
  if nm = "" then ([], [])
  else runCallback s nm sender (some (data.getD PyObject.None))

/-- The loop `while (!m_asyncReturns.empty())` of `prerender` (lines 158-163). -/
def drainAsyncReturns : List AsyncronousCallback → mvApp → mvApp
  | [], s => s
  | r :: q, s =>
    drainAsyncReturns q
      { s with
        m_hostCalls :=
          s.m_hostCalls ++ (runReturnCallback s r.name "Asyncrounous Callback" r.data).1
        m_errors := s.m_errors ++ (runReturnCallback s r.name "Asyncrounous Callback" r.data).2
        m_asyncReturns := q }

/-- The member `mvApp::prerender` up to the dispatch of the asynchronous results: the
idle check on the pool and the drain of `m_asyncReturns`.  The first-frame theme setup,
the style update, the input routing and the render callbacks that follow read the
state of the drawing library and touch neither the pool nor a queue; they are left
out. -/
def prerender (s : mvApp) : mvApp :=
  let s1 := cleanupThreadPool s
  drainAsyncReturns s1.m_asyncReturns s1

/-- The constructor `mvApp::mvApp()` run on thread `tid`: the main window is the only
window and is pushed on the parent stack.  `mainAddr` is the address of the main
window; the initial values of the pool settings are set in `mvApp.h`, which is not part
of the sources, and are taken as parameters. -/
def construct (tid mainAddr : Nat) (timeout : ℚ) (threads : Nat) (highPerformance : Bool) :
    mvApp :=
  { m_mainThreadID := tid
    m_windows := [mvAppItem.mk mainAddr "MainWindow" mvAppItemType.Window none []]
    m_parents := [mvAppItem.mk mainAddr "MainWindow" mvAppItemType.Window none []]
    m_deleteChildrenQueue := []
    m_deleteQueue := []
    m_newItemVec := []
    m_upQueue := []
    m_downQueue := []
    m_asyncCallbacks := []
    m_asyncReturns := []
    m_tpool := none
    m_poolStart := 0
    m_threadTime := 0
    m_threadPoolTimeout := timeout
    m_threadPool := false
    m_threads := threads
    m_threadPoolHighPerformance := highPerformance
    m_errors := []
    m_log := []
    m_hostLine := 0
    m_hostMain := []
    m_hostModules := []
    m_hostCalls := [] }

end mvApp

namespace mvAppItem

mutual
/-- An item followed by all its descendants, in depth-first order. -/
def items : mvAppItem → List mvAppItem
  | mk a n t p cs => mk a n t p cs :: itemsIn cs
/-- The items of a sequence, each followed by its descendants. -/
def itemsIn : List mvAppItem → List mvAppItem
  | [] => []
  | c :: rest => items c ++ itemsIn rest
end

end mvAppItem

namespace mvAppItem

mutual
/-- Below this item every non-window item refers back to its owner: the recursive form
of `parentRefsOK`. -/
def wellParented : mvAppItem → Prop
  | mk a _ _ _ cs => ownedBy a cs
/-- The items of a child sequence refer back to the owner at address `owner`, and so on
below them. -/
def ownedBy (owner : Nat) : List mvAppItem → Prop
  | [] => True
  | c :: rest =>
    (c.getType ≠ mvAppItemType.Window → c.getParent = some owner) ∧
      wellParented c ∧ ownedBy owner rest
end

end mvAppItem

/-- No two items of the tree (top-level windows and all descendants) share a name. -/
def uniqueNames (windows : List mvAppItem) : Prop :=
  (mvAppItem.namesIn windows).Nodup

/-- Every non-window item owned by an item of the tree refers back to that owner
through its parent reference. -/
def parentRefsOK (windows : List mvAppItem) : Prop :=
  ∀ p ∈ mvAppItem.itemsIn windows, ∀ c ∈ p.getChildren,
    c.getType ≠ mvAppItemType.Window → c.getParent = some p.addr

instance uniqueNames.decidable (windows : List mvAppItem) : Decidable (uniqueNames windows) :=
  inferInstanceAs (Decidable (mvAppItem.namesIn windows).Nodup)

instance parentRefsOK.decidable (windows : List mvAppItem) :
    Decidable (parentRefsOK windows) :=
  inferInstanceAs (Decidable (∀ p ∈ mvAppItem.itemsIn windows, ∀ c ∈ p.getChildren,
    c.getType ≠ mvAppItemType.Window → c.getParent = some p.addr))

namespace mvApp

/-- The member `mvApp::runAsyncCallback(name, data, returnname)` as a worker thread
runs it: the invocation made, the messages reported and the records pushed on
`m_asyncReturns`.  Unlike `runCallback` the member does not replace a null payload by
`Py_None`: lines 689-693 store `data` in the argument tuple as it is, and
`PyObject_CallObject` on a tuple with a null slot does not return, so the result is
`none` for a callable handler and a null payload.  With a payload the handler is
called with the sender "Async"; the record `{ returnname, result }` is pushed when the
handler was called and `returnname` is not empty, also when the call failed and
`result` is null. -/
def runAsyncCallbackCore (s : mvApp) (nm : String) (data : Option PyObject)
    (returnname : String) :
    Option (List PyCall × List String × List AsyncronousCallback) :=
  if nm = "" then some ([], [], [])
  else
    match resolveHandler s nm with
    | none => some ([], [nm ++ " Callback doesn't exist"], [])
    | some h =>
      if h.callable then
        match data with
        | none => none
        | some d =>
          some ([⟨h.id, "Async", d⟩],
            if (h.call "Async" d).isNone then [nm ++ "Callback failed"] else [],
            if returnname = "" then [] else [⟨returnname, h.call "Async" d, ""⟩])
      else some ([], [nm ++ " Callback not callable"], [])

/-- The effect of one execution of `mvApp::runAsyncCallback` on the state; `none` when
the execution does not return (see `runAsyncCallbackCore`). -/
def runAsyncCallback (nm : String) (data : Option PyObject) (returnname : String)
    (s : mvApp) : Option mvApp :=
  (runAsyncCallbackCore s nm data returnname).map (fun r =>
    { s with
      m_hostCalls := s.m_hostCalls ++ r.1
      m_errors := s.m_errors ++ r.2.1
      m_asyncReturns := s.m_asyncReturns ++ r.2.2 })

/-- The member `mvApp::addMTCallback(name, data, returnname)`; it may be called on any
thread. -/
def addMTCallback (nm : String) (data : Option PyObject) (returnname : String)
    (s : mvApp) : mvApp :=
  { s with m_asyncCallbacks := s.m_asyncCallbacks ++ [⟨nm, data, returnname⟩] }

/-- The member `mvApp::addRuntimeItem(parent, before, item)` called on thread `tid`. -/
def addRuntimeItem (tid : Nat) (parent before : String) (item : mvAppItem) (s : mvApp) :
    mvApp :=
  if (checkIfMainThread s tid).1 = false then
    { s with m_errors := s.m_errors ++ (checkIfMainThread s tid).2 }
  else
    { s with
      m_errors := s.m_errors ++ (checkIfMainThread s tid).2
      m_newItemVec := s.m_newItemVec ++ [⟨item, before, parent⟩] }

/-- The member `mvApp::addWindow(item)` called on thread `tid`. -/
def addWindow (tid : Nat) (item : mvAppItem) (s : mvApp) : mvApp :=
  if (checkIfMainThread s tid).1 = false then
    { s with m_errors := s.m_errors ++ (checkIfMainThread s tid).2 }
  else
    { s with
      m_errors := s.m_errors ++ (checkIfMainThread s tid).2
      m_windows := s.m_windows ++ [item] }

/-- The member `mvApp::topParent`: the top of the parent stack, which is the head of
`m_parents`. -/
def topParent (s : mvApp) : Option mvAppItem :=
  s.m_parents.head?

/-- The member `mvApp::getWindow(name)` called on thread `tid`; `runtimeDflt` is the
default of the flag `ignoreRuntime` of `getItem` (see `deleteChildrenOf`). -/
def getWindow (s : mvApp) (tid : Nat) (runtimeDflt : Bool) (nm : String) :
    Option mvAppItem × List String :=
  if (checkIfMainThread s tid).1 = false then (none, (checkIfMainThread s tid).2)
  else
    let r := getRuntimeItem s tid nm
    let g := getItem s tid nm runtimeDflt
    match r.1 with
    | some item =>
      (if item.getType = mvAppItemType.Window then some item else none,
        (checkIfMainThread s tid).2 ++ r.2)
    | none =>
      match g.1 with
      | some item =>
        (if item.getType = mvAppItemType.Window then some item else none,
          (checkIfMainThread s tid).2 ++ r.2 ++ g.2)
      | none => (none, (checkIfMainThread s tid).2 ++ r.2 ++ g.2)

end mvApp

namespace mvAppItem

mutual
/-- Modelled from the spec: `parentitem->addChild(item)` of `mvApp::addItem`, where
`mvAppItem::addChild` (not part of the sources) appends to the "ordered sequence of
owned children".  The receiver is the object at address `a`, looked for in this item
and below it; the flag tells whether it was found. -/
def addChildAt (a : Nat) (x : mvAppItem) : mvAppItem → Bool × mvAppItem
  | mk a0 n t p cs =>
    if a0 = a then (true, mk a0 n t p (cs ++ [x]))
    else ((addChildAtIn a x cs).1, mk a0 n t p (addChildAtIn a x cs).2)
/-- Modelled from the spec: the search of `addChildAt` through a sequence of items. -/
def addChildAtIn (a : Nat) (x : mvAppItem) : List mvAppItem → Bool × List mvAppItem
  | [] => (false, [])
  | c :: rest =>
    if (addChildAt a x c).1 then (true, (addChildAt a x c).2 :: rest)
    else ((addChildAtIn a x rest).1, c :: (addChildAtIn a x rest).2)
end

end mvAppItem

namespace mvApp

/-- The object at address `a` receives the child `x` when it is one of the pending
runtime items or sits below one. -/
def addChildAtRuntime (a : Nat) (x : mvAppItem) : List NewRuntimeItem → List NewRuntimeItem
  | [] => []
  | e :: rest =>
    if (mvAppItem.addChildAt a x e.item).1 then
      { e with item := (mvAppItem.addChildAt a x e.item).2 } :: rest
    else e :: addChildAtRuntime a x rest

/-- The last two statements of `mvApp::addItem`: `item->setParent(parentitem)` and
`parentitem->addChild(item)` for the parent at address `a`, which is an object of the
tree or of the pending-add vector. -/
def attachTo (a : Nat) (item : mvAppItem) (s : mvApp) : mvApp :=
  if (mvAppItem.addChildAtIn a (item.setParent a) s.m_windows).1 then
    { s with m_windows := (mvAppItem.addChildAtIn a (item.setParent a) s.m_windows).2 }
  else
    { s with m_newItemVec := addChildAtRuntime a (item.setParent a) s.m_newItemVec }

/-- The member `mvApp::addItem(item)` called on thread `tid`.  `duplicatesAllowed` is
`item->areDuplicatesAllowed()`, `count` the value of the static call counter after its
increment, `runtimeDflt` the default of the flag `ignoreRuntime` of `getItem`; the
debug assertion on the start flag is not rendered.  Of an entry of the parent stack
only the address is used.  The result is `none` when `m_windows[0]` is read from an
empty window list. -/
def addItem (tid : Nat) (runtimeDflt duplicatesAllowed : Bool) (count : Nat)
    (item : mvAppItem) (s : mvApp) : Option mvApp :=
  if (checkIfMainThread s tid).1 = false then
    some { s with m_errors := s.m_errors ++ (checkIfMainThread s tid).2 }
  else if duplicatesAllowed = false ∧ (getItem s tid item.getName runtimeDflt).1.isSome then
    some { s with
      m_errors := s.m_errors ++ (getItem s tid item.getName runtimeDflt).2 ++
        [item.getName ++ " " ++ toString count ++ ": Items of this type must have unique names"] }
  else
    match topParent s with
    | some parentitem => some (attachTo parentitem.addr item s)
    | none =>
      match s.m_windows with
      | [] => none
      | w :: _ => some (attachTo w.addr item s)

end mvApp

/-- Modelled from the spec: the resolution rule of the Callback Dispatcher in the
spec's words, "first in a primary top-level namespace, falling back to a linear scan of
all loaded namespaces", the first match winning. -/
def specResolve (primary : PyDict) (loaded : List PyDict) (nm : String) : Option PyHandler :=
  (primary :: loaded).findSome? (fun d => d.lookup nm)

/-- An event of the life of the application, as far as the worker pool is concerned:
the two halves of a frame, a request handed to `addRuntimeItem` or `addMTCallback`
between them, and a worker thread running the submitted job at position `i` of the
pool to its end. -/
inductive PoolEvent where
  | prerender
  | postrender (tid : Nat) (runtimeDflt : Bool) (tCreate tEnd : ℚ)
  | addRuntimeItem (tid : Nat) (parent before : String) (item : mvAppItem)
  | addMTCallback (nm : String) (data : Option PyObject) (returnname : String)
  | workerDone (i : Nat)

/-- The application together with the record of what the worker threads have done: the
positions, in the list of jobs submitted to the present pool, of the jobs that have
run to their end. -/
structure PoolWorld where
  app : mvApp
  finished : List Nat

namespace PoolWorld

/-- A submitted job is in flight (pending or running) when no worker has run it to its
end. -/
def jobsInFlight (w : PoolWorld) : Bool :=
  match w.app.m_tpool with
  | some pool => (List.range pool.submitted.length).any (fun i => decide (i ∉ w.finished))
  | none => false

/-- The effect of one event.  A destroyed pool takes the record of its finished jobs
with it; a worker runs a job only once.  An execution of `runAsyncCallback` that does
not return ends the life of the application: no state follows it, and the event leaves
the world as it is. -/
def step : PoolEvent → PoolWorld → PoolWorld
  | PoolEvent.prerender, w =>
    ⟨mvApp.prerender w.app,
      if (mvApp.prerender w.app).m_tpool.isNone then [] else w.finished⟩
  | PoolEvent.postrender tid runtimeDflt tCreate tEnd, w =>
    ⟨mvApp.postrender tid runtimeDflt tCreate tEnd w.app, w.finished⟩
  | PoolEvent.addRuntimeItem tid parent before item, w =>
    ⟨mvApp.addRuntimeItem tid parent before item w.app, w.finished⟩
  | PoolEvent.addMTCallback nm data returnname, w =>
    ⟨mvApp.addMTCallback nm data returnname w.app, w.finished⟩
  | PoolEvent.workerDone i, w =>
    match w.app.m_tpool with
    | some pool =>
      match pool.submitted[i]? with
      | some job =>
        if i ∈ w.finished then w
        else
          match mvApp.runAsyncCallback job.name job.data job.returnname w.app with
          | some app => ⟨app, i :: w.finished⟩
          | none => w
      | none => w
    | none => w

/-- The effect of a sequence of events, the first of the list first. -/
def run : List PoolEvent → PoolWorld → PoolWorld
  | [], w => w
  | e :: rest, w => run rest (step e w)

end PoolWorld

/-- An event that hands a job to `addMTCallback`. -/
def PoolEvent.isSubmission : PoolEvent → Bool
  | PoolEvent.addMTCallback _ _ _ => true
  | _ => false

namespace mvApp

/-- The member `mvApp::pushParent(item)`; the top of the stack is the head of
`m_parents`. -/
def pushParent (item : mvAppItem) (s : mvApp) : mvApp :=
  { s with m_parents := item :: s.m_parents }

/-- The member `mvApp::popParent()`: the item returned (null for an empty stack, which
is reported) and the state after the call. -/
def popParent (s : mvApp) : Option mvAppItem × mvApp :=
  match s.m_parents with
  | [] => (none, { s with m_errors := s.m_errors ++ ["No parent to pop."] })
  | item :: rest => (some item, { s with m_parents := rest })

/-- The member `mvApp::setWindowSize(width, height)`.  The size of the viewport and the
size stored in a window are drawing state, which is not part of `mvApp` here; what is
kept of the member is its read of `m_windows[0]`: the result is `none` when that read
is out of range, and the state as it was otherwise. -/
def setWindowSize (_width _height : Nat) (s : mvApp) : Option mvApp :=
  match s.m_windows with
  | [] => none
  | _ :: _ => some s

end mvApp

/-- The position of the render thread inside the block "async callbacks" of
`mvApp::postrender` (lines 363-381): before the test of line 364, before the statement
`m_asyncCallbacks.clear()` of line 380, and behind the block.  The block runs while the
interpreter lock is released (`Py_BEGIN_ALLOW_THREADS`, line 219) and without `m_mutex`:
the `lock_guard` of line 379 is commented out. -/
inductive AsyncBlockPC where
  | atTest
  | atClear
  | done
deriving DecidableEq, Repr

namespace mvApp

/-- One step of the render thread through the block "async callbacks" of `postrender`:
from `atTest` the test of line 364, the creation of the pool and the submission loop
(lines 366-377), from `atClear` the statement `m_asyncCallbacks.clear()`.  `now` is the
value of `clock_::now()` read when the pool is created. -/
def asyncBlockStep (now : ℚ) : AsyncBlockPC × mvApp → AsyncBlockPC × mvApp
  | (AsyncBlockPC.atTest, s) =>
    if s.m_asyncCallbacks.isEmpty = false then
      match s.m_tpool with
      | none =>
        (AsyncBlockPC.atClear,
          { s with
            m_tpool := some (submitAll s.m_asyncCallbacks
              ⟨if s.m_threadPoolHighPerformance then 0 else s.m_threads, []⟩)
            m_poolStart := now
            m_threadPool := true
            m_log := s.m_log ++ ["Threadpool created"] })
      | some pool =>
        (AsyncBlockPC.atClear, { s with m_tpool := some (submitAll s.m_asyncCallbacks pool) })
    else (AsyncBlockPC.done, s)
  | (AsyncBlockPC.atClear, s) => (AsyncBlockPC.done, { s with m_asyncCallbacks := [] })
  | (AsyncBlockPC.done, s) => (AsyncBlockPC.done, s)

/-- A call of `addMTCallback` made by a worker thread while the render thread is inside
the block; the push is one step, as `addMTCallback` holds `m_mutex` for it. -/
def asyncBlockEnqueue (nm : String) (data : Option PyObject) (returnname : String) :
    AsyncBlockPC × mvApp → AsyncBlockPC × mvApp
  | (pc, s) => (pc, addMTCallback nm data returnname s)

end mvApp

/-! ## The item tree: search, removal and insertion by name -/

namespace mvAppItem

/-- Induction over an item and over a sequence of items at once. -/
theorem induct_forest {P : mvAppItem → Prop} {Q : List mvAppItem → Prop}
    (hmk : ∀ a n t p cs, Q cs → P (mk a n t p cs)) (hnil : Q [])
    (hcons : ∀ c rest, P c → Q rest → Q (c :: rest)) :
    (∀ c, P c) ∧ (∀ cs, Q cs) := by
  have hP : ∀ c, P c := fun c => @mvAppItem.rec P Q hmk hnil hcons c
  refine ⟨hP, fun cs => ?_⟩
  induction cs with
  | nil => exact hnil
  | cons c rest ih => exact hcons c rest (hP c) ih

theorem names_eq (c : mvAppItem) : names c = c.getName :: namesIn c.getChildren := by
  cases c; simp [names, getName, getChildren]

theorem getChild_eq (nm : String) (c : mvAppItem) :
    getChild nm c = getChildIn nm c.getChildren := by
  cases c; simp [getChild, getChildren]

theorem getChildIn_isSome (nm : String) :
    ∀ cs : List mvAppItem, (getChildIn nm cs).isSome = true ↔ nm ∈ namesIn cs := by
  refine (induct_forest (P := fun c => (getChild nm c).isSome = true ↔ nm ∈ namesIn c.getChildren)
    ?_ ?_ ?_).2
  · intro a n t p cs ih
    simpa [getChild, getChildren] using ih
  · simp [getChildIn, namesIn]
  · intro c rest ihc ihr
    simp only [getChildIn, namesIn, names_eq, List.mem_append, List.mem_cons]
    by_cases h : c.getName = nm
    · simp [h]
    · have h' : ¬ nm = c.getName := fun e => h e.symm
      cases hc : getChild nm c with
      | some r => simp [h, hc] at ihc ⊢; exact Or.inl (Or.inr ihc)
      | none => simp [h, h', hc] at ihc ⊢; simp [ihr, ihc]

theorem getChild_isSome (nm : String) (c : mvAppItem) :
    (getChild nm c).isSome = true ↔ nm ∈ namesIn c.getChildren := by
  rw [getChild_eq]; exact getChildIn_isSome nm _

theorem deleteChild_eq (nm : String) (c : mvAppItem) :
    deleteChild nm c = ((deleteChildIn nm c.getChildren).1,
      mk c.addr c.getName c.getType c.getParent (deleteChildIn nm c.getChildren).2) := by
  cases c; simp [deleteChild, getChildren, addr, getName, getType, getParent]

theorem mk_eta (c : mvAppItem) :
    mk c.addr c.getName c.getType c.getParent c.getChildren = c := by
  cases c; rfl

theorem deleteChildIn_not_mem (nm : String) :
    ∀ cs : List mvAppItem, nm ∉ namesIn cs → deleteChildIn nm cs = (false, cs) := by
  refine (induct_forest (P := fun c => nm ∉ namesIn c.getChildren → deleteChild nm c = (false, c))
    ?_ ?_ ?_).2
  · intro a n t p cs ih h
    simp only [getChildren] at h
    simp [deleteChild, ih h]
  · intro _; simp [deleteChildIn]
  · intro c rest ihc ihr h
    simp only [namesIn, names_eq, List.mem_append, List.mem_cons, not_or] at h
    obtain ⟨⟨h1, h2⟩, h3⟩ := h
    have h1' : ¬ c.getName = nm := fun e => h1 e.symm
    simp [deleteChildIn, h1', ihc h2, ihr h3]

theorem deleteChild_not_mem (nm : String) (c : mvAppItem) (h : nm ∉ namesIn c.getChildren) :
    deleteChild nm c = (false, c) := by
  rw [deleteChild_eq, deleteChildIn_not_mem nm _ h]; simp [mk_eta]

theorem deleteChildIn_mem (nm : String) :
    ∀ cs : List mvAppItem, nm ∈ namesIn cs → (deleteChildIn nm cs).1 = true := by
  refine (induct_forest (P := fun c => nm ∈ namesIn c.getChildren → (deleteChild nm c).1 = true)
    ?_ ?_ ?_).2
  · intro a n t p cs ih h
    simp only [getChildren] at h
    simp [deleteChild, ih h]
  · intro h; simp [namesIn] at h
  · intro c rest ihc ihr h
    simp only [namesIn, names_eq, List.mem_append, List.mem_cons] at h
    simp only [deleteChildIn]
    by_cases h1 : c.getName = nm
    · simp [h1]
    · by_cases h2 : (deleteChild nm c).1 = true
      · simp [h1, h2]
      · simp only [h1, h2, if_false]
        rcases h with (h | h) | h
        · exact absurd h.symm h1
        · exact absurd (ihc h) h2
        · exact ihr h

theorem deleteChild_mem (nm : String) (c : mvAppItem) (h : nm ∈ namesIn c.getChildren) :
    (deleteChild nm c).1 = true := by
  rw [deleteChild_eq]; exact deleteChildIn_mem nm _ h

theorem addRuntimeChildIn_not_mem (parent before : String) (item : mvAppItem) :
    ∀ cs : List mvAppItem, parent ∉ namesIn cs →
      addRuntimeChildIn parent before item cs = (false, cs) := by
  refine (induct_forest
    (P := fun c => parent ∉ names c → addRuntimeChild parent before item c = (false, c))
    ?_ ?_ ?_).2
  · intro a n t p cs ih h
    simp only [names, List.mem_cons, not_or] at h
    have h1 : ¬ n = parent := fun e => h.1 e.symm
    simp [addRuntimeChild, h1, ih h.2]
  · intro _; simp [addRuntimeChildIn]
  · intro c rest ihc ihr h
    simp only [namesIn, List.mem_append, not_or] at h
    simp [addRuntimeChildIn, ihc h.1, ihr h.2]

theorem addRuntimeChild_not_mem (parent before : String) (item c : mvAppItem)
    (h : parent ∉ names c) : addRuntimeChild parent before item c = (false, c) := by
  cases c with
  | mk a n t p cs =>
    simp only [names, List.mem_cons, not_or] at h
    have h1 : ¬ n = parent := fun e => h.1 e.symm
    simp [addRuntimeChild, h1, addRuntimeChildIn_not_mem parent before item cs h.2]

end mvAppItem

/-! ## The loops of `mvApp` over the window list -/

namespace mvApp

open mvAppItem

theorem findItem_isSome (nm : String) :
    ∀ ws : List mvAppItem, (findItem nm ws).isSome = true ↔ nm ∈ namesIn ws := by
  intro ws
  induction ws with
  | nil => simp [findItem, namesIn]
  | cons w rest ih =>
    simp only [findItem, namesIn, names_eq, List.mem_append, List.mem_cons]
    by_cases h : w.getName = nm
    · simp [h]
    · have h' : ¬ nm = w.getName := fun e => h e.symm
      have hc := getChild_isSome nm w
      cases hw : getChild nm w with
      | some r => simp [h, hw] at hc ⊢; exact Or.inl (Or.inr hc)
      | none => simp [h, h', hw] at hc ⊢; simp [ih, hc]

theorem findItem_eq_none (nm : String) (ws : List mvAppItem) (h : nm ∉ namesIn ws) :
    findItem nm ws = none := by
  cases hf : findItem nm ws with
  | none => rfl
  | some r => exact absurd ((findItem_isSome nm ws).1 (by simp [hf])) h

theorem checkIfMainThread_main (s : mvApp) : checkIfMainThread s s.m_mainThreadID = (true, []) := by
  simp [checkIfMainThread]

theorem getItem_main (s : mvApp) (nm : String) :
    getItem s s.m_mainThreadID nm true = (findItem nm s.m_windows, []) := by
  simp [getItem, checkIfMainThread_main]

theorem deleteFromWindows_not_mem (nm : String) :
    ∀ ws : List mvAppItem, nm ∉ namesIn ws → deleteFromWindows nm ws = (false, ws) := by
  intro ws
  induction ws with
  | nil => intro _; simp [deleteFromWindows]
  | cons w rest ih =>
    intro h
    simp only [namesIn, names_eq, List.mem_append, List.mem_cons, not_or] at h
    simp [deleteFromWindows, deleteChild_not_mem nm w h.1.2, ih h.2]

theorem windowDeleting_iff (nm : String) (ws : List mvAppItem) :
    windowDeleting nm ws = true ↔ nm ∈ ws.map getName := by
  induction ws with
  | nil => simp [windowDeleting]
  | cons w rest ih =>
    simp only [windowDeleting, List.map_cons, List.mem_cons]
    by_cases h : w.getName = nm
    · simp [h]
    · have h' : ¬ nm = w.getName := fun e => h e.symm
      simp [h, h', ih]

theorem map_getName_subset (ws : List mvAppItem) : ∀ n ∈ ws.map getName, n ∈ namesIn ws := by
  induction ws with
  | nil => simp
  | cons w rest ih =>
    intro n hn
    simp only [List.map_cons, List.mem_cons] at hn
    simp only [namesIn, names_eq, List.mem_append, List.mem_cons]
    rcases hn with hn | hn
    · exact Or.inl (Or.inl hn)
    · exact Or.inr (ih n hn)

theorem windowDeleting_not_mem (nm : String) (ws : List mvAppItem) (h : nm ∉ namesIn ws) :
    windowDeleting nm ws = false := by
  cases hw : windowDeleting nm ws with
  | false => rfl
  | true => exact absurd (map_getName_subset ws nm ((windowDeleting_iff nm ws).1 hw)) h

theorem addToWindows_not_mem (parent before : String) (item : mvAppItem) :
    ∀ ws : List mvAppItem, parent ∉ namesIn ws →
      addToWindows parent before item ws = (false, ws) := by
  intro ws
  induction ws with
  | nil => intro _; simp [addToWindows]
  | cons w rest ih =>
    intro h
    simp only [namesIn, List.mem_append, not_or] at h
    simp [addToWindows, addRuntimeChild_not_mem parent before item w h.1, ih h.2]

end mvApp

namespace mvApp

open mvAppItem

@[simp] theorem addNewItems_m_mainThreadID (tid : Nat) (q : List NewRuntimeItem) :
    ∀ s : mvApp, (addNewItems tid q s).m_mainThreadID = s.m_mainThreadID := by
  induction q with
  | nil => intro s; rfl
  | cons e rest ih => intro s; simp [addNewItems, ih]

theorem addNewItems_append (tid : Nat) (q r : List NewRuntimeItem) :
    ∀ s : mvApp, addNewItems tid (q ++ r) s = addNewItems tid r (addNewItems tid q s) := by
  induction q with
  | nil => intro s; rfl
  | cons e rest ih => intro s; simp [addNewItems, ih]

theorem addNewItem_duplicate (s : mvApp) (e : NewRuntimeItem)
    (h : e.item.getName ∈ namesIn s.m_windows) :
    addNewItem s.m_mainThreadID e s =
      (s.m_windows, [duplicateNameMessage e.item.getName]) := by
  have hf := (findItem_isSome e.item.getName s.m_windows).2 h
  simp [addNewItem, getItem_main, hf]

theorem addNewItem_no_parent (s : mvApp) (e : NewRuntimeItem)
    (hname : e.item.getName ∉ namesIn s.m_windows)
    (htype : e.item.getType ≠ mvAppItemType.Window)
    (hparent : e.parent ∉ namesIn s.m_windows) :
    addNewItem s.m_mainThreadID e s =
      (s.m_windows, [parentNotFoundMessage e.item.getName]) := by
  have hf := findItem_eq_none e.item.getName s.m_windows hname
  simp [addNewItem, getItem_main, hf, htype, addToWindows_not_mem _ _ _ _ hparent]

theorem deleteItem_not_found (ws : List mvAppItem) (nm : String) (h : nm ∉ namesIn ws) :
    deleteItem nm ws = (ws, [notDeletedMessage nm]) := by
  simp [deleteItem, deleteFromWindows_not_mem nm _ h, windowDeleting_not_mem nm _ h]

end mvApp

namespace mvApp

/-! ### What each loop leaves alone -/

@[simp] theorem drainDeleteChildrenQueue_m_mainThreadID (tid : Nat) (runtimeDflt : Bool) (q : List String) :
    ∀ s : mvApp, (drainDeleteChildrenQueue tid runtimeDflt q s).m_mainThreadID = s.m_mainThreadID := by
  induction q with
  | nil => intro s; rfl
  | cons x q ih => intro s; simp [drainDeleteChildrenQueue, ih]

@[simp] theorem drainDeleteChildrenQueue_m_deleteQueue (tid : Nat) (runtimeDflt : Bool) (q : List String) :
    ∀ s : mvApp, (drainDeleteChildrenQueue tid runtimeDflt q s).m_deleteQueue = s.m_deleteQueue := by
  induction q with
  | nil => intro s; rfl
  | cons x q ih => intro s; simp [drainDeleteChildrenQueue, ih]

@[simp] theorem drainDeleteChildrenQueue_m_upQueue (tid : Nat) (runtimeDflt : Bool) (q : List String) :
    ∀ s : mvApp, (drainDeleteChildrenQueue tid runtimeDflt q s).m_upQueue = s.m_upQueue := by
  induction q with
  | nil => intro s; rfl
  | cons x q ih => intro s; simp [drainDeleteChildrenQueue, ih]

@[simp] theorem drainDeleteChildrenQueue_m_downQueue (tid : Nat) (runtimeDflt : Bool) (q : List String) :
    ∀ s : mvApp, (drainDeleteChildrenQueue tid runtimeDflt q s).m_downQueue = s.m_downQueue := by
  induction q with
  | nil => intro s; rfl
  | cons x q ih => intro s; simp [drainDeleteChildrenQueue, ih]

@[simp] theorem drainDeleteChildrenQueue_m_asyncCallbacks (tid : Nat) (runtimeDflt : Bool) (q : List String) :
    ∀ s : mvApp, (drainDeleteChildrenQueue tid runtimeDflt q s).m_asyncCallbacks = s.m_asyncCallbacks := by
  induction q with
  | nil => intro s; rfl
  | cons x q ih => intro s; simp [drainDeleteChildrenQueue, ih]

@[simp] theorem drainDeleteChildrenQueue_m_asyncReturns (tid : Nat) (runtimeDflt : Bool) (q : List String) :
    ∀ s : mvApp, (drainDeleteChildrenQueue tid runtimeDflt q s).m_asyncReturns = s.m_asyncReturns := by
  induction q with
  | nil => intro s; rfl
  | cons x q ih => intro s; simp [drainDeleteChildrenQueue, ih]

@[simp] theorem drainDeleteChildrenQueue_m_tpool (tid : Nat) (runtimeDflt : Bool) (q : List String) :
    ∀ s : mvApp, (drainDeleteChildrenQueue tid runtimeDflt q s).m_tpool = s.m_tpool := by
  induction q with
  | nil => intro s; rfl
  | cons x q ih => intro s; simp [drainDeleteChildrenQueue, ih]

@[simp] theorem drainDeleteChildrenQueue_m_poolStart (tid : Nat) (runtimeDflt : Bool) (q : List String) :
    ∀ s : mvApp, (drainDeleteChildrenQueue tid runtimeDflt q s).m_poolStart = s.m_poolStart := by
  induction q with
  | nil => intro s; rfl
  | cons x q ih => intro s; simp [drainDeleteChildrenQueue, ih]

@[simp] theorem drainDeleteChildrenQueue_m_threadTime (tid : Nat) (runtimeDflt : Bool) (q : List String) :
    ∀ s : mvApp, (drainDeleteChildrenQueue tid runtimeDflt q s).m_threadTime = s.m_threadTime := by
  induction q with
  | nil => intro s; rfl
  | cons x q ih => intro s; simp [drainDeleteChildrenQueue, ih]

@[simp] theorem drainDeleteChildrenQueue_m_threadPoolTimeout (tid : Nat) (runtimeDflt : Bool) (q : List String) :
    ∀ s : mvApp, (drainDeleteChildrenQueue tid runtimeDflt q s).m_threadPoolTimeout = s.m_threadPoolTimeout := by
  induction q with
  | nil => intro s; rfl
  | cons x q ih => intro s; simp [drainDeleteChildrenQueue, ih]

@[simp] theorem drainDeleteChildrenQueue_m_threadPool (tid : Nat) (runtimeDflt : Bool) (q : List String) :
    ∀ s : mvApp, (drainDeleteChildrenQueue tid runtimeDflt q s).m_threadPool = s.m_threadPool := by
  induction q with
  | nil => intro s; rfl
  | cons x q ih => intro s; simp [drainDeleteChildrenQueue, ih]

@[simp] theorem drainDeleteChildrenQueue_m_threads (tid : Nat) (runtimeDflt : Bool) (q : List String) :
    ∀ s : mvApp, (drainDeleteChildrenQueue tid runtimeDflt q s).m_threads = s.m_threads := by
  induction q with
  | nil => intro s; rfl
  | cons x q ih => intro s; simp [drainDeleteChildrenQueue, ih]

@[simp] theorem drainDeleteChildrenQueue_m_threadPoolHighPerformance (tid : Nat) (runtimeDflt : Bool) (q : List String) :
    ∀ s : mvApp, (drainDeleteChildrenQueue tid runtimeDflt q s).m_threadPoolHighPerformance = s.m_threadPoolHighPerformance := by
  induction q with
  | nil => intro s; rfl
  | cons x q ih => intro s; simp [drainDeleteChildrenQueue, ih]

@[simp] theorem drainDeleteChildrenQueue_m_log (tid : Nat) (runtimeDflt : Bool) (q : List String) :
    ∀ s : mvApp, (drainDeleteChildrenQueue tid runtimeDflt q s).m_log = s.m_log := by
  induction q with
  | nil => intro s; rfl
  | cons x q ih => intro s; simp [drainDeleteChildrenQueue, ih]

@[simp] theorem drainDeleteChildrenQueue_m_hostCalls (tid : Nat) (runtimeDflt : Bool) (q : List String) :
    ∀ s : mvApp, (drainDeleteChildrenQueue tid runtimeDflt q s).m_hostCalls = s.m_hostCalls := by
  induction q with
  | nil => intro s; rfl
  | cons x q ih => intro s; simp [drainDeleteChildrenQueue, ih]

@[simp] theorem drainDeleteQueue_m_mainThreadID (q : List String) :
    ∀ s : mvApp, (drainDeleteQueue q s).m_mainThreadID = s.m_mainThreadID := by
  induction q with
  | nil => intro s; rfl
  | cons x q ih => intro s; simp [drainDeleteQueue, ih]

@[simp] theorem drainDeleteQueue_m_deleteChildrenQueue (q : List String) :
    ∀ s : mvApp, (drainDeleteQueue q s).m_deleteChildrenQueue = s.m_deleteChildrenQueue := by
  induction q with
  | nil => intro s; rfl
  | cons x q ih => intro s; simp [drainDeleteQueue, ih]

@[simp] theorem drainDeleteQueue_m_newItemVec (q : List String) :
    ∀ s : mvApp, (drainDeleteQueue q s).m_newItemVec = s.m_newItemVec := by
  induction q with
  | nil => intro s; rfl
  | cons x q ih => intro s; simp [drainDeleteQueue, ih]

@[simp] theorem drainDeleteQueue_m_upQueue (q : List String) :
    ∀ s : mvApp, (drainDeleteQueue q s).m_upQueue = s.m_upQueue := by
  induction q with
  | nil => intro s; rfl
  | cons x q ih => intro s; simp [drainDeleteQueue, ih]

@[simp] theorem drainDeleteQueue_m_downQueue (q : List String) :
    ∀ s : mvApp, (drainDeleteQueue q s).m_downQueue = s.m_downQueue := by
  induction q with
  | nil => intro s; rfl
  | cons x q ih => intro s; simp [drainDeleteQueue, ih]

@[simp] theorem drainDeleteQueue_m_asyncCallbacks (q : List String) :
    ∀ s : mvApp, (drainDeleteQueue q s).m_asyncCallbacks = s.m_asyncCallbacks := by
  induction q with
  | nil => intro s; rfl
  | cons x q ih => intro s; simp [drainDeleteQueue, ih]

@[simp] theorem drainDeleteQueue_m_asyncReturns (q : List String) :
    ∀ s : mvApp, (drainDeleteQueue q s).m_asyncReturns = s.m_asyncReturns := by
  induction q with
  | nil => intro s; rfl
  | cons x q ih => intro s; simp [drainDeleteQueue, ih]

@[simp] theorem drainDeleteQueue_m_tpool (q : List String) :
    ∀ s : mvApp, (drainDeleteQueue q s).m_tpool = s.m_tpool := by
  induction q with
  | nil => intro s; rfl
  | cons x q ih => intro s; simp [drainDeleteQueue, ih]

@[simp] theorem drainDeleteQueue_m_poolStart (q : List String) :
    ∀ s : mvApp, (drainDeleteQueue q s).m_poolStart = s.m_poolStart := by
  induction q with
  | nil => intro s; rfl
  | cons x q ih => intro s; simp [drainDeleteQueue, ih]

@[simp] theorem drainDeleteQueue_m_threadTime (q : List String) :
    ∀ s : mvApp, (drainDeleteQueue q s).m_threadTime = s.m_threadTime := by
  induction q with
  | nil => intro s; rfl
  | cons x q ih => intro s; simp [drainDeleteQueue, ih]

@[simp] theorem drainDeleteQueue_m_threadPoolTimeout (q : List String) :
    ∀ s : mvApp, (drainDeleteQueue q s).m_threadPoolTimeout = s.m_threadPoolTimeout := by
  induction q with
  | nil => intro s; rfl
  | cons x q ih => intro s; simp [drainDeleteQueue, ih]

@[simp] theorem drainDeleteQueue_m_threadPool (q : List String) :
    ∀ s : mvApp, (drainDeleteQueue q s).m_threadPool = s.m_threadPool := by
  induction q with
  | nil => intro s; rfl
  | cons x q ih => intro s; simp [drainDeleteQueue, ih]

@[simp] theorem drainDeleteQueue_m_threads (q : List String) :
    ∀ s : mvApp, (drainDeleteQueue q s).m_threads = s.m_threads := by
  induction q with
  | nil => intro s; rfl
  | cons x q ih => intro s; simp [drainDeleteQueue, ih]

@[simp] theorem drainDeleteQueue_m_threadPoolHighPerformance (q : List String) :
    ∀ s : mvApp, (drainDeleteQueue q s).m_threadPoolHighPerformance = s.m_threadPoolHighPerformance := by
  induction q with
  | nil => intro s; rfl
  | cons x q ih => intro s; simp [drainDeleteQueue, ih]

@[simp] theorem drainDeleteQueue_m_log (q : List String) :
    ∀ s : mvApp, (drainDeleteQueue q s).m_log = s.m_log := by
  induction q with
  | nil => intro s; rfl
  | cons x q ih => intro s; simp [drainDeleteQueue, ih]

@[simp] theorem drainDeleteQueue_m_hostCalls (q : List String) :
    ∀ s : mvApp, (drainDeleteQueue q s).m_hostCalls = s.m_hostCalls := by
  induction q with
  | nil => intro s; rfl
  | cons x q ih => intro s; simp [drainDeleteQueue, ih]

@[simp] theorem addNewItems_m_deleteChildrenQueue (tid : Nat) (q : List NewRuntimeItem) :
    ∀ s : mvApp, (addNewItems tid q s).m_deleteChildrenQueue = s.m_deleteChildrenQueue := by
  induction q with
  | nil => intro s; rfl
  | cons x q ih => intro s; simp [addNewItems, ih]

@[simp] theorem addNewItems_m_deleteQueue (tid : Nat) (q : List NewRuntimeItem) :
    ∀ s : mvApp, (addNewItems tid q s).m_deleteQueue = s.m_deleteQueue := by
  induction q with
  | nil => intro s; rfl
  | cons x q ih => intro s; simp [addNewItems, ih]

@[simp] theorem addNewItems_m_newItemVec (tid : Nat) (q : List NewRuntimeItem) :
    ∀ s : mvApp, (addNewItems tid q s).m_newItemVec = s.m_newItemVec := by
  induction q with
  | nil => intro s; rfl
  | cons x q ih => intro s; simp [addNewItems, ih]

@[simp] theorem addNewItems_m_upQueue (tid : Nat) (q : List NewRuntimeItem) :
    ∀ s : mvApp, (addNewItems tid q s).m_upQueue = s.m_upQueue := by
  induction q with
  | nil => intro s; rfl
  | cons x q ih => intro s; simp [addNewItems, ih]

@[simp] theorem addNewItems_m_downQueue (tid : Nat) (q : List NewRuntimeItem) :
    ∀ s : mvApp, (addNewItems tid q s).m_downQueue = s.m_downQueue := by
  induction q with
  | nil => intro s; rfl
  | cons x q ih => intro s; simp [addNewItems, ih]

@[simp] theorem addNewItems_m_asyncCallbacks (tid : Nat) (q : List NewRuntimeItem) :
    ∀ s : mvApp, (addNewItems tid q s).m_asyncCallbacks = s.m_asyncCallbacks := by
  induction q with
  | nil => intro s; rfl
  | cons x q ih => intro s; simp [addNewItems, ih]

@[simp] theorem addNewItems_m_asyncReturns (tid : Nat) (q : List NewRuntimeItem) :
    ∀ s : mvApp, (addNewItems tid q s).m_asyncReturns = s.m_asyncReturns := by
  induction q with
  | nil => intro s; rfl
  | cons x q ih => intro s; simp [addNewItems, ih]

@[simp] theorem addNewItems_m_tpool (tid : Nat) (q : List NewRuntimeItem) :
    ∀ s : mvApp, (addNewItems tid q s).m_tpool = s.m_tpool := by
  induction q with
  | nil => intro s; rfl
  | cons x q ih => intro s; simp [addNewItems, ih]

@[simp] theorem addNewItems_m_poolStart (tid : Nat) (q : List NewRuntimeItem) :
    ∀ s : mvApp, (addNewItems tid q s).m_poolStart = s.m_poolStart := by
  induction q with
  | nil => intro s; rfl
  | cons x q ih => intro s; simp [addNewItems, ih]

@[simp] theorem addNewItems_m_threadTime (tid : Nat) (q : List NewRuntimeItem) :
    ∀ s : mvApp, (addNewItems tid q s).m_threadTime = s.m_threadTime := by
  induction q with
  | nil => intro s; rfl
  | cons x q ih => intro s; simp [addNewItems, ih]

@[simp] theorem addNewItems_m_threadPoolTimeout (tid : Nat) (q : List NewRuntimeItem) :
    ∀ s : mvApp, (addNewItems tid q s).m_threadPoolTimeout = s.m_threadPoolTimeout := by
  induction q with
  | nil => intro s; rfl
  | cons x q ih => intro s; simp [addNewItems, ih]

@[simp] theorem addNewItems_m_threadPool (tid : Nat) (q : List NewRuntimeItem) :
    ∀ s : mvApp, (addNewItems tid q s).m_threadPool = s.m_threadPool := by
  induction q with
  | nil => intro s; rfl
  | cons x q ih => intro s; simp [addNewItems, ih]

@[simp] theorem addNewItems_m_threads (tid : Nat) (q : List NewRuntimeItem) :
    ∀ s : mvApp, (addNewItems tid q s).m_threads = s.m_threads := by
  induction q with
  | nil => intro s; rfl
  | cons x q ih => intro s; simp [addNewItems, ih]

@[simp] theorem addNewItems_m_threadPoolHighPerformance (tid : Nat) (q : List NewRuntimeItem) :
    ∀ s : mvApp, (addNewItems tid q s).m_threadPoolHighPerformance = s.m_threadPoolHighPerformance := by
  induction q with
  | nil => intro s; rfl
  | cons x q ih => intro s; simp [addNewItems, ih]

@[simp] theorem addNewItems_m_log (tid : Nat) (q : List NewRuntimeItem) :
    ∀ s : mvApp, (addNewItems tid q s).m_log = s.m_log := by
  induction q with
  | nil => intro s; rfl
  | cons x q ih => intro s; simp [addNewItems, ih]

@[simp] theorem addNewItems_m_hostCalls (tid : Nat) (q : List NewRuntimeItem) :
    ∀ s : mvApp, (addNewItems tid q s).m_hostCalls = s.m_hostCalls := by
  induction q with
  | nil => intro s; rfl
  | cons x q ih => intro s; simp [addNewItems, ih]

@[simp] theorem drainUpQueue_m_mainThreadID (q : List String) :
    ∀ s : mvApp, (drainUpQueue q s).m_mainThreadID = s.m_mainThreadID := by
  induction q with
  | nil => intro s; rfl
  | cons x q ih => intro s; simp [drainUpQueue, ih]

@[simp] theorem drainUpQueue_m_deleteChildrenQueue (q : List String) :
    ∀ s : mvApp, (drainUpQueue q s).m_deleteChildrenQueue = s.m_deleteChildrenQueue := by
  induction q with
  | nil => intro s; rfl
  | cons x q ih => intro s; simp [drainUpQueue, ih]

@[simp] theorem drainUpQueue_m_deleteQueue (q : List String) :
    ∀ s : mvApp, (drainUpQueue q s).m_deleteQueue = s.m_deleteQueue := by
  induction q with
  | nil => intro s; rfl
  | cons x q ih => intro s; simp [drainUpQueue, ih]

@[simp] theorem drainUpQueue_m_newItemVec (q : List String) :
    ∀ s : mvApp, (drainUpQueue q s).m_newItemVec = s.m_newItemVec := by
  induction q with
  | nil => intro s; rfl
  | cons x q ih => intro s; simp [drainUpQueue, ih]

@[simp] theorem drainUpQueue_m_downQueue (q : List String) :
    ∀ s : mvApp, (drainUpQueue q s).m_downQueue = s.m_downQueue := by
  induction q with
  | nil => intro s; rfl
  | cons x q ih => intro s; simp [drainUpQueue, ih]

@[simp] theorem drainUpQueue_m_asyncCallbacks (q : List String) :
    ∀ s : mvApp, (drainUpQueue q s).m_asyncCallbacks = s.m_asyncCallbacks := by
  induction q with
  | nil => intro s; rfl
  | cons x q ih => intro s; simp [drainUpQueue, ih]

@[simp] theorem drainUpQueue_m_asyncReturns (q : List String) :
    ∀ s : mvApp, (drainUpQueue q s).m_asyncReturns = s.m_asyncReturns := by
  induction q with
  | nil => intro s; rfl
  | cons x q ih => intro s; simp [drainUpQueue, ih]

@[simp] theorem drainUpQueue_m_tpool (q : List String) :
    ∀ s : mvApp, (drainUpQueue q s).m_tpool = s.m_tpool := by
  induction q with
  | nil => intro s; rfl
  | cons x q ih => intro s; simp [drainUpQueue, ih]

@[simp] theorem drainUpQueue_m_poolStart (q : List String) :
    ∀ s : mvApp, (drainUpQueue q s).m_poolStart = s.m_poolStart := by
  induction q with
  | nil => intro s; rfl
  | cons x q ih => intro s; simp [drainUpQueue, ih]

@[simp] theorem drainUpQueue_m_threadTime (q : List String) :
    ∀ s : mvApp, (drainUpQueue q s).m_threadTime = s.m_threadTime := by
  induction q with
  | nil => intro s; rfl
  | cons x q ih => intro s; simp [drainUpQueue, ih]

@[simp] theorem drainUpQueue_m_threadPoolTimeout (q : List String) :
    ∀ s : mvApp, (drainUpQueue q s).m_threadPoolTimeout = s.m_threadPoolTimeout := by
  induction q with
  | nil => intro s; rfl
  | cons x q ih => intro s; simp [drainUpQueue, ih]

@[simp] theorem drainUpQueue_m_threadPool (q : List String) :
    ∀ s : mvApp, (drainUpQueue q s).m_threadPool = s.m_threadPool := by
  induction q with
  | nil => intro s; rfl
  | cons x q ih => intro s; simp [drainUpQueue, ih]

@[simp] theorem drainUpQueue_m_threads (q : List String) :
    ∀ s : mvApp, (drainUpQueue q s).m_threads = s.m_threads := by
  induction q with
  | nil => intro s; rfl
  | cons x q ih => intro s; simp [drainUpQueue, ih]

@[simp] theorem drainUpQueue_m_threadPoolHighPerformance (q : List String) :
    ∀ s : mvApp, (drainUpQueue q s).m_threadPoolHighPerformance = s.m_threadPoolHighPerformance := by
  induction q with
  | nil => intro s; rfl
  | cons x q ih => intro s; simp [drainUpQueue, ih]

@[simp] theorem drainUpQueue_m_log (q : List String) :
    ∀ s : mvApp, (drainUpQueue q s).m_log = s.m_log := by
  induction q with
  | nil => intro s; rfl
  | cons x q ih => intro s; simp [drainUpQueue, ih]

@[simp] theorem drainUpQueue_m_hostCalls (q : List String) :
    ∀ s : mvApp, (drainUpQueue q s).m_hostCalls = s.m_hostCalls := by
  induction q with
  | nil => intro s; rfl
  | cons x q ih => intro s; simp [drainUpQueue, ih]

@[simp] theorem drainDownQueue_m_mainThreadID (q : List String) :
    ∀ s : mvApp, (drainDownQueue q s).m_mainThreadID = s.m_mainThreadID := by
  induction q with
  | nil => intro s; rfl
  | cons x q ih => intro s; simp [drainDownQueue, ih]

@[simp] theorem drainDownQueue_m_deleteChildrenQueue (q : List String) :
    ∀ s : mvApp, (drainDownQueue q s).m_deleteChildrenQueue = s.m_deleteChildrenQueue := by
  induction q with
  | nil => intro s; rfl
  | cons x q ih => intro s; simp [drainDownQueue, ih]

@[simp] theorem drainDownQueue_m_deleteQueue (q : List String) :
    ∀ s : mvApp, (drainDownQueue q s).m_deleteQueue = s.m_deleteQueue := by
  induction q with
  | nil => intro s; rfl
  | cons x q ih => intro s; simp [drainDownQueue, ih]

@[simp] theorem drainDownQueue_m_newItemVec (q : List String) :
    ∀ s : mvApp, (drainDownQueue q s).m_newItemVec = s.m_newItemVec := by
  induction q with
  | nil => intro s; rfl
  | cons x q ih => intro s; simp [drainDownQueue, ih]

@[simp] theorem drainDownQueue_m_upQueue (q : List String) :
    ∀ s : mvApp, (drainDownQueue q s).m_upQueue = s.m_upQueue := by
  induction q with
  | nil => intro s; rfl
  | cons x q ih => intro s; simp [drainDownQueue, ih]

@[simp] theorem drainDownQueue_m_asyncCallbacks (q : List String) :
    ∀ s : mvApp, (drainDownQueue q s).m_asyncCallbacks = s.m_asyncCallbacks := by
  induction q with
  | nil => intro s; rfl
  | cons x q ih => intro s; simp [drainDownQueue, ih]

@[simp] theorem drainDownQueue_m_asyncReturns (q : List String) :
    ∀ s : mvApp, (drainDownQueue q s).m_asyncReturns = s.m_asyncReturns := by
  induction q with
  | nil => intro s; rfl
  | cons x q ih => intro s; simp [drainDownQueue, ih]

@[simp] theorem drainDownQueue_m_tpool (q : List String) :
    ∀ s : mvApp, (drainDownQueue q s).m_tpool = s.m_tpool := by
  induction q with
  | nil => intro s; rfl
  | cons x q ih => intro s; simp [drainDownQueue, ih]

@[simp] theorem drainDownQueue_m_poolStart (q : List String) :
    ∀ s : mvApp, (drainDownQueue q s).m_poolStart = s.m_poolStart := by
  induction q with
  | nil => intro s; rfl
  | cons x q ih => intro s; simp [drainDownQueue, ih]

@[simp] theorem drainDownQueue_m_threadTime (q : List String) :
    ∀ s : mvApp, (drainDownQueue q s).m_threadTime = s.m_threadTime := by
  induction q with
  | nil => intro s; rfl
  | cons x q ih => intro s; simp [drainDownQueue, ih]

@[simp] theorem drainDownQueue_m_threadPoolTimeout (q : List String) :
    ∀ s : mvApp, (drainDownQueue q s).m_threadPoolTimeout = s.m_threadPoolTimeout := by
  induction q with
  | nil => intro s; rfl
  | cons x q ih => intro s; simp [drainDownQueue, ih]

@[simp] theorem drainDownQueue_m_threadPool (q : List String) :
    ∀ s : mvApp, (drainDownQueue q s).m_threadPool = s.m_threadPool := by
  induction q with
  | nil => intro s; rfl
  | cons x q ih => intro s; simp [drainDownQueue, ih]

@[simp] theorem drainDownQueue_m_threads (q : List String) :
    ∀ s : mvApp, (drainDownQueue q s).m_threads = s.m_threads := by
  induction q with
  | nil => intro s; rfl
  | cons x q ih => intro s; simp [drainDownQueue, ih]

@[simp] theorem drainDownQueue_m_threadPoolHighPerformance (q : List String) :
    ∀ s : mvApp, (drainDownQueue q s).m_threadPoolHighPerformance = s.m_threadPoolHighPerformance := by
  induction q with
  | nil => intro s; rfl
  | cons x q ih => intro s; simp [drainDownQueue, ih]

@[simp] theorem drainDownQueue_m_log (q : List String) :
    ∀ s : mvApp, (drainDownQueue q s).m_log = s.m_log := by
  induction q with
  | nil => intro s; rfl
  | cons x q ih => intro s; simp [drainDownQueue, ih]

@[simp] theorem drainDownQueue_m_hostCalls (q : List String) :
    ∀ s : mvApp, (drainDownQueue q s).m_hostCalls = s.m_hostCalls := by
  induction q with
  | nil => intro s; rfl
  | cons x q ih => intro s; simp [drainDownQueue, ih]

@[simp] theorem drainAsyncReturns_m_mainThreadID (q : List AsyncronousCallback) :
    ∀ s : mvApp, (drainAsyncReturns q s).m_mainThreadID = s.m_mainThreadID := by
  induction q with
  | nil => intro s; rfl
  | cons x q ih => intro s; simp [drainAsyncReturns, ih]

@[simp] theorem drainAsyncReturns_m_windows (q : List AsyncronousCallback) :
    ∀ s : mvApp, (drainAsyncReturns q s).m_windows = s.m_windows := by
  induction q with
  | nil => intro s; rfl
  | cons x q ih => intro s; simp [drainAsyncReturns, ih]

@[simp] theorem drainAsyncReturns_m_deleteChildrenQueue (q : List AsyncronousCallback) :
    ∀ s : mvApp, (drainAsyncReturns q s).m_deleteChildrenQueue = s.m_deleteChildrenQueue := by
  induction q with
  | nil => intro s; rfl
  | cons x q ih => intro s; simp [drainAsyncReturns, ih]

@[simp] theorem drainAsyncReturns_m_deleteQueue (q : List AsyncronousCallback) :
    ∀ s : mvApp, (drainAsyncReturns q s).m_deleteQueue = s.m_deleteQueue := by
  induction q with
  | nil => intro s; rfl
  | cons x q ih => intro s; simp [drainAsyncReturns, ih]

@[simp] theorem drainAsyncReturns_m_newItemVec (q : List AsyncronousCallback) :
    ∀ s : mvApp, (drainAsyncReturns q s).m_newItemVec = s.m_newItemVec := by
  induction q with
  | nil => intro s; rfl
  | cons x q ih => intro s; simp [drainAsyncReturns, ih]

@[simp] theorem drainAsyncReturns_m_upQueue (q : List AsyncronousCallback) :
    ∀ s : mvApp, (drainAsyncReturns q s).m_upQueue = s.m_upQueue := by
  induction q with
  | nil => intro s; rfl
  | cons x q ih => intro s; simp [drainAsyncReturns, ih]

@[simp] theorem drainAsyncReturns_m_downQueue (q : List AsyncronousCallback) :
    ∀ s : mvApp, (drainAsyncReturns q s).m_downQueue = s.m_downQueue := by
  induction q with
  | nil => intro s; rfl
  | cons x q ih => intro s; simp [drainAsyncReturns, ih]

@[simp] theorem drainAsyncReturns_m_asyncCallbacks (q : List AsyncronousCallback) :
    ∀ s : mvApp, (drainAsyncReturns q s).m_asyncCallbacks = s.m_asyncCallbacks := by
  induction q with
  | nil => intro s; rfl
  | cons x q ih => intro s; simp [drainAsyncReturns, ih]

@[simp] theorem drainAsyncReturns_m_tpool (q : List AsyncronousCallback) :
    ∀ s : mvApp, (drainAsyncReturns q s).m_tpool = s.m_tpool := by
  induction q with
  | nil => intro s; rfl
  | cons x q ih => intro s; simp [drainAsyncReturns, ih]

@[simp] theorem drainAsyncReturns_m_poolStart (q : List AsyncronousCallback) :
    ∀ s : mvApp, (drainAsyncReturns q s).m_poolStart = s.m_poolStart := by
  induction q with
  | nil => intro s; rfl
  | cons x q ih => intro s; simp [drainAsyncReturns, ih]

@[simp] theorem drainAsyncReturns_m_threadTime (q : List AsyncronousCallback) :
    ∀ s : mvApp, (drainAsyncReturns q s).m_threadTime = s.m_threadTime := by
  induction q with
  | nil => intro s; rfl
  | cons x q ih => intro s; simp [drainAsyncReturns, ih]

@[simp] theorem drainAsyncReturns_m_threadPoolTimeout (q : List AsyncronousCallback) :
    ∀ s : mvApp, (drainAsyncReturns q s).m_threadPoolTimeout = s.m_threadPoolTimeout := by
  induction q with
  | nil => intro s; rfl
  | cons x q ih => intro s; simp [drainAsyncReturns, ih]

@[simp] theorem drainAsyncReturns_m_threadPool (q : List AsyncronousCallback) :
    ∀ s : mvApp, (drainAsyncReturns q s).m_threadPool = s.m_threadPool := by
  induction q with
  | nil => intro s; rfl
  | cons x q ih => intro s; simp [drainAsyncReturns, ih]

@[simp] theorem drainAsyncReturns_m_threads (q : List AsyncronousCallback) :
    ∀ s : mvApp, (drainAsyncReturns q s).m_threads = s.m_threads := by
  induction q with
  | nil => intro s; rfl
  | cons x q ih => intro s; simp [drainAsyncReturns, ih]

@[simp] theorem drainAsyncReturns_m_threadPoolHighPerformance (q : List AsyncronousCallback) :
    ∀ s : mvApp, (drainAsyncReturns q s).m_threadPoolHighPerformance = s.m_threadPoolHighPerformance := by
  induction q with
  | nil => intro s; rfl
  | cons x q ih => intro s; simp [drainAsyncReturns, ih]

@[simp] theorem drainAsyncReturns_m_log (q : List AsyncronousCallback) :
    ∀ s : mvApp, (drainAsyncReturns q s).m_log = s.m_log := by
  induction q with
  | nil => intro s; rfl
  | cons x q ih => intro s; simp [drainAsyncReturns, ih]

end mvApp

namespace mvApp

open mvAppItem

/-! ### The end of `postrender`: what the pool blocks leave alone -/

@[simp] theorem submitAsyncCallbacks_m_windows (now : ℚ) (s : mvApp) :
    (submitAsyncCallbacks now s).m_windows = s.m_windows := by
  unfold submitAsyncCallbacks
  repeat' split
  all_goals rfl

@[simp] theorem submitAsyncCallbacks_m_errors (now : ℚ) (s : mvApp) :
    (submitAsyncCallbacks now s).m_errors = s.m_errors := by
  unfold submitAsyncCallbacks
  repeat' split
  all_goals rfl

@[simp] theorem submitAsyncCallbacks_m_newItemVec (now : ℚ) (s : mvApp) :
    (submitAsyncCallbacks now s).m_newItemVec = s.m_newItemVec := by
  unfold submitAsyncCallbacks
  repeat' split
  all_goals rfl

@[simp] theorem submitAsyncCallbacks_m_deleteChildrenQueue (now : ℚ) (s : mvApp) :
    (submitAsyncCallbacks now s).m_deleteChildrenQueue = s.m_deleteChildrenQueue := by
  unfold submitAsyncCallbacks
  repeat' split
  all_goals rfl

@[simp] theorem submitAsyncCallbacks_m_deleteQueue (now : ℚ) (s : mvApp) :
    (submitAsyncCallbacks now s).m_deleteQueue = s.m_deleteQueue := by
  unfold submitAsyncCallbacks
  repeat' split
  all_goals rfl

@[simp] theorem submitAsyncCallbacks_m_upQueue (now : ℚ) (s : mvApp) :
    (submitAsyncCallbacks now s).m_upQueue = s.m_upQueue := by
  unfold submitAsyncCallbacks
  repeat' split
  all_goals rfl

@[simp] theorem submitAsyncCallbacks_m_downQueue (now : ℚ) (s : mvApp) :
    (submitAsyncCallbacks now s).m_downQueue = s.m_downQueue := by
  unfold submitAsyncCallbacks
  repeat' split
  all_goals rfl

@[simp] theorem submitAsyncCallbacks_m_mainThreadID (now : ℚ) (s : mvApp) :
    (submitAsyncCallbacks now s).m_mainThreadID = s.m_mainThreadID := by
  unfold submitAsyncCallbacks
  repeat' split
  all_goals rfl

@[simp] theorem submitAsyncCallbacks_m_asyncReturns (now : ℚ) (s : mvApp) :
    (submitAsyncCallbacks now s).m_asyncReturns = s.m_asyncReturns := by
  unfold submitAsyncCallbacks
  repeat' split
  all_goals rfl

@[simp] theorem submitAsyncCallbacks_m_hostCalls (now : ℚ) (s : mvApp) :
    (submitAsyncCallbacks now s).m_hostCalls = s.m_hostCalls := by
  unfold submitAsyncCallbacks
  repeat' split
  all_goals rfl

@[simp] theorem submitAsyncCallbacks_m_threadPoolTimeout (now : ℚ) (s : mvApp) :
    (submitAsyncCallbacks now s).m_threadPoolTimeout = s.m_threadPoolTimeout := by
  unfold submitAsyncCallbacks
  repeat' split
  all_goals rfl

@[simp] theorem updateThreadTime_m_windows (now : ℚ) (s : mvApp) :
    (updateThreadTime now s).m_windows = s.m_windows := by
  unfold updateThreadTime
  split <;> rfl

@[simp] theorem updateThreadTime_m_errors (now : ℚ) (s : mvApp) :
    (updateThreadTime now s).m_errors = s.m_errors := by
  unfold updateThreadTime
  split <;> rfl

@[simp] theorem updateThreadTime_m_newItemVec (now : ℚ) (s : mvApp) :
    (updateThreadTime now s).m_newItemVec = s.m_newItemVec := by
  unfold updateThreadTime
  split <;> rfl

@[simp] theorem updateThreadTime_m_deleteChildrenQueue (now : ℚ) (s : mvApp) :
    (updateThreadTime now s).m_deleteChildrenQueue = s.m_deleteChildrenQueue := by
  unfold updateThreadTime
  split <;> rfl

@[simp] theorem updateThreadTime_m_deleteQueue (now : ℚ) (s : mvApp) :
    (updateThreadTime now s).m_deleteQueue = s.m_deleteQueue := by
  unfold updateThreadTime
  split <;> rfl

@[simp] theorem updateThreadTime_m_upQueue (now : ℚ) (s : mvApp) :
    (updateThreadTime now s).m_upQueue = s.m_upQueue := by
  unfold updateThreadTime
  split <;> rfl

@[simp] theorem updateThreadTime_m_downQueue (now : ℚ) (s : mvApp) :
    (updateThreadTime now s).m_downQueue = s.m_downQueue := by
  unfold updateThreadTime
  split <;> rfl

@[simp] theorem updateThreadTime_m_mainThreadID (now : ℚ) (s : mvApp) :
    (updateThreadTime now s).m_mainThreadID = s.m_mainThreadID := by
  unfold updateThreadTime
  split <;> rfl

@[simp] theorem updateThreadTime_m_asyncReturns (now : ℚ) (s : mvApp) :
    (updateThreadTime now s).m_asyncReturns = s.m_asyncReturns := by
  unfold updateThreadTime
  split <;> rfl

@[simp] theorem updateThreadTime_m_hostCalls (now : ℚ) (s : mvApp) :
    (updateThreadTime now s).m_hostCalls = s.m_hostCalls := by
  unfold updateThreadTime
  split <;> rfl

@[simp] theorem updateThreadTime_m_threadPoolTimeout (now : ℚ) (s : mvApp) :
    (updateThreadTime now s).m_threadPoolTimeout = s.m_threadPoolTimeout := by
  unfold updateThreadTime
  split <;> rfl

@[simp] theorem updateThreadTime_m_tpool (now : ℚ) (s : mvApp) :
    (updateThreadTime now s).m_tpool = s.m_tpool := by
  unfold updateThreadTime
  split <;> rfl

@[simp] theorem updateThreadTime_m_log (now : ℚ) (s : mvApp) :
    (updateThreadTime now s).m_log = s.m_log := by
  unfold updateThreadTime
  split <;> rfl

@[simp] theorem updateThreadTime_m_asyncCallbacks (now : ℚ) (s : mvApp) :
    (updateThreadTime now s).m_asyncCallbacks = s.m_asyncCallbacks := by
  unfold updateThreadTime
  split <;> rfl

@[simp] theorem updateThreadTime_m_poolStart (now : ℚ) (s : mvApp) :
    (updateThreadTime now s).m_poolStart = s.m_poolStart := by
  unfold updateThreadTime
  split <;> rfl

@[simp] theorem updateThreadTime_m_threadPool (now : ℚ) (s : mvApp) :
    (updateThreadTime now s).m_threadPool = s.m_threadPool := by
  unfold updateThreadTime
  split <;> rfl

end mvApp

namespace mvApp

open mvAppItem

/-! ### Deleting a top-level window -/

theorem removeWindows_fst (nm : String) (ws : List mvAppItem) :
    (removeWindows nm ws).1 = windowDeleting nm ws := by
  induction ws with
  | nil => rfl
  | cons w rest ih =>
    by_cases h : w.getName = nm
    · simp [removeWindows, windowDeleting, h]
    · simp [removeWindows, windowDeleting, h, ih]

theorem removeWindows_snd (nm : String) (ws : List mvAppItem) :
    (removeWindows nm ws).2 = ws.filter (fun w => decide (w.getName ≠ nm)) := by
  induction ws with
  | nil => rfl
  | cons w rest ih =>
    by_cases h : w.getName = nm
    · simp [removeWindows, h, ih]
    · simp [removeWindows, h, ih]

theorem deleteChild_addr (nm : String) (c : mvAppItem) : (deleteChild nm c).2.addr = c.addr := by
  rw [deleteChild_eq]; rfl

theorem deleteChild_getName (nm : String) (c : mvAppItem) :
    (deleteChild nm c).2.getName = c.getName := by
  rw [deleteChild_eq]; rfl

theorem deleteFromWindows_filter_addr (nm : String) (p : String → Bool) (ws : List mvAppItem) :
    (((deleteFromWindows nm ws).2.filter (fun w => p w.getName)).map addr) =
      (ws.filter (fun w => p w.getName)).map addr := by
  induction ws with
  | nil => rfl
  | cons w rest ih =>
    by_cases h : (deleteChild nm w).1 = true
    · have e : (deleteFromWindows nm (w :: rest)).2 = (deleteChild nm w).2 :: rest := by
        simp [deleteFromWindows, h]
      rw [e]
      by_cases hp : p w.getName = true
      · simp [List.filter_cons, deleteChild_getName, deleteChild_addr, hp]
      · simp [List.filter_cons, deleteChild_getName, hp]
    · have e : (deleteFromWindows nm (w :: rest)).2 =
          (deleteChild nm w).2 :: (deleteFromWindows nm rest).2 := by
        simp [deleteFromWindows, h]
      rw [e]
      by_cases hp : p w.getName = true
      · simp [List.filter_cons, deleteChild_getName, deleteChild_addr, hp, ih]
      · simp [List.filter_cons, deleteChild_getName, hp, ih]

theorem deleteFromWindows_filter_getName (nm : String) (p : String → Bool)
    (ws : List mvAppItem) :
    (((deleteFromWindows nm ws).2.filter (fun w => p w.getName)).map getName) =
      (ws.filter (fun w => p w.getName)).map getName := by
  induction ws with
  | nil => rfl
  | cons w rest ih =>
    by_cases h : (deleteChild nm w).1 = true
    · have e : (deleteFromWindows nm (w :: rest)).2 = (deleteChild nm w).2 :: rest := by
        simp [deleteFromWindows, h]
      rw [e]
      by_cases hp : p w.getName = true
      · simp [List.filter_cons, deleteChild_getName, hp]
      · simp [List.filter_cons, deleteChild_getName, hp]
    · have e : (deleteFromWindows nm (w :: rest)).2 =
          (deleteChild nm w).2 :: (deleteFromWindows nm rest).2 := by
        simp [deleteFromWindows, h]
      rw [e]
      by_cases hp : p w.getName = true
      · simp [List.filter_cons, deleteChild_getName, hp, ih]
      · simp [List.filter_cons, deleteChild_getName, hp, ih]

theorem deleteFromWindows_map_getName (nm : String) (ws : List mvAppItem) :
    (deleteFromWindows nm ws).2.map getName = ws.map getName := by
  have h := deleteFromWindows_filter_getName nm (fun _ => true) ws
  simpa using h

theorem deleteFromWindows_no_descendant (nm : String) :
    ∀ ws : List mvAppItem, (∀ w ∈ ws, nm ∉ namesIn w.getChildren) →
      deleteFromWindows nm ws = (false, ws) := by
  intro ws
  induction ws with
  | nil => intro _; rfl
  | cons w rest ih =>
    intro h
    have hw := deleteChild_not_mem nm w (h w (List.mem_cons_self _ _))
    have hr := ih (fun x hx => h x (List.mem_cons_of_mem _ hx))
    simp [deleteFromWindows, hw, hr]

theorem deleteItem_window (nm : String) (ws : List mvAppItem) (h : nm ∈ ws.map getName) :
    deleteItem nm ws =
      ((deleteFromWindows nm ws).2.filter (fun w => decide (w.getName ≠ nm)), []) := by
  have hw : windowDeleting nm (deleteFromWindows nm ws).2 = true := by
    rw [windowDeleting_iff, deleteFromWindows_map_getName]; exact h
  simp [deleteItem, hw, removeWindows_fst, removeWindows_snd]

end mvApp

namespace mvApp

/-! ### The worker pool -/

theorem submitAll_submitted (jobs : List AsyncronousCallback) :
    ∀ pool : mvThreadPool, submitAll jobs pool = ⟨pool.threads, pool.submitted ++ jobs⟩ := by
  induction jobs with
  | nil => intro pool; simp [submitAll]
  | cons j rest ih => intro pool; simp [submitAll, ih, mvThreadPool.submit]

theorem submitAsyncCallbacks_nil (now : ℚ) (s : mvApp) (h : s.m_asyncCallbacks = []) :
    submitAsyncCallbacks now s = s := by
  simp [submitAsyncCallbacks, h]

/-- The state in which the pool blocks of `postrender` start: the structural loops
change neither the pool nor the submission queue. -/
theorem postrender_eq (tid : Nat) (runtimeDflt : Bool) (tCreate tEnd : ℚ) (s : mvApp) :
    ∃ s5 : mvApp, postrender tid runtimeDflt tCreate tEnd s = updateThreadTime tEnd (submitAsyncCallbacks tCreate s5) ∧
      s5.m_tpool = s.m_tpool ∧ s5.m_asyncCallbacks = s.m_asyncCallbacks ∧ s5.m_log = s.m_log ∧
      s5.m_threads = s.m_threads ∧
      s5.m_threadPoolHighPerformance = s.m_threadPoolHighPerformance ∧
      s5.m_poolStart = s.m_poolStart ∧ s5.m_threadTime = s.m_threadTime ∧
      s5.m_threadPool = s.m_threadPool := by
  refine ⟨_, rfl, ?_⟩
  simp

theorem drainDeleteChildrenQueue_empties (tid : Nat) (runtimeDflt : Bool)
    (q : List String) :
    ∀ s : mvApp, s.m_deleteChildrenQueue = q →
      (drainDeleteChildrenQueue tid runtimeDflt q s).m_deleteChildrenQueue = [] := by
  induction q with
  | nil => intro s h; simpa [drainDeleteChildrenQueue] using h
  | cons x q ih => intro s _; simp only [drainDeleteChildrenQueue]; exact ih _ rfl

theorem drainDeleteQueue_empties (q : List String) :
    ∀ s : mvApp, s.m_deleteQueue = q → (drainDeleteQueue q s).m_deleteQueue = [] := by
  induction q with
  | nil => intro s h; simpa [drainDeleteQueue] using h
  | cons x q ih => intro s _; simp only [drainDeleteQueue]; exact ih _ rfl

theorem drainUpQueue_empties (q : List String) :
    ∀ s : mvApp, s.m_upQueue = q → (drainUpQueue q s).m_upQueue = [] := by
  induction q with
  | nil => intro s h; simpa [drainUpQueue] using h
  | cons x q ih => intro s _; simp only [drainUpQueue]; exact ih _ rfl

theorem drainDownQueue_empties (q : List String) :
    ∀ s : mvApp, s.m_downQueue = q → (drainDownQueue q s).m_downQueue = [] := by
  induction q with
  | nil => intro s h; simpa [drainDownQueue] using h
  | cons x q ih => intro s _; simp only [drainDownQueue]; exact ih _ rfl

theorem drainAsyncReturns_empties (q : List AsyncronousCallback) :
    ∀ s : mvApp, s.m_asyncReturns = q → (drainAsyncReturns q s).m_asyncReturns = [] := by
  induction q with
  | nil => intro s h; simpa [drainAsyncReturns] using h
  | cons x q ih => intro s _; simp only [drainAsyncReturns]; exact ih _ rfl

theorem submitAsyncCallbacks_empties (now : ℚ) (s : mvApp) :
    (submitAsyncCallbacks now s).m_asyncCallbacks = [] := by
  unfold submitAsyncCallbacks
  by_cases h : s.m_asyncCallbacks = []
  · simp [h]
  · have h' : s.m_asyncCallbacks.isEmpty = false := by
      cases hq : s.m_asyncCallbacks with
      | nil => exact absurd hq h
      | cons a b => rfl
    rw [if_pos h']
    split <;> rfl

end mvApp

namespace mvApp

/-! ### The idle check of `prerender` -/

theorem cleanupThreadPool_destroy (s : mvApp) (pool : mvThreadPool)
    (hpool : s.m_tpool = some pool) (htime : s.m_threadTime > s.m_threadPoolTimeout) :
    cleanupThreadPool s =
      { s with m_tpool := none, m_threadTime := 0, m_threadPool := false,
               m_log := s.m_log ++ ["Threadpool destroyed"] } := by
  unfold cleanupThreadPool
  rw [if_pos htime, hpool]

theorem cleanupThreadPool_keep (s : mvApp)
    (h : s.m_tpool = none ∨ s.m_threadTime ≤ s.m_threadPoolTimeout) :
    cleanupThreadPool s = s := by
  unfold cleanupThreadPool
  rcases h with h | h
  · rw [h]; split <;> rfl
  · rw [if_neg (not_lt.mpr h)]

end mvApp

namespace mvApp

/-! ### The queues after `postrender` -/

theorem postrender_queues_empty (tid : Nat) (runtimeDflt : Bool) (tCreate tEnd : ℚ) (s : mvApp) :
    (postrender tid runtimeDflt tCreate tEnd s).m_deleteChildrenQueue = [] ∧
    (postrender tid runtimeDflt tCreate tEnd s).m_deleteQueue = [] ∧
    (postrender tid runtimeDflt tCreate tEnd s).m_newItemVec = [] ∧
    (postrender tid runtimeDflt tCreate tEnd s).m_upQueue = [] ∧
    (postrender tid runtimeDflt tCreate tEnd s).m_downQueue = [] ∧
    (postrender tid runtimeDflt tCreate tEnd s).m_asyncCallbacks = [] := by
  refine ⟨?_, ?_, ?_, ?_, ?_, ?_⟩
  · simp [postrender, drainDeleteChildrenQueue_empties]
  · simp [postrender]
    exact drainDeleteQueue_empties _ _ (by simp)
  · simp [postrender]
  · simp [postrender]
    exact drainUpQueue_empties _ _ (by simp)
  · simp [postrender]
    exact drainDownQueue_empties _ _ (by simp)
  · simp [postrender, submitAsyncCallbacks_empties]

end mvApp

/-! ## Names after a removal -/

namespace mvAppItem

theorem namesIn_cons (c : mvAppItem) (rest : List mvAppItem) :
    namesIn (c :: rest) = names c ++ namesIn rest := by
  simp [namesIn]

theorem deleteChildIn_cons (nm : String) (c : mvAppItem) (rest : List mvAppItem) :
    deleteChildIn nm (c :: rest) =
      if c.getName = nm then (true, rest)
      else if (deleteChild nm c).1 = true then (true, (deleteChild nm c).2 :: rest)
      else ((deleteChildIn nm rest).1, c :: (deleteChildIn nm rest).2) := by
  simp [deleteChildIn]

theorem deleteChildIn_sublist (nm : String) :
    ∀ cs : List mvAppItem, (namesIn (deleteChildIn nm cs).2).Sublist (namesIn cs) := by
  refine (induct_forest (P := fun c => (names (deleteChild nm c).2).Sublist (names c))
    ?_ ?_ ?_).2
  · intro a n t p cs ih
    simp only [deleteChild, names]
    exact ih.cons₂ n
  · simp [deleteChildIn]
  · intro c rest ihc ihr
    rw [deleteChildIn_cons, namesIn_cons]
    by_cases h1 : c.getName = nm
    · rw [if_pos h1]; exact List.sublist_append_right _ _
    · rw [if_neg h1]
      by_cases h2 : (deleteChild nm c).1 = true
      · rw [if_pos h2, namesIn_cons]; exact ihc.append (List.Sublist.refl _)
      · rw [if_neg h2, namesIn_cons]; exact (List.Sublist.refl _).append ihr

theorem deleteChild_sublist (nm : String) (c : mvAppItem) :
    (names (deleteChild nm c).2).Sublist (names c) := by
  cases c with
  | mk a n t p cs =>
    simp only [deleteChild, names]
    exact (deleteChildIn_sublist nm cs).cons₂ n

theorem deleteChildIn_count (nm : String) :
    ∀ cs : List mvAppItem, (deleteChildIn nm cs).1 = true →
      (namesIn (deleteChildIn nm cs).2).count nm < (namesIn cs).count nm := by
  refine (induct_forest (P := fun c => (deleteChild nm c).1 = true →
      (names (deleteChild nm c).2).count nm < (names c).count nm) ?_ ?_ ?_).2
  · intro a n t p cs ih h
    simp only [deleteChild] at h
    simp only [deleteChild, names, List.count_cons]
    have := ih h
    omega
  · intro h; simp [deleteChildIn] at h
  · intro c rest ihc ihr h
    rw [deleteChildIn_cons] at h ⊢
    rw [namesIn_cons]
    by_cases h1 : c.getName = nm
    · rw [if_pos h1]
      rw [names_eq, h1]
      simp only [List.cons_append, List.count_cons_self, List.count_append]
      omega
    · rw [if_neg h1] at h ⊢
      by_cases h2 : (deleteChild nm c).1 = true
      · rw [if_pos h2, namesIn_cons, List.count_append, List.count_append]
        have := ihc h2
        omega
      · rw [if_neg h2] at h ⊢
        rw [namesIn_cons, List.count_append, List.count_append]
        have := ihr h
        omega

theorem deleteChild_count (nm : String) (c : mvAppItem) (h : (deleteChild nm c).1 = true) :
    (names (deleteChild nm c).2).count nm < (names c).count nm := by
  cases c with
  | mk a n t p cs =>
    simp only [deleteChild] at h
    simp only [deleteChild, names, List.count_cons]
    have := deleteChildIn_count nm cs h
    omega

end mvAppItem

namespace mvApp

open mvAppItem

theorem deleteFromWindows_cons (nm : String) (w : mvAppItem) (rest : List mvAppItem) :
    deleteFromWindows nm (w :: rest) =
      if (deleteChild nm w).1 = true then (true, (deleteChild nm w).2 :: rest)
      else ((deleteFromWindows nm rest).1,
        (deleteChild nm w).2 :: (deleteFromWindows nm rest).2) := by
  simp [deleteFromWindows]

theorem deleteFromWindows_sublist (nm : String) (ws : List mvAppItem) :
    (namesIn (deleteFromWindows nm ws).2).Sublist (namesIn ws) := by
  induction ws with
  | nil => simp [deleteFromWindows]
  | cons w rest ih =>
    rw [deleteFromWindows_cons, namesIn_cons]
    by_cases h : (deleteChild nm w).1 = true
    · rw [if_pos h, namesIn_cons]
      exact (deleteChild_sublist nm w).append (List.Sublist.refl _)
    · rw [if_neg h, namesIn_cons]
      exact (deleteChild_sublist nm w).append ih

theorem deleteFromWindows_count (nm : String) (ws : List mvAppItem)
    (h : (deleteFromWindows nm ws).1 = true) :
    (namesIn (deleteFromWindows nm ws).2).count nm < (namesIn ws).count nm := by
  induction ws with
  | nil => simp [deleteFromWindows] at h
  | cons w rest ih =>
    rw [deleteFromWindows_cons] at h ⊢
    rw [namesIn_cons]
    by_cases h1 : (deleteChild nm w).1 = true
    · rw [if_pos h1, namesIn_cons, List.count_append, List.count_append]
      have := deleteChild_count nm w h1
      omega
    · rw [if_neg h1] at h ⊢
      rw [namesIn_cons, List.count_append, List.count_append]
      have h3 := ih h
      have h4 := (deleteChild_sublist nm w).count_le nm
      omega

theorem deleteFromWindows_fst_of_mem (nm : String) (ws : List mvAppItem)
    (h : ∃ w ∈ ws, nm ∈ namesIn w.getChildren) : (deleteFromWindows nm ws).1 = true := by
  induction ws with
  | nil => simp at h
  | cons w rest ih =>
    rw [deleteFromWindows_cons]
    by_cases h1 : (deleteChild nm w).1 = true
    · rw [if_pos h1]
    · rw [if_neg h1]
      obtain ⟨x, hx, hn⟩ := h
      rcases List.mem_cons.mp hx with e | hx
      · subst e; exact absurd (deleteChild_mem nm x hn) h1
      · exact ih ⟨x, hx, hn⟩

theorem mem_namesIn_iff (nm : String) (ws : List mvAppItem) :
    nm ∈ namesIn ws ↔ nm ∈ ws.map getName ∨ ∃ w ∈ ws, nm ∈ namesIn w.getChildren := by
  induction ws with
  | nil => simp [namesIn]
  | cons w rest ih =>
    simp only [namesIn_cons, names_eq, List.mem_append, List.mem_cons, List.map_cons, ih,
      exists_eq_or_imp]
    tauto

theorem filter_names_sublist (p : mvAppItem → Bool) (ws : List mvAppItem) :
    (namesIn (ws.filter p)).Sublist (namesIn ws) := by
  induction ws with
  | nil => simp
  | cons w rest ih =>
    rw [List.filter_cons, namesIn_cons]
    by_cases h : p w = true
    · rw [if_pos h, namesIn_cons]; exact (List.Sublist.refl _).append ih
    · rw [if_neg h]; exact ih.trans (List.sublist_append_right _ _)

theorem filter_names_count (nm : String) (ws : List mvAppItem) (h : nm ∈ ws.map getName) :
    (namesIn (ws.filter (fun w => decide (w.getName ≠ nm)))).count nm < (namesIn ws).count nm := by
  induction ws with
  | nil => simp at h
  | cons w rest ih =>
    rw [List.filter_cons, namesIn_cons]
    by_cases h1 : w.getName = nm
    · have hf : decide (w.getName ≠ nm) = false := by simp [h1]
      rw [hf]
      simp only [Bool.false_eq_true, if_false]
      have h2 := (filter_names_sublist (fun w => decide (w.getName ≠ nm)) rest).count_le nm
      rw [names_eq, h1]
      simp only [List.cons_append, List.count_cons_self, List.count_append]
      omega
    · have hf : decide (w.getName ≠ nm) = true := by simp [h1]
      rw [hf]
      simp only [if_true]
      rw [namesIn_cons, List.count_append, List.count_append]
      have h' : nm ∈ rest.map getName := by
        simp only [List.map_cons, List.mem_cons] at h
        rcases h with e | h
        · exact absurd e.symm h1
        · exact h
      have := ih h'
      omega

theorem deleteItem_fst (nm : String) (ws : List mvAppItem) :
    (deleteItem nm ws).1 =
      if windowDeleting nm (deleteFromWindows nm ws).2 = true then
        (deleteFromWindows nm ws).2.filter (fun w => decide (w.getName ≠ nm))
      else (deleteFromWindows nm ws).2 := by
  unfold deleteItem
  by_cases h : windowDeleting nm (deleteFromWindows nm ws).2 = true
  · simp [h, removeWindows_snd]
  · simp [h]

theorem deleteItem_sublist (nm : String) (ws : List mvAppItem) :
    (namesIn (deleteItem nm ws).1).Sublist (namesIn ws) := by
  rw [deleteItem_fst]
  split
  · exact (filter_names_sublist _ _).trans (deleteFromWindows_sublist nm ws)
  · exact deleteFromWindows_sublist nm ws

theorem deleteItem_found (nm : String) (ws : List mvAppItem) (h : nm ∈ namesIn ws) :
    (deleteItem nm ws).2 = [] ∧
      (namesIn (deleteItem nm ws).1).count nm < (namesIn ws).count nm := by
  by_cases hw : nm ∈ ws.map getName
  · refine ⟨by rw [deleteItem_window nm ws hw], ?_⟩
    rw [deleteItem_window nm ws hw]
    have hw' : nm ∈ (deleteFromWindows nm ws).2.map getName := by
      rw [deleteFromWindows_map_getName]; exact hw
    have h1 := filter_names_count nm _ hw'
    have h2 := (deleteFromWindows_sublist nm ws).count_le nm
    exact lt_of_lt_of_le h1 h2
  · have hd : ∃ w ∈ ws, nm ∈ namesIn w.getChildren := by
      rcases (mem_namesIn_iff nm ws).1 h with h | h
      · exact absurd h hw
      · exact h
    have hf := deleteFromWindows_fst_of_mem nm ws hd
    have hwd : windowDeleting nm (deleteFromWindows nm ws).2 = false := by
      cases hx : windowDeleting nm (deleteFromWindows nm ws).2 with
      | false => rfl
      | true =>
        rw [windowDeleting_iff, deleteFromWindows_map_getName] at hx
        exact absurd hx hw
    refine ⟨by simp [deleteItem, hf], ?_⟩
    rw [deleteItem_fst, hwd]
    simp only [Bool.false_eq_true, if_false]
    exact deleteFromWindows_count nm ws hf

theorem deleteItem_found_unique (nm : String) (ws : List mvAppItem) (h : nm ∈ namesIn ws)
    (hu : (namesIn ws).Nodup) : nm ∉ namesIn (deleteItem nm ws).1 := by
  have h1 := (deleteItem_found nm ws h).2
  have h2 := List.nodup_iff_count_le_one.mp hu nm
  intro hm
  have h3 := List.count_pos_iff.mpr hm
  omega

theorem drainDeleteQueue_fold (q : List String) :
    ∀ s : mvApp,
      (drainDeleteQueue q s).m_windows =
        q.foldl (fun ws nm => (deleteItem nm ws).1) s.m_windows ∧
      (drainDeleteQueue q s).m_errors =
        (q.foldl (fun (acc : List mvAppItem × List String) nm =>
          ((deleteItem nm acc.1).1, acc.2 ++ (deleteItem nm acc.1).2))
          (s.m_windows, s.m_errors)).2 ∧
      (q.foldl (fun (acc : List mvAppItem × List String) nm =>
          ((deleteItem nm acc.1).1, acc.2 ++ (deleteItem nm acc.1).2))
          (s.m_windows, s.m_errors)).1 =
        q.foldl (fun ws nm => (deleteItem nm ws).1) s.m_windows := by
  induction q with
  | nil => intro s; simp [drainDeleteQueue]
  | cons nm q ih =>
    intro s
    simp only [drainDeleteQueue, List.foldl_cons]
    exact ih _

end mvApp

/-! ## Requests that skip the windows in front of their target -/

namespace mvAppItem

theorem namesIn_append (a b : List mvAppItem) : namesIn (a ++ b) = namesIn a ++ namesIn b := by
  induction a with
  | nil => simp [namesIn]
  | cons c rest ih => simp [namesIn_cons, ih]

theorem deleteChildIn_append (nm : String) (c1 rest : List mvAppItem) (h : nm ∉ namesIn c1) :
    deleteChildIn nm (c1 ++ rest) = ((deleteChildIn nm rest).1, c1 ++ (deleteChildIn nm rest).2) := by
  induction c1 with
  | nil => simp
  | cons c cs ih =>
    simp only [namesIn_cons, names_eq, List.mem_append, List.mem_cons, not_or] at h
    obtain ⟨⟨h1, h2⟩, h3⟩ := h
    have h1' : ¬ c.getName = nm := fun e => h1 e.symm
    rw [List.cons_append, deleteChildIn_cons, if_neg h1', deleteChild_not_mem nm c h2, ih h3]
    simp

end mvAppItem

namespace mvApp

open mvAppItem

theorem deleteFromWindows_append (nm : String) (l1 rest : List mvAppItem)
    (h : nm ∉ namesIn l1) :
    deleteFromWindows nm (l1 ++ rest) =
      ((deleteFromWindows nm rest).1, l1 ++ (deleteFromWindows nm rest).2) := by
  induction l1 with
  | nil => simp
  | cons w ws ih =>
    simp only [namesIn_cons, names_eq, List.mem_append, List.mem_cons, not_or] at h
    obtain ⟨⟨_, h2⟩, h3⟩ := h
    rw [List.cons_append, deleteFromWindows_cons, deleteChild_not_mem nm w h2, ih h3]
    simp

theorem addToWindows_cons (parent before : String) (item w : mvAppItem)
    (rest : List mvAppItem) :
    addToWindows parent before item (w :: rest) =
      if (addRuntimeChild parent before item w).1 = true then
        (true, (addRuntimeChild parent before item w).2 :: rest)
      else ((addToWindows parent before item rest).1,
        (addRuntimeChild parent before item w).2 :: (addToWindows parent before item rest).2) := by
  simp [addToWindows]

theorem addToWindows_append (parent before : String) (item : mvAppItem)
    (l1 rest : List mvAppItem) (h : parent ∉ namesIn l1) :
    addToWindows parent before item (l1 ++ rest) =
      ((addToWindows parent before item rest).1,
        l1 ++ (addToWindows parent before item rest).2) := by
  induction l1 with
  | nil => simp
  | cons w ws ih =>
    simp only [namesIn_cons, List.mem_append, not_or] at h
    rw [List.cons_append, addToWindows_cons, addRuntimeChild_not_mem parent before item w h.1,
      ih h.2]
    simp

end mvApp

/-! ## Parent references -/

namespace mvAppItem

theorem items_eq (c : mvAppItem) : items c = c :: itemsIn c.getChildren := by
  cases c; simp [items, getChildren]

theorem itemsIn_cons (c : mvAppItem) (rest : List mvAppItem) :
    itemsIn (c :: rest) = c :: itemsIn c.getChildren ++ itemsIn rest := by
  simp [itemsIn, items_eq]

theorem wellParented_eq (c : mvAppItem) : wellParented c = ownedBy c.addr c.getChildren := by
  cases c; simp [wellParented, addr, getChildren]

theorem ownedBy_cons (a : Nat) (c : mvAppItem) (rest : List mvAppItem) :
    ownedBy a (c :: rest) ↔
      (c.getType ≠ mvAppItemType.Window → c.getParent = some a) ∧
        wellParented c ∧ ownedBy a rest := by
  simp [ownedBy]

theorem ownedBy_iff (a : Nat) (cs : List mvAppItem) :
    ownedBy a cs ↔
      ∀ c ∈ cs, (c.getType ≠ mvAppItemType.Window → c.getParent = some a) ∧ wellParented c := by
  induction cs with
  | nil => simp [ownedBy]
  | cons c rest ih =>
    rw [ownedBy_cons, ih]
    simp only [List.mem_cons, forall_eq_or_imp]
    tauto

theorem wellParented_items :
    ∀ cs : List mvAppItem, (∀ c ∈ cs, wellParented c) ↔
      ∀ p ∈ itemsIn cs, ∀ x ∈ p.getChildren,
        x.getType ≠ mvAppItemType.Window → x.getParent = some p.addr := by
  refine (induct_forest (P := fun c => wellParented c ↔
      ∀ p ∈ items c, ∀ x ∈ p.getChildren,
        x.getType ≠ mvAppItemType.Window → x.getParent = some p.addr) ?_ ?_ ?_).2
  · intro a n t p cs ih
    rw [wellParented_eq, ownedBy_iff, items_eq]
    simp only [List.mem_cons, forall_eq_or_imp]
    have e1 : (mk a n t p cs).addr = a := rfl
    have e2 : (mk a n t p cs).getChildren = cs := rfl
    rw [e1, e2, ← ih]
    constructor
    · intro h
      exact ⟨fun x hx => (h x hx).1, fun c hc => (h c hc).2⟩
    · intro h c hc
      exact ⟨h.1 c hc, h.2 c hc⟩
  · simp [itemsIn]
  · intro c rest ihc ihr
    simp only [List.mem_cons, forall_eq_or_imp, itemsIn, List.mem_append]
    rw [ihc, ihr]
    constructor
    · rintro ⟨h1, h2⟩ p hp
      rcases hp with hp | hp
      · exact h1 p hp
      · exact h2 p hp
    · intro h
      exact ⟨fun p hp => h p (Or.inl hp), fun p hp => h p (Or.inr hp)⟩

end mvAppItem

theorem parentRefsOK_iff (ws : List mvAppItem) :
    parentRefsOK ws ↔ ∀ w ∈ ws, mvAppItem.wellParented w :=
  (mvAppItem.wellParented_items ws).symm

namespace mvAppItem

theorem deleteChild_getType (nm : String) (c : mvAppItem) :
    (deleteChild nm c).2.getType = c.getType := by
  rw [deleteChild_eq]; rfl

theorem deleteChild_getParent (nm : String) (c : mvAppItem) :
    (deleteChild nm c).2.getParent = c.getParent := by
  rw [deleteChild_eq]; rfl

theorem deleteChildIn_ownedBy (nm : String) :
    ∀ cs : List mvAppItem, ∀ a, ownedBy a cs → ownedBy a (deleteChildIn nm cs).2 := by
  refine (induct_forest (P := fun c => wellParented c → wellParented (deleteChild nm c).2)
    ?_ ?_ ?_).2
  · intro a n t p cs ih h
    simp only [deleteChild, wellParented] at h ⊢
    exact ih a h
  · intro a _; simp [deleteChildIn, ownedBy]
  · intro c rest ihc ihr a h
    rw [ownedBy_cons] at h
    rw [deleteChildIn_cons]
    by_cases h1 : c.getName = nm
    · rw [if_pos h1]; exact h.2.2
    · rw [if_neg h1]
      by_cases h2 : (deleteChild nm c).1 = true
      · rw [if_pos h2, ownedBy_cons, deleteChild_getType, deleteChild_getParent]
        exact ⟨h.1, ihc h.2.1, h.2.2⟩
      · rw [if_neg h2, ownedBy_cons]
        exact ⟨h.1, h.2.1, ihr a h.2.2⟩

theorem deleteChild_wellParented (nm : String) (c : mvAppItem) (h : wellParented c) :
    wellParented (deleteChild nm c).2 := by
  cases c with
  | mk a n t p cs =>
    simp only [deleteChild, wellParented] at h ⊢
    exact deleteChildIn_ownedBy nm cs a h

theorem deleteChildren_wellParented (c : mvAppItem) : wellParented c.deleteChildren := by
  cases c; simp [deleteChildren, wellParented, ownedBy]

theorem deleteChildren_getType (c : mvAppItem) : c.deleteChildren.getType = c.getType := by
  cases c; rfl

theorem deleteChildren_getParent (c : mvAppItem) : c.deleteChildren.getParent = c.getParent := by
  cases c; rfl

theorem deleteChildren_names_sublist (c : mvAppItem) :
    (names c.deleteChildren).Sublist (names c) := by
  cases c with
  | mk a n t p cs =>
    simp only [deleteChildren, names, namesIn]
    exact (List.nil_sublist _).cons₂ n

theorem deleteChildrenOfChild_eq (nm : String) (c : mvAppItem) :
    deleteChildrenOfChild nm c =
      mk c.addr c.getName c.getType c.getParent (deleteChildrenOfChildIn nm c.getChildren) := by
  cases c; rfl

theorem deleteChildrenOfChildIn_cons (nm : String) (c : mvAppItem) (rest : List mvAppItem) :
    deleteChildrenOfChildIn nm (c :: rest) =
      if c.getName = nm then c.deleteChildren :: rest
      else if (getChild nm c).isSome = true then deleteChildrenOfChild nm c :: rest
      else c :: deleteChildrenOfChildIn nm rest := by
  simp [deleteChildrenOfChildIn]

theorem deleteChildrenOfChildIn_ownedBy (nm : String) :
    ∀ cs : List mvAppItem, ∀ a, ownedBy a cs → ownedBy a (deleteChildrenOfChildIn nm cs) := by
  refine (induct_forest (P := fun c => wellParented c → wellParented (deleteChildrenOfChild nm c))
    ?_ ?_ ?_).2
  · intro a n t p cs ih h
    simp only [deleteChildrenOfChild, wellParented] at h ⊢
    exact ih a h
  · intro a _; simp [deleteChildrenOfChildIn, ownedBy]
  · intro c rest ihc ihr a h
    rw [ownedBy_cons] at h
    rw [deleteChildrenOfChildIn_cons]
    by_cases h1 : c.getName = nm
    · rw [if_pos h1, ownedBy_cons, deleteChildren_getType, deleteChildren_getParent]
      exact ⟨h.1, deleteChildren_wellParented c, h.2.2⟩
    · rw [if_neg h1]
      by_cases h2 : (getChild nm c).isSome = true
      · rw [if_pos h2, ownedBy_cons]
        refine ⟨?_, ihc h.2.1, h.2.2⟩
        rw [deleteChildrenOfChild_eq]
        exact h.1
      · rw [if_neg h2, ownedBy_cons]
        exact ⟨h.1, h.2.1, ihr a h.2.2⟩

theorem deleteChildrenOfChild_wellParented (nm : String) (c : mvAppItem)
    (h : wellParented c) : wellParented (deleteChildrenOfChild nm c) := by
  cases c with
  | mk a n t p cs =>
    simp only [deleteChildrenOfChild, wellParented] at h ⊢
    exact deleteChildrenOfChildIn_ownedBy nm cs a h

theorem deleteChildrenOfChildIn_sublist (nm : String) :
    ∀ cs : List mvAppItem, (namesIn (deleteChildrenOfChildIn nm cs)).Sublist (namesIn cs) := by
  refine (induct_forest
    (P := fun c => (names (deleteChildrenOfChild nm c)).Sublist (names c)) ?_ ?_ ?_).2
  · intro a n t p cs ih
    simp only [deleteChildrenOfChild, names]
    exact ih.cons₂ n
  · simp [deleteChildrenOfChildIn]
  · intro c rest ihc ihr
    rw [deleteChildrenOfChildIn_cons, namesIn_cons]
    by_cases h1 : c.getName = nm
    · rw [if_pos h1, namesIn_cons]
      exact (deleteChildren_names_sublist c).append (List.Sublist.refl _)
    · rw [if_neg h1]
      by_cases h2 : (getChild nm c).isSome = true
      · rw [if_pos h2, namesIn_cons]; exact ihc.append (List.Sublist.refl _)
      · rw [if_neg h2, namesIn_cons]; exact (List.Sublist.refl _).append ihr

theorem deleteChildrenOfChild_sublist (nm : String) (c : mvAppItem) :
    (names (deleteChildrenOfChild nm c)).Sublist (names c) := by
  cases c with
  | mk a n t p cs =>
    simp only [deleteChildrenOfChild, names]
    exact (deleteChildrenOfChildIn_sublist nm cs).cons₂ n

end mvAppItem

namespace mvApp

open mvAppItem

theorem deleteFromWindows_wellParented (nm : String) (ws : List mvAppItem)
    (h : ∀ w ∈ ws, wellParented w) : ∀ w ∈ (deleteFromWindows nm ws).2, wellParented w := by
  induction ws with
  | nil => simp [deleteFromWindows]
  | cons w rest ih =>
    have hw := deleteChild_wellParented nm w (h w (List.mem_cons_self _ _))
    have hr : ∀ x ∈ rest, wellParented x := fun x hx => h x (List.mem_cons_of_mem _ hx)
    rw [deleteFromWindows_cons]
    by_cases h1 : (deleteChild nm w).1 = true
    · rw [if_pos h1]
      intro x hx
      rcases List.mem_cons.mp hx with e | hx
      · rw [e]; exact hw
      · exact hr x hx
    · rw [if_neg h1]
      intro x hx
      rcases List.mem_cons.mp hx with e | hx
      · rw [e]; exact hw
      · exact ih hr x hx

theorem deleteItem_wellParented (nm : String) (ws : List mvAppItem)
    (h : ∀ w ∈ ws, wellParented w) : ∀ w ∈ (deleteItem nm ws).1, wellParented w := by
  have h1 := deleteFromWindows_wellParented nm ws h
  rw [deleteItem_fst]
  split
  · intro w hw
    exact h1 w (List.mem_of_mem_filter hw)
  · exact h1

theorem deleteChildrenOfItem_cons (nm : String) (w : mvAppItem) (rest : List mvAppItem) :
    deleteChildrenOfItem nm (w :: rest) =
      if w.getName = nm then w.deleteChildren :: rest
      else if (getChild nm w).isSome = true then deleteChildrenOfChild nm w :: rest
      else w :: deleteChildrenOfItem nm rest := by
  simp [deleteChildrenOfItem]

theorem deleteChildrenOfItem_wellParented (nm : String) (ws : List mvAppItem)
    (h : ∀ w ∈ ws, wellParented w) : ∀ w ∈ deleteChildrenOfItem nm ws, wellParented w := by
  induction ws with
  | nil => simp [deleteChildrenOfItem]
  | cons w rest ih =>
    have hw := h w (List.mem_cons_self _ _)
    have hr : ∀ x ∈ rest, wellParented x := fun x hx => h x (List.mem_cons_of_mem _ hx)
    rw [deleteChildrenOfItem_cons]
    by_cases h1 : w.getName = nm
    · rw [if_pos h1]
      intro x hx
      rcases List.mem_cons.mp hx with e | hx
      · rw [e]; exact deleteChildren_wellParented w
      · exact hr x hx
    · rw [if_neg h1]
      by_cases h2 : (getChild nm w).isSome = true
      · rw [if_pos h2]
        intro x hx
        rcases List.mem_cons.mp hx with e | hx
        · rw [e]; exact deleteChildrenOfChild_wellParented nm w hw
        · exact hr x hx
      · rw [if_neg h2]
        intro x hx
        rcases List.mem_cons.mp hx with e | hx
        · rw [e]; exact hw
        · exact ih hr x hx

theorem deleteChildrenOfItem_sublist (nm : String) (ws : List mvAppItem) :
    (namesIn (deleteChildrenOfItem nm ws)).Sublist (namesIn ws) := by
  induction ws with
  | nil => simp [deleteChildrenOfItem]
  | cons w rest ih =>
    rw [deleteChildrenOfItem_cons, namesIn_cons]
    by_cases h1 : w.getName = nm
    · rw [if_pos h1, namesIn_cons]
      exact (deleteChildren_names_sublist w).append (List.Sublist.refl _)
    · rw [if_neg h1]
      by_cases h2 : (getChild nm w).isSome = true
      · rw [if_pos h2, namesIn_cons]
        exact (deleteChildrenOfChild_sublist nm w).append (List.Sublist.refl _)
      · rw [if_neg h2, namesIn_cons]; exact (List.Sublist.refl _).append ih

end mvApp

namespace mvAppItem

theorem setParent_names (a : Nat) (x : mvAppItem) : names (x.setParent a) = names x := by
  cases x; rfl

theorem setParent_getParent (a : Nat) (x : mvAppItem) : (x.setParent a).getParent = some a := by
  cases x; rfl

theorem setParent_wellParented (a : Nat) (x : mvAppItem) (h : wellParented x) :
    wellParented (x.setParent a) := by
  cases x; exact h

theorem ownedBy_append (a : Nat) (cs ds : List mvAppItem) :
    ownedBy a (cs ++ ds) ↔ ownedBy a cs ∧ ownedBy a ds := by
  simp only [ownedBy_iff, List.mem_append]
  constructor
  · intro h
    exact ⟨fun c hc => h c (Or.inl hc), fun c hc => h c (Or.inr hc)⟩
  · rintro ⟨h1, h2⟩ c (hc | hc)
    · exact h1 c hc
    · exact h2 c hc

theorem insertBefore_cons (before : String) (x c : mvAppItem) (rest : List mvAppItem) :
    insertBefore before x (c :: rest) =
      if c.getName = before then x :: c :: rest else c :: insertBefore before x rest := by
  simp [insertBefore]

theorem insertBefore_ownedBy (a : Nat) (before : String) (x : mvAppItem)
    (hx : (x.getType ≠ mvAppItemType.Window → x.getParent = some a) ∧ wellParented x) :
    ∀ cs : List mvAppItem, ownedBy a cs → ownedBy a (insertBefore before x cs) := by
  intro cs
  induction cs with
  | nil => intro _; simp [insertBefore, ownedBy]
  | cons c rest ih =>
    intro h
    rw [insertBefore_cons]
    by_cases h1 : c.getName = before
    · rw [if_pos h1, ownedBy_cons]; exact ⟨hx.1, hx.2, h⟩
    · rw [if_neg h1, ownedBy_cons]
      rw [ownedBy_cons] at h
      exact ⟨h.1, h.2.1, ih h.2.2⟩

theorem insertBefore_perm (before : String) (x : mvAppItem) :
    ∀ cs : List mvAppItem, cs.any (fun c => c.getName == before) = true →
      (namesIn (insertBefore before x cs)).Perm (names x ++ namesIn cs) := by
  intro cs
  induction cs with
  | nil => intro h; simp at h
  | cons c rest ih =>
    intro h
    rw [insertBefore_cons]
    by_cases h1 : c.getName = before
    · rw [if_pos h1, namesIn_cons]
    · rw [if_neg h1, namesIn_cons, namesIn_cons]
      have h' : rest.any (fun c => c.getName == before) = true := by
        simpa [h1] using h
      exact ((ih h').append_left (names c)).trans (List.perm_append_comm_assoc _ _ _)

theorem addRuntimeChild_mk (parent before : String) (item : mvAppItem) (a : Nat) (n : String)
    (t : mvAppItemType) (p : Option Nat) (cs : List mvAppItem) :
    addRuntimeChild parent before item (mk a n t p cs) =
      if n = parent then
        if before = "" then (true, mk a n t p (cs ++ [item.setParent a]))
        else if cs.any (fun c => c.getName == before) = true then
          (true, mk a n t p (insertBefore before (item.setParent a) cs))
        else (false, mk a n t p cs)
      else
        ((addRuntimeChildIn parent before item cs).1,
          mk a n t p (addRuntimeChildIn parent before item cs).2) := by
  simp [addRuntimeChild]

theorem addRuntimeChildIn_cons (parent before : String) (item c : mvAppItem)
    (rest : List mvAppItem) :
    addRuntimeChildIn parent before item (c :: rest) =
      if (addRuntimeChild parent before item c).1 = true then
        (true, (addRuntimeChild parent before item c).2 :: rest)
      else
        ((addRuntimeChildIn parent before item rest).1,
          c :: (addRuntimeChildIn parent before item rest).2) := by
  simp [addRuntimeChildIn]

theorem addRuntimeChild_getType (parent before : String) (item c : mvAppItem) :
    (addRuntimeChild parent before item c).2.getType = c.getType := by
  cases c with
  | mk a n t p cs =>
    rw [addRuntimeChild_mk]
    repeat' split
    all_goals rfl

theorem addRuntimeChild_getParent (parent before : String) (item c : mvAppItem) :
    (addRuntimeChild parent before item c).2.getParent = c.getParent := by
  cases c with
  | mk a n t p cs =>
    rw [addRuntimeChild_mk]
    repeat' split
    all_goals rfl

theorem addRuntimeChildIn_ownedBy (parent before : String) (item : mvAppItem)
    (hitem : wellParented item) :
    ∀ cs : List mvAppItem, ∀ a, ownedBy a cs →
      ownedBy a (addRuntimeChildIn parent before item cs).2 := by
  refine (induct_forest
    (P := fun c => wellParented c → wellParented (addRuntimeChild parent before item c).2)
    ?_ ?_ ?_).2
  · intro a n t p cs ih h
    have hx : ((item.setParent a).getType ≠ mvAppItemType.Window →
        (item.setParent a).getParent = some a) ∧ wellParented (item.setParent a) :=
      ⟨fun _ => setParent_getParent a item, setParent_wellParented a item hitem⟩
    simp only [wellParented] at h
    rw [addRuntimeChild_mk]
    by_cases h1 : n = parent
    · rw [if_pos h1]
      by_cases h2 : before = ""
      · rw [if_pos h2]
        simp only [wellParented]
        rw [ownedBy_append]
        exact ⟨h, by rw [ownedBy_cons]; exact ⟨hx.1, hx.2, by simp [ownedBy]⟩⟩
      · rw [if_neg h2]
        by_cases h3 : cs.any (fun c => c.getName == before) = true
        · rw [if_pos h3]
          simp only [wellParented]
          exact insertBefore_ownedBy a before _ hx cs h
        · rw [if_neg h3]
          simp only [wellParented]
          exact h
    · rw [if_neg h1]
      simp only [wellParented]
      exact ih a h
  · intro a _; simp [addRuntimeChildIn, ownedBy]
  · intro c rest ihc ihr a h
    rw [ownedBy_cons] at h
    rw [addRuntimeChildIn_cons]
    by_cases h1 : (addRuntimeChild parent before item c).1 = true
    · rw [if_pos h1, ownedBy_cons, addRuntimeChild_getType, addRuntimeChild_getParent]
      exact ⟨h.1, ihc h.2.1, h.2.2⟩
    · rw [if_neg h1, ownedBy_cons]
      exact ⟨h.1, h.2.1, ihr a h.2.2⟩

theorem addRuntimeChild_wellParented (parent before : String) (item c : mvAppItem)
    (hitem : wellParented item) (h : wellParented c) :
    wellParented (addRuntimeChild parent before item c).2 := by
  have hx : ∀ a, ((item.setParent a).getType ≠ mvAppItemType.Window →
      (item.setParent a).getParent = some a) ∧ wellParented (item.setParent a) :=
    fun a => ⟨fun _ => setParent_getParent a item, setParent_wellParented a item hitem⟩
  cases c with
  | mk a n t p cs =>
    simp only [wellParented] at h
    rw [addRuntimeChild_mk]
    by_cases h1 : n = parent
    · rw [if_pos h1]
      by_cases h2 : before = ""
      · rw [if_pos h2]
        simp only [wellParented]
        rw [ownedBy_append]
        exact ⟨h, by rw [ownedBy_cons]; exact ⟨(hx a).1, (hx a).2, by simp [ownedBy]⟩⟩
      · rw [if_neg h2]
        by_cases h3 : cs.any (fun c => c.getName == before) = true
        · rw [if_pos h3]
          simp only [wellParented]
          exact insertBefore_ownedBy a before _ (hx a) cs h
        · rw [if_neg h3]
          simp only [wellParented]
          exact h
    · rw [if_neg h1]
      simp only [wellParented]
      exact addRuntimeChildIn_ownedBy parent before item hitem cs a h

theorem addRuntimeChildIn_names (parent before : String) (item : mvAppItem) :
    ∀ cs : List mvAppItem,
      ((addRuntimeChildIn parent before item cs).1 = false →
        (addRuntimeChildIn parent before item cs).2 = cs) ∧
      ((addRuntimeChildIn parent before item cs).1 = true →
        (namesIn (addRuntimeChildIn parent before item cs).2).Perm
          (names item ++ namesIn cs)) := by
  refine (induct_forest
    (P := fun c =>
      ((addRuntimeChild parent before item c).1 = false →
        (addRuntimeChild parent before item c).2 = c) ∧
      ((addRuntimeChild parent before item c).1 = true →
        (names (addRuntimeChild parent before item c).2).Perm (names item ++ names c)))
    ?_ ?_ ?_).2
  · intro a n t p cs ih
    rw [addRuntimeChild_mk]
    by_cases h1 : n = parent
    · rw [if_pos h1]
      by_cases h2 : before = ""
      · rw [if_pos h2]
        refine ⟨fun h => by simp at h, fun _ => ?_⟩
        simp only [names, namesIn_append, namesIn_cons, namesIn, List.append_nil,
          setParent_names]
        exact (List.perm_append_comm.cons n).trans List.perm_middle.symm
      · rw [if_neg h2]
        by_cases h3 : cs.any (fun c => c.getName == before) = true
        · rw [if_pos h3]
          refine ⟨fun h => by simp at h, fun _ => ?_⟩
          simp only [names]
          have hp := insertBefore_perm before (item.setParent a) cs h3
          rw [setParent_names] at hp
          exact (hp.cons n).trans List.perm_middle.symm
        · rw [if_neg h3]
          exact ⟨fun _ => rfl, fun h => by simp at h⟩
    · rw [if_neg h1]
      refine ⟨fun h => ?_, fun h => ?_⟩
      · simp only at h
        simp only
        rw [ih.1 h]
      · simp only at h
        simp only [names]
        exact ((ih.2 h).cons n).trans List.perm_middle.symm
  · simp [addRuntimeChildIn]
  · intro c rest ihc ihr
    rw [addRuntimeChildIn_cons]
    by_cases h1 : (addRuntimeChild parent before item c).1 = true
    · rw [if_pos h1]
      refine ⟨fun h => by simp at h, fun _ => ?_⟩
      simp only [namesIn_cons]
      rw [← List.append_assoc]
      exact (ihc.2 h1).append_right _
    · rw [if_neg h1]
      refine ⟨fun h => ?_, fun h => ?_⟩
      · simp only at h
        simp only
        rw [ihr.1 h]
      · simp only at h
        simp only [namesIn_cons]
        exact ((ihr.2 h).append_left (names c)).trans (List.perm_append_comm_assoc _ _ _)

theorem addRuntimeChild_names (parent before : String) (item c : mvAppItem) :
    ((addRuntimeChild parent before item c).1 = false →
      (addRuntimeChild parent before item c).2 = c) ∧
    ((addRuntimeChild parent before item c).1 = true →
      (names (addRuntimeChild parent before item c).2).Perm (names item ++ names c)) := by
  cases c with
  | mk a n t p cs =>
    have ih := addRuntimeChildIn_names parent before item cs
    rw [addRuntimeChild_mk]
    by_cases h1 : n = parent
    · rw [if_pos h1]
      by_cases h2 : before = ""
      · rw [if_pos h2]
        refine ⟨fun h => by simp at h, fun _ => ?_⟩
        simp only [names, namesIn_append, namesIn_cons, namesIn, List.append_nil,
          setParent_names]
        exact (List.perm_append_comm.cons n).trans List.perm_middle.symm
      · rw [if_neg h2]
        by_cases h3 : cs.any (fun c => c.getName == before) = true
        · rw [if_pos h3]
          refine ⟨fun h => by simp at h, fun _ => ?_⟩
          simp only [names]
          have hp := insertBefore_perm before (item.setParent a) cs h3
          rw [setParent_names] at hp
          exact (hp.cons n).trans List.perm_middle.symm
        · rw [if_neg h3]
          exact ⟨fun _ => rfl, fun h => by simp at h⟩
    · rw [if_neg h1]
      refine ⟨fun h => ?_, fun h => ?_⟩
      · simp only at h
        simp only
        rw [ih.1 h]
      · simp only at h
        simp only [names]
        exact ((ih.2 h).cons n).trans List.perm_middle.symm

end mvAppItem

/-! ## Moves keep names and parent references -/

namespace mvAppItem

theorem moveChildUp_eq (nm : String) (c : mvAppItem) :
    moveChildUp nm c = ((moveChildUpIn nm c.getChildren).1,
      mk c.addr c.getName c.getType c.getParent (moveChildUpIn nm c.getChildren).2) := by
  cases c; simp [moveChildUp, getChildren, addr, getName, getType, getParent]

theorem moveChildUp_getType (nm : String) (c : mvAppItem) :
    (moveChildUp nm c).2.getType = c.getType := by
  rw [moveChildUp_eq]; rfl

theorem moveChildUp_getParent (nm : String) (c : mvAppItem) :
    (moveChildUp nm c).2.getParent = c.getParent := by
  rw [moveChildUp_eq]; rfl

theorem moveChildUpIn_one (nm : String) (c : mvAppItem) :
    moveChildUpIn nm [c] =
      if c.getName = nm then (false, [c])
      else ((moveChildUp nm c).1, [(moveChildUp nm c).2]) := by
  simp [moveChildUpIn]

theorem moveChildUpIn_two (nm : String) (c d : mvAppItem) (rest : List mvAppItem) :
    moveChildUpIn nm (c :: d :: rest) =
      if c.getName = nm then (false, c :: d :: rest)
      else if (moveChildUp nm c).1 = true then (true, (moveChildUp nm c).2 :: d :: rest)
      else if d.getName = nm then (true, d :: c :: rest)
      else ((moveChildUpIn nm (d :: rest)).1, c :: (moveChildUpIn nm (d :: rest)).2) := by
  simp [moveChildUpIn]

theorem moveChildUpIn_ownedBy (nm : String) :
    ∀ cs : List mvAppItem, ∀ a, ownedBy a cs → ownedBy a (moveChildUpIn nm cs).2 := by
  refine (induct_forest (P := fun c => wellParented c → wellParented (moveChildUp nm c).2)
    ?_ ?_ ?_).2
  · intro a n t p cs ih h
    simp only [moveChildUp, wellParented] at h ⊢
    exact ih a h
  · intro a _; simp [moveChildUpIn, ownedBy]
  · intro c rest ihc ihr a h
    cases rest with
    | nil =>
      rw [ownedBy_cons] at h
      rw [moveChildUpIn_one]
      by_cases h1 : c.getName = nm
      · rw [if_pos h1, ownedBy_cons]; exact h
      · rw [if_neg h1, ownedBy_cons, moveChildUp_getType, moveChildUp_getParent]
        exact ⟨h.1, ihc h.2.1, h.2.2⟩
    | cons d rest =>
      have h' := h
      rw [ownedBy_cons, ownedBy_cons] at h
      rw [ownedBy_cons] at h'
      rw [moveChildUpIn_two]
      by_cases h1 : c.getName = nm
      · rw [if_pos h1, ownedBy_cons, ownedBy_cons]; exact h
      · rw [if_neg h1]
        by_cases h2 : (moveChildUp nm c).1 = true
        · rw [if_pos h2, ownedBy_cons, ownedBy_cons, moveChildUp_getType,
            moveChildUp_getParent]
          exact ⟨h.1, ihc h.2.1, h.2.2⟩
        · rw [if_neg h2]
          by_cases h3 : d.getName = nm
          · rw [if_pos h3, ownedBy_cons, ownedBy_cons]
            exact ⟨h.2.2.1, h.2.2.2.1, h.1, h.2.1, h.2.2.2.2⟩
          · rw [if_neg h3, ownedBy_cons]
            exact ⟨h.1, h.2.1, ihr a h'.2.2⟩

theorem moveChildUp_wellParented (nm : String) (c : mvAppItem) (h : wellParented c) :
    wellParented (moveChildUp nm c).2 := by
  cases c with
  | mk a n t p cs =>
    simp only [moveChildUp, wellParented] at h ⊢
    exact moveChildUpIn_ownedBy nm cs a h

theorem moveChildUpIn_perm (nm : String) :
    ∀ cs : List mvAppItem, (namesIn (moveChildUpIn nm cs).2).Perm (namesIn cs) := by
  refine (induct_forest (P := fun c => (names (moveChildUp nm c).2).Perm (names c))
    ?_ ?_ ?_).2
  · intro a n t p cs ih
    simp only [moveChildUp, names]
    exact ih.cons n
  · simp [moveChildUpIn]
  · intro c rest ihc ihr
    cases rest with
    | nil =>
      rw [moveChildUpIn_one]
      by_cases h1 : c.getName = nm
      · rw [if_pos h1]
      · rw [if_neg h1, namesIn_cons, namesIn_cons]
        exact ihc.append_right _
    | cons d rest =>
      rw [moveChildUpIn_two]
      by_cases h1 : c.getName = nm
      · rw [if_pos h1]
      · rw [if_neg h1]
        by_cases h2 : (moveChildUp nm c).1 = true
        · rw [if_pos h2, namesIn_cons, namesIn_cons]
          exact ihc.append_right _
        · rw [if_neg h2]
          by_cases h3 : d.getName = nm
          · rw [if_pos h3]
            simp only [namesIn_cons]
            exact List.perm_append_comm_assoc _ _ _
          · rw [if_neg h3, namesIn_cons, namesIn_cons]
            exact ihr.append_left _

theorem moveChildUp_perm (nm : String) (c : mvAppItem) :
    (names (moveChildUp nm c).2).Perm (names c) := by
  cases c with
  | mk a n t p cs =>
    simp only [moveChildUp, names]
    exact (moveChildUpIn_perm nm cs).cons n

end mvAppItem

namespace mvApp

open mvAppItem

theorem moveUpInWindows_cons (nm : String) (w : mvAppItem) (rest : List mvAppItem) :
    moveUpInWindows nm (w :: rest) =
      if (moveChildUp nm w).1 = true then (true, (moveChildUp nm w).2 :: rest)
      else ((moveUpInWindows nm rest).1,
        (moveChildUp nm w).2 :: (moveUpInWindows nm rest).2) := by
  simp [moveUpInWindows]

theorem moveUpInWindows_wellParented (nm : String) (ws : List mvAppItem)
    (h : ∀ w ∈ ws, wellParented w) : ∀ w ∈ (moveUpInWindows nm ws).2, wellParented w := by
  induction ws with
  | nil => simp [moveUpInWindows]
  | cons w rest ih =>
    have hw := moveChildUp_wellParented nm w (h w (List.mem_cons_self _ _))
    have hr : ∀ x ∈ rest, wellParented x := fun x hx => h x (List.mem_cons_of_mem _ hx)
    rw [moveUpInWindows_cons]
    by_cases h1 : (moveChildUp nm w).1 = true
    · rw [if_pos h1]
      intro x hx
      rcases List.mem_cons.mp hx with e | hx
      · rw [e]; exact hw
      · exact hr x hx
    · rw [if_neg h1]
      intro x hx
      rcases List.mem_cons.mp hx with e | hx
      · rw [e]; exact hw
      · exact ih hr x hx

theorem moveUpInWindows_perm (nm : String) (ws : List mvAppItem) :
    (namesIn (moveUpInWindows nm ws).2).Perm (namesIn ws) := by
  induction ws with
  | nil => simp [moveUpInWindows]
  | cons w rest ih =>
    rw [moveUpInWindows_cons, namesIn_cons]
    by_cases h1 : (moveChildUp nm w).1 = true
    · rw [if_pos h1, namesIn_cons]
      exact (moveChildUp_perm nm w).append_right _
    · rw [if_neg h1, namesIn_cons]
      exact (moveChildUp_perm nm w).append ih

end mvApp

namespace mvAppItem

theorem moveChildDown_eq (nm : String) (c : mvAppItem) :
    moveChildDown nm c = ((moveChildDownIn nm c.getChildren).1,
      mk c.addr c.getName c.getType c.getParent (moveChildDownIn nm c.getChildren).2) := by
  cases c; simp [moveChildDown, getChildren, addr, getName, getType, getParent]

theorem moveChildDown_getType (nm : String) (c : mvAppItem) :
    (moveChildDown nm c).2.getType = c.getType := by
  rw [moveChildDown_eq]; rfl

theorem moveChildDown_getParent (nm : String) (c : mvAppItem) :
    (moveChildDown nm c).2.getParent = c.getParent := by
  rw [moveChildDown_eq]; rfl

theorem moveChildDownIn_one (nm : String) (c : mvAppItem) :
    moveChildDownIn nm [c] =
      if c.getName = nm then (false, [c])
      else ((moveChildDown nm c).1, [(moveChildDown nm c).2]) := by
  simp [moveChildDownIn]

theorem moveChildDownIn_two (nm : String) (c d : mvAppItem) (rest : List mvAppItem) :
    moveChildDownIn nm (c :: d :: rest) =
      if c.getName = nm then (true, d :: c :: rest)
      else if (moveChildDown nm c).1 = true then (true, (moveChildDown nm c).2 :: d :: rest)
      else ((moveChildDownIn nm (d :: rest)).1, c :: (moveChildDownIn nm (d :: rest)).2) := by
  simp [moveChildDownIn]

theorem moveChildDownIn_ownedBy (nm : String) :
    ∀ cs : List mvAppItem, ∀ a, ownedBy a cs → ownedBy a (moveChildDownIn nm cs).2 := by
  refine (induct_forest (P := fun c => wellParented c → wellParented (moveChildDown nm c).2)
    ?_ ?_ ?_).2
  · intro a n t p cs ih h
    simp only [moveChildDown, wellParented] at h ⊢
    exact ih a h
  · intro a _; simp [moveChildDownIn, ownedBy]
  · intro c rest ihc ihr a h
    cases rest with
    | nil =>
      rw [ownedBy_cons] at h
      rw [moveChildDownIn_one]
      by_cases h1 : c.getName = nm
      · rw [if_pos h1, ownedBy_cons]; exact h
      · rw [if_neg h1, ownedBy_cons, moveChildDown_getType, moveChildDown_getParent]
        exact ⟨h.1, ihc h.2.1, h.2.2⟩
    | cons d rest =>
      have h' := h
      rw [ownedBy_cons, ownedBy_cons] at h
      rw [ownedBy_cons] at h'
      rw [moveChildDownIn_two]
      by_cases h1 : c.getName = nm
      · rw [if_pos h1, ownedBy_cons, ownedBy_cons]
        exact ⟨h.2.2.1, h.2.2.2.1, h.1, h.2.1, h.2.2.2.2⟩
      · rw [if_neg h1]
        by_cases h2 : (moveChildDown nm c).1 = true
        · rw [if_pos h2, ownedBy_cons, ownedBy_cons, moveChildDown_getType,
            moveChildDown_getParent]
          exact ⟨h.1, ihc h.2.1, h.2.2⟩
        · rw [if_neg h2, ownedBy_cons]
          exact ⟨h.1, h.2.1, ihr a h'.2.2⟩

theorem moveChildDown_wellParented (nm : String) (c : mvAppItem) (h : wellParented c) :
    wellParented (moveChildDown nm c).2 := by
  cases c with
  | mk a n t p cs =>
    simp only [moveChildDown, wellParented] at h ⊢
    exact moveChildDownIn_ownedBy nm cs a h

theorem moveChildDownIn_perm (nm : String) :
    ∀ cs : List mvAppItem, (namesIn (moveChildDownIn nm cs).2).Perm (namesIn cs) := by
  refine (induct_forest (P := fun c => (names (moveChildDown nm c).2).Perm (names c))
    ?_ ?_ ?_).2
  · intro a n t p cs ih
    simp only [moveChildDown, names]
    exact ih.cons n
  · simp [moveChildDownIn]
  · intro c rest ihc ihr
    cases rest with
    | nil =>
      rw [moveChildDownIn_one]
      by_cases h1 : c.getName = nm
      · rw [if_pos h1]
      · rw [if_neg h1, namesIn_cons, namesIn_cons]
        exact ihc.append_right _
    | cons d rest =>
      rw [moveChildDownIn_two]
      by_cases h1 : c.getName = nm
      · rw [if_pos h1]
        simp only [namesIn_cons]
        exact List.perm_append_comm_assoc _ _ _
      · rw [if_neg h1]
        by_cases h2 : (moveChildDown nm c).1 = true
        · rw [if_pos h2, namesIn_cons, namesIn_cons]
          exact ihc.append_right _
        · rw [if_neg h2, namesIn_cons, namesIn_cons]
          exact ihr.append_left _

theorem moveChildDown_perm (nm : String) (c : mvAppItem) :
    (names (moveChildDown nm c).2).Perm (names c) := by
  cases c with
  | mk a n t p cs =>
    simp only [moveChildDown, names]
    exact (moveChildDownIn_perm nm cs).cons n

end mvAppItem

namespace mvApp

open mvAppItem

theorem moveDownInWindows_cons (nm : String) (w : mvAppItem) (rest : List mvAppItem) :
    moveDownInWindows nm (w :: rest) =
      if (moveChildDown nm w).1 = true then (true, (moveChildDown nm w).2 :: rest)
      else ((moveDownInWindows nm rest).1,
        (moveChildDown nm w).2 :: (moveDownInWindows nm rest).2) := by
  simp [moveDownInWindows]

theorem moveDownInWindows_wellParented (nm : String) (ws : List mvAppItem)
    (h : ∀ w ∈ ws, wellParented w) : ∀ w ∈ (moveDownInWindows nm ws).2, wellParented w := by
  induction ws with
  | nil => simp [moveDownInWindows]
  | cons w rest ih =>
    have hw := moveChildDown_wellParented nm w (h w (List.mem_cons_self _ _))
    have hr : ∀ x ∈ rest, wellParented x := fun x hx => h x (List.mem_cons_of_mem _ hx)
    rw [moveDownInWindows_cons]
    by_cases h1 : (moveChildDown nm w).1 = true
    · rw [if_pos h1]
      intro x hx
      rcases List.mem_cons.mp hx with e | hx
      · rw [e]; exact hw
      · exact hr x hx
    · rw [if_neg h1]
      intro x hx
      rcases List.mem_cons.mp hx with e | hx
      · rw [e]; exact hw
      · exact ih hr x hx

theorem moveDownInWindows_perm (nm : String) (ws : List mvAppItem) :
    (namesIn (moveDownInWindows nm ws).2).Perm (namesIn ws) := by
  induction ws with
  | nil => simp [moveDownInWindows]
  | cons w rest ih =>
    rw [moveDownInWindows_cons, namesIn_cons]
    by_cases h1 : (moveChildDown nm w).1 = true
    · rw [if_pos h1, namesIn_cons]
      exact (moveChildDown_perm nm w).append_right _
    · rw [if_neg h1, namesIn_cons]
      exact (moveChildDown_perm nm w).append ih

end mvApp

/-! ## The tree invariant through the loops of `postrender` -/

namespace mvApp

open mvAppItem

theorem addToWindows_wellParented (parent before : String) (item : mvAppItem)
    (hitem : wellParented item) (ws : List mvAppItem) (h : ∀ w ∈ ws, wellParented w) :
    ∀ w ∈ (addToWindows parent before item ws).2, wellParented w := by
  induction ws with
  | nil => simp [addToWindows]
  | cons w rest ih =>
    have hw := addRuntimeChild_wellParented parent before item w hitem
      (h w (List.mem_cons_self _ _))
    have hr : ∀ x ∈ rest, wellParented x := fun x hx => h x (List.mem_cons_of_mem _ hx)
    rw [addToWindows_cons]
    by_cases h1 : (addRuntimeChild parent before item w).1 = true
    · rw [if_pos h1]
      intro x hx
      rcases List.mem_cons.mp hx with e | hx
      · rw [e]; exact hw
      · exact hr x hx
    · rw [if_neg h1]
      intro x hx
      rcases List.mem_cons.mp hx with e | hx
      · rw [e]; exact hw
      · exact ih hr x hx

theorem addToWindows_names (parent before : String) (item : mvAppItem) (ws : List mvAppItem) :
    ((addToWindows parent before item ws).1 = false →
      (addToWindows parent before item ws).2 = ws) ∧
    ((addToWindows parent before item ws).1 = true →
      (namesIn (addToWindows parent before item ws).2).Perm (names item ++ namesIn ws)) := by
  induction ws with
  | nil => simp [addToWindows]
  | cons w rest ih =>
    have hw := addRuntimeChild_names parent before item w
    rw [addToWindows_cons]
    by_cases h1 : (addRuntimeChild parent before item w).1 = true
    · rw [if_pos h1]
      refine ⟨fun h => by simp at h, fun _ => ?_⟩
      simp only [namesIn_cons]
      rw [← List.append_assoc]
      exact (hw.2 h1).append_right _
    · rw [if_neg h1]
      have h1' : (addRuntimeChild parent before item w).1 = false := by
        simpa using h1
      refine ⟨fun h => ?_, fun h => ?_⟩
      · simp only at h
        simp only
        rw [hw.1 h1', ih.1 h]
      · simp only at h
        simp only [namesIn_cons]
        rw [hw.1 h1']
        exact ((ih.2 h).append_left (names w)).trans (List.perm_append_comm_assoc _ _ _)

theorem names_childless (x : mvAppItem) (h : x.getChildren = []) : names x = [x.getName] := by
  rw [names_eq, h]; rfl

theorem wellParented_childless (x : mvAppItem) (h : x.getChildren = []) : wellParented x := by
  rw [wellParented_eq, h]; simp [ownedBy]

theorem addNewItem_main (s : mvApp) (e : NewRuntimeItem) :
    (addNewItem s.m_mainThreadID e s).1 =
      if (findItem e.item.getName s.m_windows).isSome = true then s.m_windows
      else if e.item.getType = mvAppItemType.Window then s.m_windows ++ [e.item]
      else (addToWindows e.parent e.before e.item s.m_windows).2 := by
  simp only [addNewItem, getItem_main]
  repeat' split
  all_goals rfl

/-- One iteration of the add loop keeps names unique and parent references right, for
an item that carries no children. -/
theorem addNewItem_invariant (s : mvApp) (e : NewRuntimeItem)
    (hchild : e.item.getChildren = [])
    (hu : uniqueNames s.m_windows) (hp : ∀ w ∈ s.m_windows, wellParented w) :
    uniqueNames (addNewItem s.m_mainThreadID e s).1 ∧
      ∀ w ∈ (addNewItem s.m_mainThreadID e s).1, wellParented w := by
  rw [addNewItem_main]
  by_cases h1 : (findItem e.item.getName s.m_windows).isSome = true
  · rw [if_pos h1]; exact ⟨hu, hp⟩
  · rw [if_neg h1]
    have hfree : e.item.getName ∉ namesIn s.m_windows :=
      fun hm => h1 ((findItem_isSome _ _).2 hm)
    have hnew : (names e.item ++ namesIn s.m_windows).Nodup := by
      rw [names_childless _ hchild]
      exact List.nodup_cons.mpr ⟨hfree, hu⟩
    by_cases h2 : e.item.getType = mvAppItemType.Window
    · rw [if_pos h2]
      refine ⟨?_, ?_⟩
      · unfold uniqueNames
        rw [namesIn_append, namesIn_cons]
        simp only [namesIn, List.append_nil]
        exact (List.perm_append_comm.nodup_iff).mp hnew
      · intro w hw
        rcases List.mem_append.mp hw with hw | hw
        · exact hp w hw
        · rw [List.mem_singleton.mp hw]; exact wellParented_childless _ hchild
    · rw [if_neg h2]
      refine ⟨?_, addToWindows_wellParented _ _ _ (wellParented_childless _ hchild) _ hp⟩
      have hn := addToWindows_names e.parent e.before e.item s.m_windows
      cases hb : (addToWindows e.parent e.before e.item s.m_windows).1 with
      | false => rw [hn.1 hb]; exact hu
      | true => exact ((hn.2 hb).nodup_iff).mpr hnew

theorem addNewItems_invariant (q : List NewRuntimeItem) :
    ∀ s : mvApp, (∀ e ∈ q, e.item.getChildren = []) →
      uniqueNames s.m_windows → (∀ w ∈ s.m_windows, wellParented w) →
      uniqueNames (addNewItems s.m_mainThreadID q s).m_windows ∧
        ∀ w ∈ (addNewItems s.m_mainThreadID q s).m_windows, wellParented w := by
  induction q with
  | nil => intro s _ hu hp; exact ⟨hu, hp⟩
  | cons e rest ih =>
    intro s hq hu hp
    have h1 := addNewItem_invariant s e (hq e (List.mem_cons_self _ _)) hu hp
    simp only [addNewItems]
    exact ih { s with
        m_windows := (addNewItem s.m_mainThreadID e s).1
        m_errors := s.m_errors ++ (addNewItem s.m_mainThreadID e s).2 }
      (fun x hx => hq x (List.mem_cons_of_mem _ hx)) h1.1 h1.2

theorem drainDeleteQueue_invariant (q : List String) :
    ∀ s : mvApp, uniqueNames s.m_windows → (∀ w ∈ s.m_windows, wellParented w) →
      uniqueNames (drainDeleteQueue q s).m_windows ∧
        ∀ w ∈ (drainDeleteQueue q s).m_windows, wellParented w := by
  induction q with
  | nil => intro s hu hp; exact ⟨hu, hp⟩
  | cons nm rest ih =>
    intro s hu hp
    simp only [drainDeleteQueue]
    exact ih _ ((deleteItem_sublist nm s.m_windows).nodup hu)
      (deleteItem_wellParented nm s.m_windows hp)

theorem drainUpQueue_invariant (q : List String) :
    ∀ s : mvApp, uniqueNames s.m_windows → (∀ w ∈ s.m_windows, wellParented w) →
      uniqueNames (drainUpQueue q s).m_windows ∧
        ∀ w ∈ (drainUpQueue q s).m_windows, wellParented w := by
  induction q with
  | nil => intro s hu hp; exact ⟨hu, hp⟩
  | cons nm rest ih =>
    intro s hu hp
    simp only [drainUpQueue, moveItemUp]
    exact ih _ (((moveUpInWindows_perm nm s.m_windows).nodup_iff).mpr hu)
      (moveUpInWindows_wellParented nm s.m_windows hp)

theorem drainDownQueue_invariant (q : List String) :
    ∀ s : mvApp, uniqueNames s.m_windows → (∀ w ∈ s.m_windows, wellParented w) →
      uniqueNames (drainDownQueue q s).m_windows ∧
        ∀ w ∈ (drainDownQueue q s).m_windows, wellParented w := by
  induction q with
  | nil => intro s hu hp; exact ⟨hu, hp⟩
  | cons nm rest ih =>
    intro s hu hp
    simp only [drainDownQueue, moveItemDown]
    exact ih _ (((moveDownInWindows_perm nm s.m_windows).nodup_iff).mpr hu)
      (moveDownInWindows_wellParented nm s.m_windows hp)

theorem deleteChildrenOfRuntimeItem_childless (nm : String) (vec : List NewRuntimeItem)
    (h : ∀ e ∈ vec, e.item.getChildren = []) :
    ∀ e ∈ deleteChildrenOfRuntimeItem nm vec, e.item.getChildren = [] := by
  induction vec with
  | nil => simp [deleteChildrenOfRuntimeItem]
  | cons x rest ih =>
    have hr : ∀ e ∈ rest, e.item.getChildren = [] := fun e he => h e (List.mem_cons_of_mem _ he)
    simp only [deleteChildrenOfRuntimeItem]
    split
    · intro e he
      rcases List.mem_cons.mp he with e1 | he
      · rw [e1]; cases x.item; rfl
      · exact hr e he
    · intro e he
      rcases List.mem_cons.mp he with e1 | he
      · rw [e1]; exact h x (List.mem_cons_self _ _)
      · exact ih hr e he

theorem deleteChildrenOf_cases (tid : Nat) (runtimeDflt : Bool) (nm : String) (s : mvApp) :
    ((deleteChildrenOf tid runtimeDflt nm s).1 = s.m_windows ∨
      (deleteChildrenOf tid runtimeDflt nm s).1 = deleteChildrenOfItem nm s.m_windows) ∧
    ((deleteChildrenOf tid runtimeDflt nm s).2.1 = s.m_newItemVec ∨
      (deleteChildrenOf tid runtimeDflt nm s).2.1 = deleteChildrenOfRuntimeItem nm s.m_newItemVec) := by
  unfold deleteChildrenOf
  simp only
  split
  · exact ⟨Or.inl rfl, Or.inl rfl⟩
  · split
    · exact ⟨Or.inl rfl, Or.inr rfl⟩
    · exact ⟨Or.inr rfl, Or.inl rfl⟩

theorem drainDeleteChildrenQueue_invariant (tid : Nat) (runtimeDflt : Bool)
    (q : List String) :
    ∀ s : mvApp, uniqueNames s.m_windows → (∀ w ∈ s.m_windows, wellParented w) →
      (∀ e ∈ s.m_newItemVec, e.item.getChildren = []) →
      uniqueNames (drainDeleteChildrenQueue tid runtimeDflt q s).m_windows ∧
        (∀ w ∈ (drainDeleteChildrenQueue tid runtimeDflt q s).m_windows, wellParented w) ∧
        ∀ e ∈ (drainDeleteChildrenQueue tid runtimeDflt q s).m_newItemVec, e.item.getChildren = [] := by
  induction q with
  | nil => intro s hu hp hc; exact ⟨hu, hp, hc⟩
  | cons nm rest ih =>
    intro s hu hp hc
    simp only [drainDeleteChildrenQueue]
    obtain ⟨hw, hv⟩ := deleteChildrenOf_cases tid runtimeDflt nm s
    refine ih _ ?_ ?_ ?_
    · show uniqueNames (deleteChildrenOf tid runtimeDflt nm s).1
      rcases hw with hw | hw
      · rw [hw]; exact hu
      · rw [hw]; exact (deleteChildrenOfItem_sublist nm s.m_windows).nodup hu
    · show ∀ w ∈ (deleteChildrenOf tid runtimeDflt nm s).1, wellParented w
      rcases hw with hw | hw
      · rw [hw]; exact hp
      · rw [hw]; exact deleteChildrenOfItem_wellParented nm s.m_windows hp
    · show ∀ e ∈ (deleteChildrenOf tid runtimeDflt nm s).2.1, e.item.getChildren = []
      rcases hv with hv | hv
      · rw [hv]; exact hc
      · rw [hv]; exact deleteChildrenOfRuntimeItem_childless nm _ hc

/-- The tree invariant across a whole `postrender` run on the main thread, when the
queued items carry no children. -/
theorem postrender_invariant (s : mvApp) (runtimeDflt : Bool) (tCreate tEnd : ℚ)
    (hu : uniqueNames s.m_windows) (hp : ∀ w ∈ s.m_windows, wellParented w)
    (hc : ∀ e ∈ s.m_newItemVec, e.item.getChildren = []) :
    uniqueNames (postrender s.m_mainThreadID runtimeDflt tCreate tEnd s).m_windows ∧
      ∀ w ∈ (postrender s.m_mainThreadID runtimeDflt tCreate tEnd s).m_windows, wellParented w := by
  obtain ⟨hu1, hp1, hc1⟩ := drainDeleteChildrenQueue_invariant s.m_mainThreadID runtimeDflt
    s.m_deleteChildrenQueue s hu hp hc
  obtain ⟨hu2, hp2⟩ := drainDeleteQueue_invariant
    (drainDeleteChildrenQueue s.m_mainThreadID runtimeDflt s.m_deleteChildrenQueue s).m_deleteQueue _ hu1 hp1
  have hc2 : ∀ e ∈ (drainDeleteQueue
      (drainDeleteChildrenQueue s.m_mainThreadID runtimeDflt s.m_deleteChildrenQueue s).m_deleteQueue
      (drainDeleteChildrenQueue s.m_mainThreadID runtimeDflt s.m_deleteChildrenQueue s)).m_newItemVec,
      e.item.getChildren = [] := by
    simpa using hc1
  have hm : (drainDeleteQueue
      (drainDeleteChildrenQueue s.m_mainThreadID runtimeDflt s.m_deleteChildrenQueue s).m_deleteQueue
      (drainDeleteChildrenQueue s.m_mainThreadID runtimeDflt s.m_deleteChildrenQueue s)).m_mainThreadID =
      s.m_mainThreadID := by simp
  have h3 := addNewItems_invariant _ _ hc2 hu2 hp2
  rw [hm] at h3
  obtain ⟨hu3, hp3⟩ := h3
  simp only [postrender, updateThreadTime_m_windows, submitAsyncCallbacks_m_windows]
  obtain ⟨hu4, hp4⟩ := drainUpQueue_invariant
    ({ addNewItems s.m_mainThreadID _ _ with m_newItemVec := [] } : mvApp).m_upQueue
    ({ addNewItems s.m_mainThreadID _ _ with m_newItemVec := [] } : mvApp) hu3 hp3
  exact drainDownQueue_invariant _ _ hu4 hp4

end mvApp

/-! ## The dispatch of asynchronous results -/

namespace mvApp

@[simp] theorem drainAsyncReturns_m_hostMain (q : List AsyncronousCallback) :
    ∀ s : mvApp, (drainAsyncReturns q s).m_hostMain = s.m_hostMain := by
  induction q with
  | nil => intro s; rfl
  | cons x q ih => intro s; simp [drainAsyncReturns, ih]

@[simp] theorem drainAsyncReturns_m_hostModules (q : List AsyncronousCallback) :
    ∀ s : mvApp, (drainAsyncReturns q s).m_hostModules = s.m_hostModules := by
  induction q with
  | nil => intro s; rfl
  | cons x q ih => intro s; simp [drainAsyncReturns, ih]

theorem resolveHandler_congr (s t : mvApp) (h1 : t.m_hostMain = s.m_hostMain)
    (h2 : t.m_hostModules = s.m_hostModules) (nm : String) :
    resolveHandler t nm = resolveHandler s nm := by
  simp [resolveHandler, h1, h2]

theorem runCallback_congr (s t : mvApp) (h1 : t.m_hostMain = s.m_hostMain)
    (h2 : t.m_hostModules = s.m_hostModules) (nm sender : String) (data : Option PyObject) :
    runCallback t nm sender data = runCallback s nm sender data := by
  simp [runCallback, resolveHandler_congr s t h1 h2]

theorem runReturnCallback_congr (s t : mvApp) (h1 : t.m_hostMain = s.m_hostMain)
    (h2 : t.m_hostModules = s.m_hostModules) (nm sender : String) (data : Option PyObject) :
    runReturnCallback t nm sender data = runReturnCallback s nm sender data := by
  simp [runReturnCallback, runCallback_congr s t h1 h2]

/-- The drain of the result queue dispatches the records one after the other, in queue
order, against the namespaces `s0` of the host. -/
theorem drainAsyncReturns_fold (s0 : mvApp) (q : List AsyncronousCallback) :
    ∀ s : mvApp, s.m_hostMain = s0.m_hostMain → s.m_hostModules = s0.m_hostModules →
      (drainAsyncReturns q s).m_hostCalls =
        s.m_hostCalls ++ q.flatMap
          (fun r => (runReturnCallback s0 r.name "Asyncrounous Callback" r.data).1) ∧
      (drainAsyncReturns q s).m_errors =
        s.m_errors ++ q.flatMap
          (fun r => (runReturnCallback s0 r.name "Asyncrounous Callback" r.data).2) := by
  induction q with
  | nil => intro s _ _; simp [drainAsyncReturns]
  | cons r q ih =>
    intro s h1 h2
    simp only [drainAsyncReturns, List.flatMap_cons]
    have h := ih { s with
        m_hostCalls :=
          s.m_hostCalls ++ (runReturnCallback s r.name "Asyncrounous Callback" r.data).1
        m_errors := s.m_errors ++ (runReturnCallback s r.name "Asyncrounous Callback" r.data).2
        m_asyncReturns := q } h1 h2
    rw [h.1, h.2, runReturnCallback_congr s0 s h1 h2]
    simp

theorem cleanupThreadPool_frame (s : mvApp) :
    (cleanupThreadPool s).m_hostCalls = s.m_hostCalls ∧
    (cleanupThreadPool s).m_errors = s.m_errors ∧
    (cleanupThreadPool s).m_asyncReturns = s.m_asyncReturns ∧
    (cleanupThreadPool s).m_hostMain = s.m_hostMain ∧
    (cleanupThreadPool s).m_hostModules = s.m_hostModules ∧
    (cleanupThreadPool s).m_asyncCallbacks = s.m_asyncCallbacks ∧
    (cleanupThreadPool s).m_threadPoolTimeout = s.m_threadPoolTimeout ∧
    (cleanupThreadPool s).m_threads = s.m_threads ∧
    (cleanupThreadPool s).m_threadPoolHighPerformance = s.m_threadPoolHighPerformance ∧
    (cleanupThreadPool s).m_poolStart = s.m_poolStart ∧
    (cleanupThreadPool s).m_windows = s.m_windows ∧
    (cleanupThreadPool s).m_newItemVec = s.m_newItemVec ∧
    (cleanupThreadPool s).m_parents = s.m_parents ∧
    (cleanupThreadPool s).m_mainThreadID = s.m_mainThreadID := by
  unfold cleanupThreadPool
  repeat' split
  all_goals simp

/-- What a dispatched record with a name makes of its payload: a null result becomes
`None`. -/
theorem runReturnCallback_named (s : mvApp) (nm sender : String) (data : Option PyObject)
    (h : nm ≠ "") :
    runReturnCallback s nm sender data =
      runCallback s nm sender (some (data.getD PyObject.None)) := by
  simp [runReturnCallback, h]

theorem runCallback_callable (s : mvApp) (nm sender : String) (data : Option PyObject)
    (hnm : nm ≠ "") (h : PyHandler) (hres : resolveHandler s nm = some h)
    (hcall : h.callable = true) :
    (runCallback s nm sender data).1 = [⟨h.id, sender, data.getD PyObject.None⟩] := by
  simp [runCallback, hnm, hres, hcall]

/-- Every invocation that `prerender` makes carries the sender tag of line 160. -/
theorem prerender_sender_tag (s : mvApp) :
    ∀ c ∈ (prerender s).m_hostCalls,
      c ∈ s.m_hostCalls ∨ c.sender = "Asyncrounous Callback" := by
  intro c hc
  obtain ⟨f1, -, f3, f4, f5, -⟩ := cleanupThreadPool_frame s
  have hfold := (drainAsyncReturns_fold s (cleanupThreadPool s).m_asyncReturns
    (cleanupThreadPool s) f4 f5).1
  simp only [prerender] at hc
  rw [hfold, f1, f3, List.mem_append, List.mem_flatMap] at hc
  rcases hc with hc | ⟨r, -, hr⟩
  · exact Or.inl hc
  · right
    simp only [runReturnCallback, runCallback] at hr
    repeat' split at hr
    all_goals simp at hr
    all_goals simp [hr]

/-! ### The resolution of a handler name -/

theorem string_append_left_cancel (a b c : String) (h : a ++ b = a ++ c) : b = c := by
  have h2 := congrArg String.data h
  simp only [String.data_append] at h2
  exact String.ext (List.append_cancel_left h2)

theorem scanModules_eq_findSome (nm : String) (mods : List PyDict) :
    scanModules nm mods = mods.findSome? (fun d => d.lookup nm) := by
  induction mods with
  | nil => rfl
  | cons m rest ih =>
    simp only [scanModules, List.findSome?_cons]
    cases m.lookup nm with
    | none => simpa using ih
    | some h => rfl

theorem scanModules_eq_none_iff (nm : String) (mods : List PyDict) :
    scanModules nm mods = none ↔ ∀ d ∈ mods, d.lookup nm = none := by
  induction mods with
  | nil => simp [scanModules]
  | cons m rest ih =>
    simp only [scanModules, List.mem_cons, forall_eq_or_imp]
    cases hm : m.lookup nm with
    | none => simpa using ih
    | some h => simp

theorem scanModules_first (nm : String) (pre : List PyDict) (m : PyDict) (post : List PyDict)
    (h : PyHandler) (hpre : ∀ d ∈ pre, d.lookup nm = none) (hm : m.lookup nm = some h) :
    scanModules nm (pre ++ m :: post) = some h := by
  induction pre with
  | nil => simp [scanModules, hm]
  | cons d rest ih =>
    simp only [List.cons_append, scanModules]
    rw [hpre d (List.mem_cons_self _ _)]
    exact ih (fun x hx => hpre x (List.mem_cons_of_mem _ hx))

theorem resolveHandler_eq_none_iff (s : mvApp) (nm : String) :
    resolveHandler s nm = none ↔
      (s.m_hostMain.lookup nm = none ∧ ∀ d ∈ s.m_hostModules, d.lookup nm = none) := by
  unfold resolveHandler
  cases hm : s.m_hostMain.lookup nm with
  | none => simpa using scanModules_eq_none_iff nm s.m_hostModules
  | some h => simp

end mvApp

/-! ## The pool blocks of `postrender` -/

namespace mvApp

@[simp] theorem submitAsyncCallbacks_m_threads (now : ℚ) (s : mvApp) :
    (submitAsyncCallbacks now s).m_threads = s.m_threads := by
  unfold submitAsyncCallbacks
  repeat' split
  all_goals rfl

@[simp] theorem updateThreadTime_m_threads (now : ℚ) (s : mvApp) :
    (updateThreadTime now s).m_threads = s.m_threads := by
  unfold updateThreadTime
  split <;> rfl

@[simp] theorem submitAsyncCallbacks_m_threadPoolHighPerformance (now : ℚ) (s : mvApp) :
    (submitAsyncCallbacks now s).m_threadPoolHighPerformance = s.m_threadPoolHighPerformance := by
  unfold submitAsyncCallbacks
  repeat' split
  all_goals rfl

@[simp] theorem updateThreadTime_m_threadPoolHighPerformance (now : ℚ) (s : mvApp) :
    (updateThreadTime now s).m_threadPoolHighPerformance = s.m_threadPoolHighPerformance := by
  unfold updateThreadTime
  split <;> rfl

@[simp] theorem submitAsyncCallbacks_m_hostMain (now : ℚ) (s : mvApp) :
    (submitAsyncCallbacks now s).m_hostMain = s.m_hostMain := by
  unfold submitAsyncCallbacks
  repeat' split
  all_goals rfl

@[simp] theorem updateThreadTime_m_hostMain (now : ℚ) (s : mvApp) :
    (updateThreadTime now s).m_hostMain = s.m_hostMain := by
  unfold updateThreadTime
  split <;> rfl

@[simp] theorem submitAsyncCallbacks_m_hostModules (now : ℚ) (s : mvApp) :
    (submitAsyncCallbacks now s).m_hostModules = s.m_hostModules := by
  unfold submitAsyncCallbacks
  repeat' split
  all_goals rfl

@[simp] theorem updateThreadTime_m_hostModules (now : ℚ) (s : mvApp) :
    (updateThreadTime now s).m_hostModules = s.m_hostModules := by
  unfold updateThreadTime
  split <;> rfl

@[simp] theorem submitAsyncCallbacks_m_hostLine (now : ℚ) (s : mvApp) :
    (submitAsyncCallbacks now s).m_hostLine = s.m_hostLine := by
  unfold submitAsyncCallbacks
  repeat' split
  all_goals rfl

@[simp] theorem updateThreadTime_m_hostLine (now : ℚ) (s : mvApp) :
    (updateThreadTime now s).m_hostLine = s.m_hostLine := by
  unfold updateThreadTime
  split <;> rfl

@[simp] theorem submitAsyncCallbacks_m_parents (now : ℚ) (s : mvApp) :
    (submitAsyncCallbacks now s).m_parents = s.m_parents := by
  unfold submitAsyncCallbacks
  repeat' split
  all_goals rfl

@[simp] theorem updateThreadTime_m_parents (now : ℚ) (s : mvApp) :
    (updateThreadTime now s).m_parents = s.m_parents := by
  unfold updateThreadTime
  split <;> rfl

theorem isEmpty_false_of_ne_nil {α : Type} (l : List α) (h : l ≠ []) : l.isEmpty = false := by
  cases l with
  | nil => exact absurd rfl h
  | cons a b => rfl

/-- The state after the last block of `postrender` when a pool exists at its start. -/
theorem postrender_pool_some (tid : Nat) (runtimeDflt : Bool) (tCreate tEnd : ℚ) (s : mvApp)
    (pool : mvThreadPool) (hpool : s.m_tpool = some pool) :
    (postrender tid runtimeDflt tCreate tEnd s).m_tpool =
      some ⟨pool.threads, pool.submitted ++ s.m_asyncCallbacks⟩ ∧
    (postrender tid runtimeDflt tCreate tEnd s).m_threadTime = tEnd - s.m_poolStart ∧
    (postrender tid runtimeDflt tCreate tEnd s).m_poolStart = s.m_poolStart ∧
    (postrender tid runtimeDflt tCreate tEnd s).m_threadPool = s.m_threadPool ∧
    (postrender tid runtimeDflt tCreate tEnd s).m_log = s.m_log := by
  obtain ⟨s5, hpost, h5pool, hjobs, hlog, -, -, hstart, -, hflag⟩ :=
    postrender_eq tid runtimeDflt tCreate tEnd s
  rw [hpost]
  by_cases hq : s5.m_asyncCallbacks = []
  · rw [submitAsyncCallbacks_nil tCreate s5 hq]
    have hq' : s.m_asyncCallbacks = [] := hjobs.symm.trans hq
    simp [updateThreadTime, h5pool, hpool, hq', hstart, hflag, hlog]
  · have hsub : submitAsyncCallbacks tCreate s5 =
        { s5 with
          m_tpool := some ⟨pool.threads, pool.submitted ++ s.m_asyncCallbacks⟩
          m_asyncCallbacks := [] } := by
      unfold submitAsyncCallbacks
      rw [if_pos (isEmpty_false_of_ne_nil _ hq), h5pool.trans hpool]
      simp [submitAll_submitted, hjobs]
    rw [hsub]
    simp [updateThreadTime, hstart, hflag, hlog]

/-- The state after the last block of `postrender` when it creates the pool. -/
theorem postrender_pool_create (tid : Nat) (runtimeDflt : Bool) (tCreate tEnd : ℚ) (s : mvApp)
    (hnone : s.m_tpool = none) (hq : s.m_asyncCallbacks ≠ []) :
    (postrender tid runtimeDflt tCreate tEnd s).m_tpool =
      some ⟨if s.m_threadPoolHighPerformance then 0 else s.m_threads, s.m_asyncCallbacks⟩ ∧
    (postrender tid runtimeDflt tCreate tEnd s).m_threadTime = tEnd - tCreate ∧
    (postrender tid runtimeDflt tCreate tEnd s).m_poolStart = tCreate ∧
    (postrender tid runtimeDflt tCreate tEnd s).m_threadPool = true ∧
    (postrender tid runtimeDflt tCreate tEnd s).m_log = s.m_log ++ ["Threadpool created"] := by
  obtain ⟨s5, hpost, h5pool, hjobs, hlog, hthreads, hhp, -, -, -⟩ :=
    postrender_eq tid runtimeDflt tCreate tEnd s
  have hsub : submitAsyncCallbacks tCreate s5 =
      { s5 with
        m_tpool := some ⟨if s.m_threadPoolHighPerformance then 0 else s.m_threads,
          s.m_asyncCallbacks⟩
        m_poolStart := tCreate
        m_threadPool := true
        m_log := s.m_log ++ ["Threadpool created"]
        m_asyncCallbacks := [] } := by
    unfold submitAsyncCallbacks
    rw [if_pos (isEmpty_false_of_ne_nil _ (hjobs ▸ hq)), h5pool.trans hnone]
    simp [submitAll_submitted, hjobs, hlog, hthreads, hhp]
  rw [hpost, hsub]
  simp [updateThreadTime]

/-- Without a pool and without a queued job `postrender` leaves the pool state alone. -/
theorem postrender_pool_absent (tid : Nat) (runtimeDflt : Bool) (tCreate tEnd : ℚ) (s : mvApp)
    (hnone : s.m_tpool = none) (hq : s.m_asyncCallbacks = []) :
    (postrender tid runtimeDflt tCreate tEnd s).m_tpool = none ∧
    (postrender tid runtimeDflt tCreate tEnd s).m_threadTime = s.m_threadTime ∧
    (postrender tid runtimeDflt tCreate tEnd s).m_poolStart = s.m_poolStart ∧
    (postrender tid runtimeDflt tCreate tEnd s).m_threadPool = s.m_threadPool ∧
    (postrender tid runtimeDflt tCreate tEnd s).m_log = s.m_log := by
  obtain ⟨s5, hpost, h5pool, hjobs, hlog, -, -, hstart, htime, hflag⟩ :=
    postrender_eq tid runtimeDflt tCreate tEnd s
  rw [hpost, submitAsyncCallbacks_nil tCreate s5 (hjobs.trans hq)]
  simp [updateThreadTime, h5pool, hnone, hstart, htime, hflag, hlog]

/-- The settings of the pool are not written by `postrender`. -/
theorem postrender_settings (tid : Nat) (runtimeDflt : Bool) (tCreate tEnd : ℚ) (s : mvApp) :
    (postrender tid runtimeDflt tCreate tEnd s).m_threadPoolTimeout = s.m_threadPoolTimeout ∧
    (postrender tid runtimeDflt tCreate tEnd s).m_threads = s.m_threads ∧
    (postrender tid runtimeDflt tCreate tEnd s).m_threadPoolHighPerformance =
      s.m_threadPoolHighPerformance ∧
    (postrender tid runtimeDflt tCreate tEnd s).m_asyncCallbacks = [] := by
  refine ⟨?_, ?_, ?_, ?_⟩
  · simp [postrender]
  · simp [postrender]
  · simp [postrender]
  · exact (postrender_queues_empty tid runtimeDflt tCreate tEnd s).2.2.2.2.2
end mvApp

/-! ## Sequences of events -/

namespace mvApp

/-- What `prerender` does to the pool when the idle check does not fire. -/
theorem prerender_keep (s : mvApp)
    (h : s.m_tpool = none ∨ s.m_threadTime ≤ s.m_threadPoolTimeout) :
    (prerender s).m_tpool = s.m_tpool ∧ (prerender s).m_threadTime = s.m_threadTime ∧
    (prerender s).m_threadPool = s.m_threadPool ∧ (prerender s).m_log = s.m_log := by
  simp [prerender, cleanupThreadPool_keep s h]

/-- What `prerender` does to the pool when the idle check fires. -/
theorem prerender_destroy (s : mvApp) (pool : mvThreadPool) (hpool : s.m_tpool = some pool)
    (htime : s.m_threadTime > s.m_threadPoolTimeout) :
    (prerender s).m_tpool = none ∧ (prerender s).m_threadTime = 0 ∧
    (prerender s).m_threadPool = false ∧
    (prerender s).m_log = s.m_log ++ ["Threadpool destroyed"] := by
  simp [prerender, cleanupThreadPool_destroy s pool hpool htime]

/-- The settings of the pool and the submission queue are not written by `prerender`. -/
theorem prerender_settings (s : mvApp) :
    (prerender s).m_threadPoolTimeout = s.m_threadPoolTimeout ∧
    (prerender s).m_threads = s.m_threads ∧
    (prerender s).m_threadPoolHighPerformance = s.m_threadPoolHighPerformance ∧
    (prerender s).m_asyncCallbacks = s.m_asyncCallbacks := by
  obtain ⟨-, -, -, -, -, f6, f7, f8, f9, -⟩ := cleanupThreadPool_frame s
  simp [prerender, f6, f7, f8, f9]

theorem addRuntimeItem_pool (tid : Nat) (parent before : String) (item : mvAppItem)
    (s : mvApp) :
    (addRuntimeItem tid parent before item s).m_tpool = s.m_tpool ∧
    (addRuntimeItem tid parent before item s).m_threadTime = s.m_threadTime ∧
    (addRuntimeItem tid parent before item s).m_threadPool = s.m_threadPool ∧
    (addRuntimeItem tid parent before item s).m_log = s.m_log ∧
    (addRuntimeItem tid parent before item s).m_asyncCallbacks = s.m_asyncCallbacks ∧
    (addRuntimeItem tid parent before item s).m_threads = s.m_threads ∧
    (addRuntimeItem tid parent before item s).m_threadPoolHighPerformance =
      s.m_threadPoolHighPerformance := by
  unfold addRuntimeItem
  split <;> simp

/-- A frame that starts without pool and with queued jobs creates the pool. -/
theorem frame_recreates (tid : Nat) (runtimeDflt : Bool) (tCreate tEnd : ℚ) (s : mvApp)
    (hnone : s.m_tpool = none) (hq : s.m_asyncCallbacks ≠ []) :
    (postrender tid runtimeDflt tCreate tEnd (prerender s)).m_tpool =
      some ⟨if s.m_threadPoolHighPerformance then 0 else s.m_threads, s.m_asyncCallbacks⟩ ∧
    (postrender tid runtimeDflt tCreate tEnd (prerender s)).m_log =
      s.m_log ++ ["Threadpool created"] := by
  obtain ⟨k1, -, -, k4⟩ := prerender_keep s (Or.inl hnone)
  obtain ⟨-, q2, q3, q4⟩ := prerender_settings s
  obtain ⟨c1, -, -, -, c5⟩ := postrender_pool_create tid runtimeDflt tCreate tEnd
    (prerender s) (k1.trans hnone) (by rw [q4]; exact hq)
  rw [c1, c5, q2, q3, q4, k4]
  exact ⟨rfl, rfl⟩

end mvApp

namespace PoolWorld

theorem run_append (evs1 evs2 : List PoolEvent) :
    ∀ w : PoolWorld, run (evs1 ++ evs2) w = run evs2 (run evs1 w) := by
  induction evs1 with
  | nil => intro w; rfl
  | cons e rest ih => intro w; simp only [List.cons_append, run]; exact ih _

/-- An event other than a submission leaves a world without pool, with tracked time 0
and with an empty submission queue in that state. -/
theorem step_absent (e : PoolEvent) (w : PoolWorld) (he : e.isSubmission = false)
    (h : w.app.m_tpool = none ∧ w.app.m_threadTime = 0 ∧ w.app.m_threadPool = false ∧
      w.app.m_asyncCallbacks = []) :
    ((step e w).app.m_tpool = none ∧ (step e w).app.m_threadTime = 0 ∧
      (step e w).app.m_threadPool = false ∧ (step e w).app.m_asyncCallbacks = []) ∧
    (step e w).app.m_log = w.app.m_log ∧ (step e w).app.m_threads = w.app.m_threads ∧
    (step e w).app.m_threadPoolHighPerformance = w.app.m_threadPoolHighPerformance := by
  obtain ⟨h1, h2, h3, h4⟩ := h
  cases e with
  | prerender =>
    obtain ⟨k1, k2, k3, k4⟩ := mvApp.prerender_keep w.app (Or.inl h1)
    obtain ⟨-, p2, p3, p4⟩ := mvApp.prerender_settings w.app
    simp only [step]
    exact ⟨⟨k1.trans h1, k2.trans h2, k3.trans h3, p4.trans h4⟩, k4, p2, p3⟩
  | postrender tid runtimeDflt tCreate tEnd =>
    obtain ⟨k1, k2, -, k4, k5⟩ :=
      mvApp.postrender_pool_absent tid runtimeDflt tCreate tEnd w.app h1 h4
    obtain ⟨-, p2, p3, p4⟩ := mvApp.postrender_settings tid runtimeDflt tCreate tEnd w.app
    simp only [step]
    exact ⟨⟨k1, k2.trans h2, k4.trans h3, p4⟩, k5, p2, p3⟩
  | addRuntimeItem tid parent before item =>
    obtain ⟨k1, k2, k3, k4, k5, k6, k7⟩ := mvApp.addRuntimeItem_pool tid parent before item w.app
    simp only [step]
    exact ⟨⟨k1.trans h1, k2.trans h2, k3.trans h3, k5.trans h4⟩, k4, k6, k7⟩
  | addMTCallback nm data returnname => simp [PoolEvent.isSubmission] at he
  | workerDone i =>
    have hw : step (PoolEvent.workerDone i) w = w := by
      simp only [step, h1]
    rw [hw]
    exact ⟨⟨h1, h2, h3, h4⟩, rfl, rfl, rfl⟩

/-- A sequence of events without a submission leaves a world without pool in that
state. -/
theorem run_absent (evs : List PoolEvent) :
    ∀ w : PoolWorld, (∀ e ∈ evs, e.isSubmission = false) →
      (w.app.m_tpool = none ∧ w.app.m_threadTime = 0 ∧ w.app.m_threadPool = false ∧
        w.app.m_asyncCallbacks = []) →
      ((run evs w).app.m_tpool = none ∧ (run evs w).app.m_threadTime = 0 ∧
        (run evs w).app.m_threadPool = false ∧ (run evs w).app.m_asyncCallbacks = []) ∧
      (run evs w).app.m_log = w.app.m_log ∧ (run evs w).app.m_threads = w.app.m_threads ∧
      (run evs w).app.m_threadPoolHighPerformance = w.app.m_threadPoolHighPerformance := by
  induction evs with
  | nil => intro w _ h; exact ⟨h, rfl, rfl, rfl⟩
  | cons e rest ih =>
    intro w hevs h
    obtain ⟨s1, s2, s3, s4⟩ := step_absent e w (hevs e (List.mem_cons_self _ _)) h
    obtain ⟨r1, r2, r3, r4⟩ := ih (step e w) (fun x hx => hevs x (List.mem_cons_of_mem _ hx)) s1
    simp only [run]
    exact ⟨r1, r2.trans s2, r3.trans s3, r4.trans s4⟩

/-- A run of submissions appends the jobs to the submission queue, in their order, and
changes nothing else. -/
theorem run_submissions (jobs : List AsyncronousCallback) :
    ∀ w : PoolWorld,
      run (jobs.map (fun j => PoolEvent.addMTCallback j.name j.data j.returnname)) w =
        ⟨{ w.app with m_asyncCallbacks := w.app.m_asyncCallbacks ++ jobs }, w.finished⟩ := by
  induction jobs with
  | nil => intro w; simp [run]
  | cons j rest ih =>
    intro w
    simp only [List.map_cons, run, step, ih, mvApp.addMTCallback, List.append_assoc,
      List.singleton_append]

end PoolWorld

/-! ## Moves at the boundary of a child sequence -/

namespace mvAppItem

theorem not_mem_right_of_count (nm : String) (l1 l2 : List String)
    (h : (l1 ++ l2).count nm ≤ 1) (hm : nm ∈ l1) : nm ∉ l2 := by
  intro h2
  have c1 := List.count_pos_iff.mpr hm
  have c2 := List.count_pos_iff.mpr h2
  rw [List.count_append] at h
  omega

theorem not_mem_left_of_count (nm : String) (l1 l2 : List String)
    (h : (l1 ++ l2).count nm ≤ 1) (hm : nm ∈ l2) : nm ∉ l1 :=
  fun h1 => not_mem_right_of_count nm l1 l2 h h1 hm

theorem count_left_le (nm : String) (l1 l2 : List String) (h : (l1 ++ l2).count nm ≤ 1) :
    l1.count nm ≤ 1 := by
  rw [List.count_append] at h; omega

theorem count_right_le (nm : String) (l1 l2 : List String) (h : (l1 ++ l2).count nm ≤ 1) :
    l2.count nm ≤ 1 := by
  rw [List.count_append] at h; omega

theorem count_tail_le (nm n : String) (l : List String) (h : (n :: l).count nm ≤ 1) :
    l.count nm ≤ 1 := by
  rw [List.count_cons] at h; omega

theorem head_name_mem (nm : String) (cs : List mvAppItem)
    (h : (cs.head?).map getName = some nm) : nm ∈ namesIn cs := by
  cases cs with
  | nil => simp at h
  | cons c rest =>
    simp only [List.head?_cons, Option.map_some', Option.some.injEq] at h
    simp [namesIn, names_eq, h]

theorem last_name_mem (nm : String) (cs : List mvAppItem)
    (h : (cs.getLast?).map getName = some nm) : nm ∈ namesIn cs := by
  induction cs with
  | nil => simp at h
  | cons c rest ih =>
    cases rest with
    | nil =>
      simp only [List.getLast?_singleton, Option.map_some', Option.some.injEq] at h
      simp [namesIn, names_eq, h]
    | cons d rest2 =>
      rw [List.getLast?_cons_cons] at h
      rw [namesIn_cons]
      exact List.mem_append_right _ (ih h)

/-- A name that marks the child sequence of an item of the tree occurs below the root
of that item. -/
theorem marked_child_mem (nm : String) (R : List mvAppItem → Prop)
    (hR : ∀ cs, R cs → nm ∈ namesIn cs) :
    (∀ c, ∀ p ∈ items c, R p.getChildren → nm ∈ namesIn c.getChildren) ∧
    (∀ cs, ∀ p ∈ itemsIn cs, R p.getChildren → nm ∈ namesIn cs) := by
  refine induct_forest
    (P := fun c => ∀ p ∈ items c, R p.getChildren → nm ∈ namesIn c.getChildren)
    (Q := fun cs => ∀ p ∈ itemsIn cs, R p.getChildren → nm ∈ namesIn cs) ?_ ?_ ?_
  · intro a n t p cs hQ q hq hRq
    simp only [items, List.mem_cons] at hq
    rcases hq with e | hq
    · subst e; exact hR _ hRq
    · exact hQ q hq hRq
  · intro p hp
    simp [itemsIn] at hp
  · intro c rest hP hQ p hp hRp
    simp only [itemsIn, List.mem_append] at hp
    simp only [namesIn, names_eq, List.mem_append, List.mem_cons]
    rcases hp with hp | hp
    · exact Or.inl (Or.inr (hP p hp hRp))
    · exact Or.inr (hQ p hp hRp)

/-- A move-up request for a name that does not occur changes nothing. -/
theorem moveChildUp_not_mem (nm : String) :
    (∀ c, nm ∉ namesIn c.getChildren → moveChildUp nm c = (false, c)) ∧
    (∀ cs, nm ∉ namesIn cs → moveChildUpIn nm cs = (false, cs)) := by
  refine induct_forest
    (P := fun c => nm ∉ namesIn c.getChildren → moveChildUp nm c = (false, c))
    (Q := fun cs => nm ∉ namesIn cs → moveChildUpIn nm cs = (false, cs)) ?_ ?_ ?_
  · intro a n t p cs hQ h
    simp only [getChildren] at h
    simp [moveChildUp, hQ h]
  · intro _; rfl
  · intro c rest hP hQ h
    simp only [namesIn, names_eq, List.mem_append, List.mem_cons, not_or] at h
    obtain ⟨⟨h1, h2⟩, h3⟩ := h
    have hc : c.getName ≠ nm := fun e => h1 e.symm
    cases rest with
    | nil => rw [moveChildUpIn_one, if_neg hc, hP h2]
    | cons d rest2 =>
      have hd : d.getName ≠ nm := by
        intro e
        apply h3
        simp [namesIn, names_eq, e]
      rw [moveChildUpIn_two, if_neg hc, hP h2, hQ h3]
      simp [hd]

/-- A move-down request for a name that does not occur changes nothing. -/
theorem moveChildDown_not_mem (nm : String) :
    (∀ c, nm ∉ namesIn c.getChildren → moveChildDown nm c = (false, c)) ∧
    (∀ cs, nm ∉ namesIn cs → moveChildDownIn nm cs = (false, cs)) := by
  refine induct_forest
    (P := fun c => nm ∉ namesIn c.getChildren → moveChildDown nm c = (false, c))
    (Q := fun cs => nm ∉ namesIn cs → moveChildDownIn nm cs = (false, cs)) ?_ ?_ ?_
  · intro a n t p cs hQ h
    simp only [getChildren] at h
    simp [moveChildDown, hQ h]
  · intro _; rfl
  · intro c rest hP hQ h
    simp only [namesIn, names_eq, List.mem_append, List.mem_cons, not_or] at h
    obtain ⟨⟨h1, h2⟩, h3⟩ := h
    have hc : c.getName ≠ nm := fun e => h1 e.symm
    cases rest with
    | nil => rw [moveChildDownIn_one, if_neg hc, hP h2]
    | cons d rest2 =>
      rw [moveChildDownIn_two, if_neg hc, hP h2, hQ h3]
      simp

/-- The root of a sequence does not carry a name that occurs once and marks a child
sequence inside. -/
theorem root_not_marked (nm : String) (R : List mvAppItem → Prop)
    (hR : ∀ cs, R cs → nm ∈ namesIn cs) (d : mvAppItem) (rest : List mvAppItem)
    (hcount : (namesIn (d :: rest)).count nm ≤ 1) (p : mvAppItem)
    (hp : p ∈ itemsIn (d :: rest)) (hRp : R p.getChildren) : d.getName ≠ nm := by
  intro e
  rw [namesIn_cons, names_eq, List.cons_append, List.count_cons, e] at hcount
  simp only [beq_self_eq_true, if_true] at hcount
  have hz : (namesIn d.getChildren ++ namesIn rest).count nm = 0 := by omega
  have hnot := List.count_eq_zero.mp hz
  apply hnot
  simp only [itemsIn, List.mem_append] at hp
  rcases hp with hp | hp
  · exact List.mem_append_left _ ((marked_child_mem nm R hR).1 d p hp hRp)
  · exact List.mem_append_right _ ((marked_child_mem nm R hR).2 rest p hp hRp)

/-- A move-up request for a name that occurs once, on the first child of its parent,
changes nothing and returns false. -/
theorem moveChildUp_boundary (nm : String) :
    (∀ c, (namesIn c.getChildren).count nm ≤ 1 →
      (∃ p ∈ items c, (p.getChildren.head?).map getName = some nm) →
      moveChildUp nm c = (false, c)) ∧
    (∀ cs, (namesIn cs).count nm ≤ 1 →
      ((cs.head?).map getName = some nm ∨
        ∃ p ∈ itemsIn cs, (p.getChildren.head?).map getName = some nm) →
      moveChildUpIn nm cs = (false, cs)) := by
  refine induct_forest
    (P := fun c => (namesIn c.getChildren).count nm ≤ 1 →
      (∃ p ∈ items c, (p.getChildren.head?).map getName = some nm) →
      moveChildUp nm c = (false, c))
    (Q := fun cs => (namesIn cs).count nm ≤ 1 →
      ((cs.head?).map getName = some nm ∨
        ∃ p ∈ itemsIn cs, (p.getChildren.head?).map getName = some nm) →
      moveChildUpIn nm cs = (false, cs)) ?_ ?_ ?_
  · intro a n t p cs hQ hcount hex
    simp only [getChildren] at hcount
    obtain ⟨q, hq, hfirst⟩ := hex
    simp only [items, List.mem_cons] at hq
    have hcs : moveChildUpIn nm cs = (false, cs) := by
      apply hQ hcount
      rcases hq with e | hq
      · subst e; exact Or.inl hfirst
      · exact Or.inr ⟨q, hq, hfirst⟩
    simp [moveChildUp, hcs]
  · intro _ _; rfl
  · intro c rest hP hQ hcount h
    by_cases hc : c.getName = nm
    · cases rest with
      | nil => rw [moveChildUpIn_one, if_pos hc]
      | cons d rest2 => rw [moveChildUpIn_two, if_pos hc]
    · have hex : ∃ p ∈ itemsIn (c :: rest), (p.getChildren.head?).map getName = some nm := by
        rcases h with h | h
        · simp only [List.head?_cons, Option.map_some', Option.some.injEq] at h
          exact absurd h hc
        · exact h
      obtain ⟨p, hp, hfirst⟩ := hex
      have hcount2 : (namesIn c.getChildren ++ namesIn rest).count nm ≤ 1 := by
        rw [namesIn_cons, names_eq, List.cons_append] at hcount
        exact count_tail_le nm _ _ hcount
      simp only [itemsIn, List.mem_append] at hp
      rcases hp with hp | hp
      · have hmem : nm ∈ namesIn c.getChildren :=
          (marked_child_mem nm _ (head_name_mem nm)).1 c p hp hfirst
        have hPc := hP (count_left_le nm _ _ hcount2) ⟨p, hp, hfirst⟩
        have hnot : nm ∉ namesIn rest := not_mem_right_of_count nm _ _ hcount2 hmem
        cases rest with
        | nil => rw [moveChildUpIn_one, if_neg hc, hPc]
        | cons d rest2 =>
          have hd : d.getName ≠ nm := by
            intro e
            apply hnot
            simp [namesIn, names_eq, e]
          rw [moveChildUpIn_two, if_neg hc, hPc, (moveChildUp_not_mem nm).2 _ hnot]
          simp [hd]
      · have hmemr : nm ∈ namesIn rest :=
          (marked_child_mem nm _ (head_name_mem nm)).2 rest p hp hfirst
        have hnotc : nm ∉ namesIn c.getChildren := not_mem_left_of_count nm _ _ hcount2 hmemr
        have hPc := (moveChildUp_not_mem nm).1 c hnotc
        cases rest with
        | nil => simp [itemsIn] at hp
        | cons d rest2 =>
          have hcr : (namesIn (d :: rest2)).count nm ≤ 1 := count_right_le nm _ _ hcount2
          have hd : d.getName ≠ nm :=
            root_not_marked nm _ (head_name_mem nm) d rest2 hcr p hp hfirst
          have hQr := hQ hcr (Or.inr ⟨p, hp, hfirst⟩)
          rw [moveChildUpIn_two, if_neg hc, hPc, hQr]
          simp [hd]

/-- A move-down request for a name that occurs once, on the last child of its parent,
changes nothing and returns false. -/
theorem moveChildDown_boundary (nm : String) :
    (∀ c, (namesIn c.getChildren).count nm ≤ 1 →
      (∃ p ∈ items c, (p.getChildren.getLast?).map getName = some nm) →
      moveChildDown nm c = (false, c)) ∧
    (∀ cs, (namesIn cs).count nm ≤ 1 →
      ((cs.getLast?).map getName = some nm ∨
        ∃ p ∈ itemsIn cs, (p.getChildren.getLast?).map getName = some nm) →
      moveChildDownIn nm cs = (false, cs)) := by
  refine induct_forest
    (P := fun c => (namesIn c.getChildren).count nm ≤ 1 →
      (∃ p ∈ items c, (p.getChildren.getLast?).map getName = some nm) →
      moveChildDown nm c = (false, c))
    (Q := fun cs => (namesIn cs).count nm ≤ 1 →
      ((cs.getLast?).map getName = some nm ∨
        ∃ p ∈ itemsIn cs, (p.getChildren.getLast?).map getName = some nm) →
      moveChildDownIn nm cs = (false, cs)) ?_ ?_ ?_
  · intro a n t p cs hQ hcount hex
    simp only [getChildren] at hcount
    obtain ⟨q, hq, hlast⟩ := hex
    simp only [items, List.mem_cons] at hq
    have hcs : moveChildDownIn nm cs = (false, cs) := by
      apply hQ hcount
      rcases hq with e | hq
      · subst e; exact Or.inl hlast
      · exact Or.inr ⟨q, hq, hlast⟩
    simp [moveChildDown, hcs]
  · intro _ _; rfl
  · intro c rest hP hQ hcount h
    have hcount2 : (namesIn c.getChildren ++ namesIn rest).count nm ≤ 1 := by
      rw [namesIn_cons, names_eq, List.cons_append] at hcount
      exact count_tail_le nm _ _ hcount
    cases rest with
    | nil =>
      by_cases hc : c.getName = nm
      · rw [moveChildDownIn_one, if_pos hc]
      · rcases h with h | ⟨p, hp, hlast⟩
        · simp only [List.getLast?_singleton, Option.map_some', Option.some.injEq] at h
          exact absurd h hc
        · simp only [itemsIn, List.append_nil] at hp
          rw [moveChildDownIn_one, if_neg hc,
            hP (count_left_le nm _ _ hcount2) ⟨p, hp, hlast⟩]
    | cons d rest2 =>
      have hcr : (namesIn (d :: rest2)).count nm ≤ 1 := count_right_le nm _ _ hcount2
      have hc : c.getName ≠ nm := by
        rcases h with h | ⟨p, hp, hlast⟩
        · rw [List.getLast?_cons_cons] at h
          have hm := last_name_mem nm (d :: rest2) h
          intro e
          rw [namesIn_cons, names_eq, List.cons_append, List.count_cons, e] at hcount
          simp only [beq_self_eq_true, if_true] at hcount
          have hz : (namesIn c.getChildren ++ namesIn (d :: rest2)).count nm = 0 := by omega
          exact List.count_eq_zero.mp hz (List.mem_append_right _ hm)
        · exact root_not_marked nm _ (last_name_mem nm) c (d :: rest2) hcount p hp hlast
      rw [moveChildDownIn_two, if_neg hc]
      rcases h with h | ⟨p, hp, hlast⟩
      · rw [List.getLast?_cons_cons] at h
        have hm := last_name_mem nm (d :: rest2) h
        have hnotc : nm ∉ namesIn c.getChildren := not_mem_left_of_count nm _ _ hcount2 hm
        rw [(moveChildDown_not_mem nm).1 c hnotc, hQ hcr (Or.inl h)]
        simp
      · simp only [itemsIn, List.mem_append] at hp
        rcases hp with hp | hp
        · have hmem : nm ∈ namesIn c.getChildren :=
            (marked_child_mem nm _ (last_name_mem nm)).1 c p hp hlast
          have hnot : nm ∉ namesIn (d :: rest2) := not_mem_right_of_count nm _ _ hcount2 hmem
          rw [hP (count_left_le nm _ _ hcount2) ⟨p, hp, hlast⟩,
            (moveChildDown_not_mem nm).2 _ hnot]
          simp
        · have hp2 : p ∈ itemsIn (d :: rest2) := by
            simpa only [itemsIn, List.mem_append] using hp
          have hmemr : nm ∈ namesIn (d :: rest2) :=
            (marked_child_mem nm _ (last_name_mem nm)).2 _ p hp2 hlast
          have hnotc : nm ∉ namesIn c.getChildren := not_mem_left_of_count nm _ _ hcount2 hmemr
          rw [(moveChildDown_not_mem nm).1 c hnotc, hQ hcr (Or.inr ⟨p, hp2, hlast⟩)]
          simp

end mvAppItem

namespace mvApp

open mvAppItem

theorem moveUpInWindows_not_mem (nm : String) (ws : List mvAppItem) (h : nm ∉ namesIn ws) :
    moveUpInWindows nm ws = (false, ws) := by
  induction ws with
  | nil => rfl
  | cons w rest ih =>
    simp only [namesIn, names_eq, List.mem_append, List.mem_cons, not_or] at h
    rw [moveUpInWindows_cons, (moveChildUp_not_mem nm).1 w h.1.2, ih h.2]
    simp

theorem moveDownInWindows_not_mem (nm : String) (ws : List mvAppItem) (h : nm ∉ namesIn ws) :
    moveDownInWindows nm ws = (false, ws) := by
  induction ws with
  | nil => rfl
  | cons w rest ih =>
    simp only [namesIn, names_eq, List.mem_append, List.mem_cons, not_or] at h
    rw [moveDownInWindows_cons, (moveChildDown_not_mem nm).1 w h.1.2, ih h.2]
    simp

/-- The loop over the windows for a move-up request at the boundary. -/
theorem moveUpInWindows_boundary (nm : String) (ws : List mvAppItem)
    (hcount : (namesIn ws).count nm ≤ 1)
    (hex : ∃ p ∈ itemsIn ws, (p.getChildren.head?).map getName = some nm) :
    moveUpInWindows nm ws = (false, ws) := by
  induction ws with
  | nil => rfl
  | cons w rest ih =>
    obtain ⟨p, hp, hfirst⟩ := hex
    have hcount2 : (namesIn w.getChildren ++ namesIn rest).count nm ≤ 1 := by
      rw [namesIn_cons, names_eq, List.cons_append] at hcount
      exact count_tail_le nm _ _ hcount
    simp only [itemsIn, List.mem_append] at hp
    rcases hp with hp | hp
    · have hmem : nm ∈ namesIn w.getChildren :=
        (marked_child_mem nm _ (head_name_mem nm)).1 w p hp hfirst
      have hnot : nm ∉ namesIn rest := not_mem_right_of_count nm _ _ hcount2 hmem
      rw [moveUpInWindows_cons,
        (moveChildUp_boundary nm).1 w (count_left_le nm _ _ hcount2) ⟨p, hp, hfirst⟩,
        moveUpInWindows_not_mem nm rest hnot]
      simp
    · have hmemr : nm ∈ namesIn rest :=
        (marked_child_mem nm _ (head_name_mem nm)).2 rest p hp hfirst
      have hnotw : nm ∉ namesIn w.getChildren := not_mem_left_of_count nm _ _ hcount2 hmemr
      rw [moveUpInWindows_cons, (moveChildUp_not_mem nm).1 w hnotw,
        ih (count_right_le nm _ _ hcount2) ⟨p, hp, hfirst⟩]
      simp

/-- The loop over the windows for a move-down request at the boundary. -/
theorem moveDownInWindows_boundary (nm : String) (ws : List mvAppItem)
    (hcount : (namesIn ws).count nm ≤ 1)
    (hex : ∃ p ∈ itemsIn ws, (p.getChildren.getLast?).map getName = some nm) :
    moveDownInWindows nm ws = (false, ws) := by
  induction ws with
  | nil => rfl
  | cons w rest ih =>
    obtain ⟨p, hp, hlast⟩ := hex
    have hcount2 : (namesIn w.getChildren ++ namesIn rest).count nm ≤ 1 := by
      rw [namesIn_cons, names_eq, List.cons_append] at hcount
      exact count_tail_le nm _ _ hcount
    simp only [itemsIn, List.mem_append] at hp
    rcases hp with hp | hp
    · have hmem : nm ∈ namesIn w.getChildren :=
        (marked_child_mem nm _ (last_name_mem nm)).1 w p hp hlast
      have hnot : nm ∉ namesIn rest := not_mem_right_of_count nm _ _ hcount2 hmem
      rw [moveDownInWindows_cons,
        (moveChildDown_boundary nm).1 w (count_left_le nm _ _ hcount2) ⟨p, hp, hlast⟩,
        moveDownInWindows_not_mem nm rest hnot]
      simp
    · have hmemr : nm ∈ namesIn rest :=
        (marked_child_mem nm _ (last_name_mem nm)).2 rest p hp hlast
      have hnotw : nm ∉ namesIn w.getChildren := not_mem_left_of_count nm _ _ hcount2 hmemr
      rw [moveDownInWindows_cons, (moveChildDown_not_mem nm).1 w hnotw,
        ih (count_right_le nm _ _ hcount2) ⟨p, hp, hlast⟩]
      simp

/-- A frame whose only structural requests are move requests. -/
theorem postrender_moves_only (tid : Nat) (runtimeDflt : Bool) (tCreate tEnd : ℚ) (s : mvApp)
    (h1 : s.m_deleteChildrenQueue = []) (h2 : s.m_deleteQueue = []) (h3 : s.m_newItemVec = []) :
    (postrender tid runtimeDflt tCreate tEnd s).m_windows =
      (drainDownQueue s.m_downQueue (drainUpQueue s.m_upQueue s)).m_windows ∧
    (postrender tid runtimeDflt tCreate tEnd s).m_errors =
      (drainDownQueue s.m_downQueue (drainUpQueue s.m_upQueue s)).m_errors := by
  cases s
  simp only at h1 h2 h3
  subst h1 h2 h3
  simp [postrender, drainDeleteChildrenQueue, drainDeleteQueue, addNewItems]

end mvApp

/-! ## The submission block step by step, and the result of a job -/

namespace mvApp

/-- Run without interruption, the two steps of the block are the block of
`postrender`. -/
theorem asyncBlockStep_twice (now : ℚ) (s : mvApp) :
    asyncBlockStep now (asyncBlockStep now (AsyncBlockPC.atTest, s)) =
      (AsyncBlockPC.done, submitAsyncCallbacks now s) := by
  unfold submitAsyncCallbacks
  by_cases h : s.m_asyncCallbacks.isEmpty = false
  · cases hp : s.m_tpool with
    | none => simp [asyncBlockStep, h, hp]
    | some pool => simp [asyncBlockStep, h, hp]
  · simp [asyncBlockStep, h]

/-- A job pushed between the submission loop and the clearing of the queue is in the
queue no more and was not handed to the pool. -/
theorem asyncBlock_push_before_clear (now : ℚ) (s : mvApp) (nm : String)
    (data : Option PyObject) (returnname : String) (h : s.m_asyncCallbacks ≠ []) :
    (asyncBlockStep now (asyncBlockEnqueue nm data returnname
      (asyncBlockStep now (AsyncBlockPC.atTest, s)))).2.m_asyncCallbacks = [] ∧
    (asyncBlockStep now (asyncBlockEnqueue nm data returnname
      (asyncBlockStep now (AsyncBlockPC.atTest, s)))).2.m_tpool =
      (submitAsyncCallbacks now s).m_tpool := by
  have h' := isEmpty_false_of_ne_nil _ h
  unfold submitAsyncCallbacks
  cases hp : s.m_tpool with
  | none => simp [asyncBlockStep, asyncBlockEnqueue, addMTCallback, h', hp]
  | some pool => simp [asyncBlockStep, asyncBlockEnqueue, addMTCallback, h', hp]

/-- The invocations of `prerender`: those made before, then the dispatch of the queued
results in queue order. -/
theorem prerender_hostCalls (s : mvApp) :
    (prerender s).m_hostCalls =
      s.m_hostCalls ++ s.m_asyncReturns.flatMap
        (fun r => (runReturnCallback s r.name "Asyncrounous Callback" r.data).1) := by
  obtain ⟨f1, -, f3, f4, f5, -⟩ := cleanupThreadPool_frame s
  have hfold := drainAsyncReturns_fold s (cleanupThreadPool s).m_asyncReturns
    (cleanupThreadPool s) f4 f5
  simp only [prerender]
  rw [hfold.1, f1, f3]

/-- With a payload, `runAsyncCallback` makes the invocation and reports the messages of
`runCallback` for the sender "Async". -/
theorem runAsyncCallbackCore_payload (s : mvApp) (nm : String) (d : PyObject)
    (returnname : String) :
    (runAsyncCallbackCore s nm (some d) returnname).map (fun r => (r.1, r.2.1)) =
      some (runCallback s nm "Async" (some d)) := by
  unfold runAsyncCallbackCore runCallback
  by_cases hnm : nm = ""
  · simp [hnm]
  · cases hres : resolveHandler s nm with
    | none => simp [hnm]
    | some h => by_cases hcall : h.callable = true <;> simp [hnm, hcall]

/-- With a payload, the records that one execution of `runAsyncCallback` pushes are at
most one, and one exactly when the handler was called and a return handler is named. -/
theorem runAsyncCallbackCore_records (s : mvApp) (nm : String) (d : PyObject)
    (returnname : String) :
    ∃ r, runAsyncCallbackCore s nm (some d) returnname = some r ∧ r.2.2.length ≤ 1 ∧
      (r.2.2.length = 1 ↔
        (nm ≠ "" ∧ (∃ h, resolveHandler s nm = some h ∧ h.callable = true) ∧
          returnname ≠ "")) := by
  unfold runAsyncCallbackCore
  by_cases hnm : nm = ""
  · simp [hnm]
  · cases hres : resolveHandler s nm with
    | none => simp [hnm]
    | some h =>
      by_cases hcall : h.callable = true
      · by_cases hret : returnname = ""
        · simp [hnm, hcall, hret]
        · simp [hnm, hcall, hret]
      · simp [hnm, hcall]

/-- A callable handler and a null payload: the execution of `runAsyncCallback` does
not return. -/
theorem runAsyncCallback_null_payload (s : mvApp) (nm returnname : String) (h : PyHandler)
    (hnm : nm ≠ "") (hres : resolveHandler s nm = some h) (hcall : h.callable = true) :
    runAsyncCallback nm none returnname s = none := by
  simp [runAsyncCallback, runAsyncCallbackCore, hnm, hres, hcall]

/-- A failed call with a payload: the failure is reported and the record, with a null
result, is pushed all the same. -/
theorem runAsyncCallback_failed_call (s : mvApp) (nm returnname : String) (d : PyObject)
    (h : PyHandler) (hnm : nm ≠ "") (hres : resolveHandler s nm = some h)
    (hcall : h.callable = true) (hret : returnname ≠ "") (hfail : h.call "Async" d = none) :
    runAsyncCallback nm (some d) returnname s =
      some { s with
        m_hostCalls := s.m_hostCalls ++ [⟨h.id, "Async", d⟩]
        m_errors := s.m_errors ++ [nm ++ "Callback failed"]
        m_asyncReturns := s.m_asyncReturns ++ [⟨returnname, none, ""⟩] } := by
  simp [runAsyncCallback, runAsyncCallbackCore, hnm, hres, hcall, hret, hfail]

/-- The messages of a move request depend on the flags the windows return and on
nothing else. -/
theorem moveUpInWindows_false_iff (nm : String) (ws : List mvAppItem) :
    (moveUpInWindows nm ws).1 = false ↔ ∀ w ∈ ws, (mvAppItem.moveChildUp nm w).1 = false := by
  induction ws with
  | nil => simp [moveUpInWindows]
  | cons w rest ih =>
    rw [moveUpInWindows_cons]
    by_cases h : (mvAppItem.moveChildUp nm w).1 = true
    · simp [h]
    · have hf : (mvAppItem.moveChildUp nm w).1 = false := by simpa using h
      simp [hf, ih]

theorem moveDownInWindows_false_iff (nm : String) (ws : List mvAppItem) :
    (moveDownInWindows nm ws).1 = false ↔
      ∀ w ∈ ws, (mvAppItem.moveChildDown nm w).1 = false := by
  induction ws with
  | nil => simp [moveDownInWindows]
  | cons w rest ih =>
    rw [moveDownInWindows_cons]
    by_cases h : (mvAppItem.moveChildDown nm w).1 = true
    · simp [h]
    · have hf : (mvAppItem.moveChildDown nm w).1 = false := by simpa using h
      simp [hf, ih]

/-- The messages of the move-up loop start with the messages reported before it. -/
theorem drainUpQueue_errors (q : List String) :
    ∀ s : mvApp, ∃ msgs, (drainUpQueue q s).m_errors = s.m_errors ++ msgs := by
  induction q with
  | nil => intro s; exact ⟨[], by simp [drainUpQueue]⟩
  | cons nm q ih =>
    intro s
    obtain ⟨msgs, h⟩ := ih { s with
      m_windows := (moveItemUp nm s.m_windows).1
      m_errors := s.m_errors ++ (moveItemUp nm s.m_windows).2
      m_upQueue := q }
    exact ⟨(moveItemUp nm s.m_windows).2 ++ msgs, by
      simp only [drainUpQueue]; rw [h]; simp⟩

theorem drainDownQueue_errors (q : List String) :
    ∀ s : mvApp, ∃ msgs, (drainDownQueue q s).m_errors = s.m_errors ++ msgs := by
  induction q with
  | nil => intro s; exact ⟨[], by simp [drainDownQueue]⟩
  | cons nm q ih =>
    intro s
    obtain ⟨msgs, h⟩ := ih { s with
      m_windows := (moveItemDown nm s.m_windows).1
      m_errors := s.m_errors ++ (moveItemDown nm s.m_windows).2
      m_downQueue := q }
    exact ⟨(moveItemDown nm s.m_windows).2 ++ msgs, by
      simp only [drainDownQueue]; rw [h]; simp⟩

/-- With no window, no pending item and an empty parent stack, `addItem` on the main
thread reads `m_windows[0]` out of range. -/
theorem addItem_empty (s : mvApp) (runtimeDflt duplicatesAllowed : Bool) (count : Nat)
    (item : mvAppItem) (hw : s.m_windows = []) (hv : s.m_newItemVec = [])
    (hp : s.m_parents = []) :
    addItem s.m_mainThreadID runtimeDflt duplicatesAllowed count item s = none := by
  have hg : (getItem s s.m_mainThreadID item.getName runtimeDflt).1 = none := by
    cases runtimeDflt <;>
      simp [getItem, getRuntimeItem, checkIfMainThread_main, findItem, findRuntimeItem, hw, hv]
  simp [addItem, checkIfMainThread_main, hg, topParent, hp, hw]

/-- The drain of the result queue in `prerender` holds `m_mutex` for the whole loop and
the push of `runAsyncCallback` takes it: a push comes before the drain, which then
consumes the record, or behind it, and then the records pushed are what is queued. -/
theorem asyncReturns_push_around_drain (s : mvApp) (nm : String) (data : Option PyObject)
    (returnname : String) :
    (∀ t, runAsyncCallback nm data returnname s = some t → (prerender t).m_asyncReturns = []) ∧
    (runAsyncCallback nm data returnname (prerender s)).map (fun t => t.m_asyncReturns) =
      (runAsyncCallbackCore (prerender s) nm data returnname).map (fun r => r.2.2) := by
  refine ⟨?_, ?_⟩
  · intro t _
    simp only [prerender]
    exact drainAsyncReturns_empties _ _ rfl
  · have h : (prerender s).m_asyncReturns = [] := by
      simp only [prerender]
      exact drainAsyncReturns_empties _ _ rfl
    simp [runAsyncCallback, h, Function.comp_def]

end mvApp

/-! ## The resolution of a handler name by `runCallback` -/

namespace mvApp

/-- The handler of `runCallback` for a non-empty name: the definition of the primary
namespace if there is one, otherwise the first definition met in the scan of the
loaded namespaces; "Callback doesn't exist" and no invocation iff no namespace defines
the name, "Callback not callable" and no invocation iff the resolved definition is not
callable, otherwise one invocation of the resolved definition with the sender and the
payload (`None` for a null payload).  The loaded namespaces are the dictionaries of
modules. -/
theorem runCallback_resolution (s : mvApp) (nm sender : String) (data : Option PyObject)
    (hnm : nm ≠ "") :
    resolveHandler s nm = specResolve s.m_hostMain s.m_hostModules nm ∧
    (∀ h, s.m_hostMain.lookup nm = some h → resolveHandler s nm = some h) ∧
    (s.m_hostMain.lookup nm = none → ∀ pre m post h, s.m_hostModules = pre ++ m :: post →
      (∀ d ∈ pre, d.lookup nm = none) → m.lookup nm = some h →
      resolveHandler s nm = some h) ∧
    (((runCallback s nm sender data).2 = [nm ++ " Callback doesn't exist"] ∧
        (runCallback s nm sender data).1 = []) ↔
      (s.m_hostMain.lookup nm = none ∧ ∀ d ∈ s.m_hostModules, d.lookup nm = none)) ∧
    (((runCallback s nm sender data).2 = [nm ++ " Callback not callable"] ∧
        (runCallback s nm sender data).1 = []) ↔
      ∃ h, resolveHandler s nm = some h ∧ h.callable = false) ∧
    (∀ h, resolveHandler s nm = some h → h.callable = true →
      (runCallback s nm sender data).1 = [⟨h.id, sender, data.getD PyObject.None⟩] ∧
      (runCallback s nm sender data).2 =
        if (h.call sender (data.getD PyObject.None)).isNone then [nm ++ "Callback failed"]
        else []) := by
  have hne1 : nm ++ " Callback not callable" ≠ nm ++ " Callback doesn't exist" :=
    fun h => absurd (string_append_left_cancel _ _ _ h) (by decide)
  have hne2 : nm ++ "Callback failed" ≠ nm ++ " Callback doesn't exist" :=
    fun h => absurd (string_append_left_cancel _ _ _ h) (by decide)
  have hne3 : nm ++ " Callback doesn't exist" ≠ nm ++ " Callback not callable" :=
    fun h => absurd (string_append_left_cancel _ _ _ h) (by decide)
  refine ⟨?_, ?_, ?_, ?_, ?_, ?_⟩
  · simp only [resolveHandler, specResolve, List.findSome?_cons]
    cases s.m_hostMain.lookup nm with
    | none => simpa using scanModules_eq_findSome nm s.m_hostModules
    | some h => rfl
  · intro h hm
    simp [resolveHandler, hm]
  · intro hm pre m post h hsplit hpre hmod
    simp only [resolveHandler, hm, hsplit]
    exact scanModules_first nm pre m post h hpre hmod
  · rw [← resolveHandler_eq_none_iff]
    cases hres : resolveHandler s nm with
    | none => simp [runCallback, hnm, hres]
    | some h =>
      by_cases hcall : h.callable = true
      · simp [runCallback, hnm, hres, hcall]
      · simp [runCallback, hnm, hres, hcall, hne1]
  · cases hres : resolveHandler s nm with
    | none => simp [runCallback, hnm, hres, hne3]
    | some h =>
      by_cases hcall : h.callable = true
      · simp [runCallback, hnm, hres, hcall]
      · simp [runCallback, hnm, hres, hcall]
  · intro h hres hcall
    simp [runCallback, hnm, hres, hcall]

/-- A failed call of `runAsyncCallback` with a payload pushes a record with a null
result, and the next `prerender` hands it to the return handler as `None`, after the
records queued before. -/
theorem failed_call_delivered_as_none (s : mvApp) (nm returnname : String) (d : PyObject)
    (h h2 : PyHandler) (hnm : nm ≠ "") (hres : resolveHandler s nm = some h)
    (hcall : h.callable = true) (hret : returnname ≠ "") (hfail : h.call "Async" d = none)
    (hres2 : resolveHandler s returnname = some h2) (hcall2 : h2.callable = true) :
    ∃ t, runAsyncCallback nm (some d) returnname s = some t ∧
      t.m_asyncReturns = s.m_asyncReturns ++ [⟨returnname, none, ""⟩] ∧
      (prerender t).m_hostCalls =
        s.m_hostCalls ++ [⟨h.id, "Async", d⟩] ++
          s.m_asyncReturns.flatMap
            (fun r => (runReturnCallback s r.name "Asyncrounous Callback" r.data).1) ++
          [⟨h2.id, "Asyncrounous Callback", PyObject.None⟩] := by
  obtain ⟨t, ht, hrec, hcalls, hm, hmod⟩ :
      ∃ t, runAsyncCallback nm (some d) returnname s = some t ∧
        t.m_asyncReturns = s.m_asyncReturns ++ [⟨returnname, none, ""⟩] ∧
        t.m_hostCalls = s.m_hostCalls ++ [⟨h.id, "Async", d⟩] ∧
        t.m_hostMain = s.m_hostMain ∧ t.m_hostModules = s.m_hostModules :=
    ⟨_, runAsyncCallback_failed_call s nm returnname d h hnm hres hcall hret hfail,
      rfl, rfl, rfl, rfl⟩
  refine ⟨t, ht, hrec, ?_⟩
  have e : ∀ (n sender : String) (x : Option PyObject),
      runReturnCallback t n sender x = runReturnCallback s n sender x :=
    fun n sender x => runReturnCallback_congr s t hm hmod n sender x
  rw [prerender_hostCalls, hrec, hcalls, List.flatMap_append]
  simp only [e, List.flatMap_cons, List.flatMap_nil, List.append_nil]
  rw [runReturnCallback_named s returnname _ none hret,
    runCallback_callable s returnname _ _ hret h2 hres2 hcall2]
  simp

end mvApp

/-! ## Properties of the frame scheduler -/

open mvApp mvAppItem

/-- C1: a queued runtime item whose name is carried by a window or a descendant gets
exactly one duplicate-name error, is not inserted, and the window list with every
subtree stays as it was; the loop goes on with the rest of the vector.  When it is the
only request of the frame, `postrender` as a whole leaves the tree unchanged and
reports that one error. -/
theorem C1_duplicate_name_reported (s : mvApp) (tid : Nat) (e : NewRuntimeItem)
    (rest : List NewRuntimeItem) (runtimeDflt : Bool) (tCreate tEnd : ℚ)
    (hmain : tid = s.m_mainThreadID)
    (hdup : e.item.getName ∈ namesIn s.m_windows) :
    addNewItem tid e s = (s.m_windows, [e.item.getName ++ ": Items of this type must have unique names"]) ∧
    addNewItems tid (e :: rest) s =
      addNewItems tid rest
        { s with m_errors := s.m_errors ++ [e.item.getName ++ ": Items of this type must have unique names"] } ∧
    (s.m_deleteChildrenQueue = [] → s.m_deleteQueue = [] → s.m_newItemVec = [e] →
      s.m_upQueue = [] → s.m_downQueue = [] →
      (postrender tid runtimeDflt tCreate tEnd s).m_windows = s.m_windows ∧
      (postrender tid runtimeDflt tCreate tEnd s).m_errors =
        s.m_errors ++ [e.item.getName ++ ": Items of this type must have unique names"] ∧
      (postrender tid runtimeDflt tCreate tEnd s).m_newItemVec = []) := by
  subst hmain
  have hstep := addNewItem_duplicate s e hdup
  simp only [duplicateNameMessage] at hstep
  refine ⟨hstep, ?_, ?_⟩
  · simp [addNewItems, hstep]
  · intro h1 h2 h3 h4 h5
    simp [postrender, h1, h2, h3, h4, h5, drainDeleteChildrenQueue, drainDeleteQueue,
      addNewItems, drainUpQueue, drainDownQueue, hstep]

theorem C1_duplicate_name_reported_witness :
    (7 = (construct 7 100 30 2 false).m_mainThreadID ∧
      "MainWindow" ∈ namesIn (construct 7 100 30 2 false).m_windows) ∧
    addNewItem 7 ⟨mvAppItem.mk 101 "MainWindow" (mvAppItemType.Other 0) none [], "", "MainWindow"⟩
        (construct 7 100 30 2 false) =
      ((construct 7 100 30 2 false).m_windows, ["MainWindow: Items of this type must have unique names"]) :=
  ⟨⟨by decide, by decide⟩,
    (C1_duplicate_name_reported (construct 7 100 30 2 false) 7
      ⟨mvAppItem.mk 101 "MainWindow" (mvAppItemType.Other 0) none [], "", "MainWindow"⟩ [] false 0 0
      (by decide) (by decide)).1⟩

/-- C2: a delete request for a name that no window and no descendant carries gets
exactly one not-found error naming it, and the window list with every subtree stays as
it was; the loop goes on with the rest of the queue.  When it is the only request of
the frame, `postrender` as a whole leaves the tree unchanged and reports that one
error. -/
theorem C2_delete_absent_name (s : mvApp) (tid : Nat) (nm : String) (q : List String)
    (runtimeDflt : Bool) (tCreate tEnd : ℚ) (habs : nm ∉ namesIn s.m_windows) :
    deleteItem nm s.m_windows = (s.m_windows, [nm ++ " not deleted because it was not found"]) ∧
    drainDeleteQueue (nm :: q) s =
      drainDeleteQueue q
        { s with m_errors := s.m_errors ++ [nm ++ " not deleted because it was not found"],
                 m_deleteQueue := q } ∧
    (s.m_deleteChildrenQueue = [] → s.m_deleteQueue = [nm] → s.m_newItemVec = [] →
      s.m_upQueue = [] → s.m_downQueue = [] →
      (postrender tid runtimeDflt tCreate tEnd s).m_windows = s.m_windows ∧
      (postrender tid runtimeDflt tCreate tEnd s).m_errors =
        s.m_errors ++ [nm ++ " not deleted because it was not found"] ∧
      (postrender tid runtimeDflt tCreate tEnd s).m_deleteQueue = []) := by
  have hstep := deleteItem_not_found s.m_windows nm habs
  simp only [notDeletedMessage] at hstep
  refine ⟨hstep, ?_, ?_⟩
  · simp [drainDeleteQueue, hstep]
  · intro h1 h2 h3 h4 h5
    simp [postrender, h1, h2, h3, h4, h5, drainDeleteChildrenQueue, drainDeleteQueue,
      addNewItems, drainUpQueue, drainDownQueue, hstep]

theorem C2_delete_absent_name_witness :
    "ghost" ∉ namesIn (construct 7 100 30 2 false).m_windows ∧
    deleteItem "ghost" (construct 7 100 30 2 false).m_windows =
      ((construct 7 100 30 2 false).m_windows, ["ghost not deleted because it was not found"]) :=
  ⟨by decide,
    (C2_delete_absent_name (construct 7 100 30 2 false) 7 "ghost" [] false 0 0 (by decide)).1⟩

/-- C3: in a tree with unique names where window `W` has the child `A`, a frame that
queues delete(`A`) and the addition of a non-window item under `W` with no
before-sibling, the new name being `A`'s or a free one, ends without any error, with
`A` removed and with `W`'s children being the former children other than `A` followed
by the new item (whose parent reference now is `W`); the other windows are
untouched. -/
theorem C3_delete_then_add_same_frame (s : mvApp) (tid : Nat) (runtimeDflt : Bool) (tCreate tEnd : ℚ)
    (l1 l2 c1 c2 : List mvAppItem) (W A item : mvAppItem)
    (hmain : tid = s.m_mainThreadID)
    (hws : s.m_windows = l1 ++ W :: l2)
    (hA : W.getChildren = c1 ++ A :: c2)
    (huniq : uniqueNames s.m_windows)
    (htype : item.getType ≠ mvAppItemType.Window)
    (hname : item.getName = A.getName ∨ item.getName ∉ namesIn s.m_windows)
    (hq1 : s.m_deleteChildrenQueue = [])
    (hq2 : s.m_deleteQueue = [A.getName])
    (hq3 : s.m_newItemVec = [⟨item, "", W.getName⟩])
    (hq4 : s.m_upQueue = []) (hq5 : s.m_downQueue = []) :
    (postrender tid runtimeDflt tCreate tEnd s).m_errors = s.m_errors ∧
    (postrender tid runtimeDflt tCreate tEnd s).m_windows =
      l1 ++ mvAppItem.mk W.addr W.getName W.getType W.getParent
        (c1 ++ c2 ++ [item.setParent W.addr]) :: l2 ∧
    A.getName ∉ namesIn (l1 ++ mvAppItem.mk W.addr W.getName W.getType W.getParent
        (c1 ++ c2) :: l2) := by
  subst hmain
  -- what uniqueness says about the names around `A`
  have hN : namesIn s.m_windows =
      namesIn l1 ++ (W.getName :: (namesIn c1 ++ (A.getName :: namesIn A.getChildren) ++
        namesIn c2)) ++ namesIn l2 := by
    rw [hws, namesIn_append, namesIn_cons, names_eq W, hA, namesIn_append, namesIn_cons,
      names_eq A]
    simp
  have hu : (namesIn l1 ++ (W.getName :: (namesIn c1 ++ (A.getName :: namesIn A.getChildren) ++
        namesIn c2)) ++ namesIn l2).Nodup := by
    rw [← hN]; exact huniq
  have hAl1 : A.getName ∉ namesIn l1 := by
    intro h
    have := (List.nodup_append.mp (List.nodup_append.mp hu).1).2.2
    exact List.disjoint_left.mp this h (by simp)
  have hWl1 : W.getName ∉ namesIn l1 := by
    intro h
    have := (List.nodup_append.mp (List.nodup_append.mp hu).1).2.2
    exact List.disjoint_left.mp this h (by simp)
  have hAl2 : A.getName ∉ namesIn l2 := by
    intro h
    have := (List.nodup_append.mp hu).2.2
    exact List.disjoint_right.mp this h (by simp)
  have huW : (W.getName :: (namesIn c1 ++ (A.getName :: namesIn A.getChildren) ++
        namesIn c2)).Nodup := (List.nodup_append.mp (List.nodup_append.mp hu).1).2.1
  have hAW : A.getName ≠ W.getName := by
    intro e
    have := (List.nodup_cons.mp huW).1
    exact this (by simp [e])
  have huC : (namesIn c1 ++ (A.getName :: namesIn A.getChildren) ++ namesIn c2).Nodup :=
    (List.nodup_cons.mp huW).2
  have hAc1 : A.getName ∉ namesIn c1 := by
    intro h
    have := (List.nodup_append.mp (List.nodup_append.mp huC).1).2.2
    exact List.disjoint_left.mp this h (by simp)
  have hAc2 : A.getName ∉ namesIn c2 := by
    intro h
    have := (List.nodup_append.mp huC).2.2
    exact List.disjoint_right.mp this h (by simp)
  -- the delete request
  have hdelW : deleteChild A.getName W =
      (true, mvAppItem.mk W.addr W.getName W.getType W.getParent (c1 ++ c2)) := by
    rw [deleteChild_eq, hA, deleteChildIn_append _ _ _ hAc1, deleteChildIn_cons]
    simp
  have hdel : deleteFromWindows A.getName s.m_windows =
      (true, l1 ++ mvAppItem.mk W.addr W.getName W.getType W.getParent (c1 ++ c2) :: l2) := by
    rw [hws, deleteFromWindows_append _ _ _ hAl1, deleteFromWindows_cons, hdelW]
    simp
  have hgone : A.getName ∉ namesIn (l1 ++
      mvAppItem.mk W.addr W.getName W.getType W.getParent (c1 ++ c2) :: l2) := by
    simp only [namesIn_append, namesIn_cons, names, List.mem_append, List.mem_cons, not_or]
    exact ⟨hAl1, ⟨hAW, hAc1, hAc2⟩, hAl2⟩
  have hstep1 : deleteItem A.getName s.m_windows =
      (l1 ++ mvAppItem.mk W.addr W.getName W.getType W.getParent (c1 ++ c2) :: l2, []) := by
    simp [deleteItem, hdel, windowDeleting_not_mem _ _ hgone]
  -- the add request
  have hfree : item.getName ∉ namesIn (l1 ++
      mvAppItem.mk W.addr W.getName W.getType W.getParent (c1 ++ c2) :: l2) := by
    rcases hname with e | hn
    · rw [e]; exact hgone
    · intro hm
      have hsub := deleteItem_sublist A.getName s.m_windows
      rw [hstep1] at hsub
      exact hn (hsub.subset hm)
  have hadd : addToWindows W.getName "" item (l1 ++
      mvAppItem.mk W.addr W.getName W.getType W.getParent (c1 ++ c2) :: l2) =
      (true, l1 ++ mvAppItem.mk W.addr W.getName W.getType W.getParent
        (c1 ++ c2 ++ [item.setParent W.addr]) :: l2) := by
    rw [addToWindows_append _ _ _ _ _ hWl1, addToWindows_cons]
    simp [addRuntimeChild]
  refine ⟨?_, ?_, hgone⟩
  · simp [postrender, hq1, hq2, hq3, hq4, hq5, drainDeleteChildrenQueue, drainDeleteQueue,
      addNewItems, drainUpQueue, drainDownQueue, hstep1, addNewItem, getItem_main,
      findItem_eq_none _ _ hfree, htype, hadd]
  · simp [postrender, hq1, hq2, hq3, hq4, hq5, drainDeleteChildrenQueue, drainDeleteQueue,
      addNewItems, drainUpQueue, drainDownQueue, hstep1, addNewItem, getItem_main,
      findItem_eq_none _ _ hfree, htype, hadd]

theorem C3_delete_then_add_same_frame_witness :
    (uniqueNames [mvAppItem.mk 100 "MainWindow" mvAppItemType.Window none [],
        mvAppItem.mk 1 "W" mvAppItemType.Window none
          [mvAppItem.mk 2 "A" mvAppItemType.Child (some 1) []]] ∧
      mvAppItemType.Child ≠ mvAppItemType.Window) ∧
    (postrender 7 false 0 0
      { construct 7 100 30 2 false with
        m_windows := [mvAppItem.mk 100 "MainWindow" mvAppItemType.Window none [],
          mvAppItem.mk 1 "W" mvAppItemType.Window none
            [mvAppItem.mk 2 "A" mvAppItemType.Child (some 1) []]]
        m_deleteQueue := ["A"]
        m_newItemVec := [⟨mvAppItem.mk 3 "B" mvAppItemType.Child none [], "", "W"⟩] }).m_windows =
      [mvAppItem.mk 100 "MainWindow" mvAppItemType.Window none [],
        mvAppItem.mk 1 "W" mvAppItemType.Window none
          [mvAppItem.mk 3 "B" mvAppItemType.Child (some 1) []]] :=
  ⟨⟨by decide, by decide⟩,
    (C3_delete_then_add_same_frame
      { construct 7 100 30 2 false with
        m_windows := [mvAppItem.mk 100 "MainWindow" mvAppItemType.Window none [],
          mvAppItem.mk 1 "W" mvAppItemType.Window none
            [mvAppItem.mk 2 "A" mvAppItemType.Child (some 1) []]]
        m_deleteQueue := ["A"]
        m_newItemVec := [⟨mvAppItem.mk 3 "B" mvAppItemType.Child none [], "", "W"⟩] }
      7 false 0 0 [mvAppItem.mk 100 "MainWindow" mvAppItemType.Window none []] [] [] []
      (mvAppItem.mk 1 "W" mvAppItemType.Window none
        [mvAppItem.mk 2 "A" mvAppItemType.Child (some 1) []])
      (mvAppItem.mk 2 "A" mvAppItemType.Child (some 1) [])
      (mvAppItem.mk 3 "B" mvAppItemType.Child none [])
      rfl rfl rfl (by decide) (by decide) (Or.inr (by decide))
      rfl rfl rfl rfl rfl).2.1⟩

/-- C4 as stated fails: a queued window that carries a child is pushed on the window
list after a check of its own name only, so the child's name can repeat a name of the
tree.  Here the tree is the main window alone, names are unique and parent references
right before `postrender`, and afterwards two items are called "MainWindow". -/
theorem C4_counterexample :
    (7 = ({ construct 7 100 30 2 false with
        m_newItemVec := [⟨mvAppItem.mk 1 "W2" mvAppItemType.Window none
          [mvAppItem.mk 2 "MainWindow" mvAppItemType.Child (some 1) []], "", ""⟩] }
        : mvApp).m_mainThreadID ∧
      uniqueNames ({ construct 7 100 30 2 false with
        m_newItemVec := [⟨mvAppItem.mk 1 "W2" mvAppItemType.Window none
          [mvAppItem.mk 2 "MainWindow" mvAppItemType.Child (some 1) []], "", ""⟩] }
        : mvApp).m_windows ∧
      parentRefsOK ({ construct 7 100 30 2 false with
        m_newItemVec := [⟨mvAppItem.mk 1 "W2" mvAppItemType.Window none
          [mvAppItem.mk 2 "MainWindow" mvAppItemType.Child (some 1) []], "", ""⟩] }
        : mvApp).m_windows) ∧
    (postrender 7 false 0 0 { construct 7 100 30 2 false with
        m_newItemVec := [⟨mvAppItem.mk 1 "W2" mvAppItemType.Window none
          [mvAppItem.mk 2 "MainWindow" mvAppItemType.Child (some 1) []], "", ""⟩] }).m_windows =
      [mvAppItem.mk 100 "MainWindow" mvAppItemType.Window none [],
        mvAppItem.mk 1 "W2" mvAppItemType.Window none
          [mvAppItem.mk 2 "MainWindow" mvAppItemType.Child (some 1) []]] ∧
    ¬ uniqueNames (postrender 7 false 0 0 { construct 7 100 30 2 false with
        m_newItemVec := [⟨mvAppItem.mk 1 "W2" mvAppItemType.Window none
          [mvAppItem.mk 2 "MainWindow" mvAppItemType.Child (some 1) []], "", ""⟩] }).m_windows := by
  refine ⟨⟨by decide, by decide, by decide⟩,
    by rfl, by decide⟩

/-- C4, amended: if before `postrender` (run on the main thread) no two items of the
tree share a name, every non-window item owned by an item of the tree refers back to
that owner, and the items waiting in the pending-add vector carry no children, then
whatever the delete-children, delete, add, move-up and move-down queues hold, the tree
after `postrender` again has no duplicate names and every non-window item refers back
to the item that owns it, which is an item of the tree. -/
theorem C4_tree_invariant_preserved (s : mvApp) (tid : Nat) (runtimeDflt : Bool) (tCreate tEnd : ℚ)
    (hmain : tid = s.m_mainThreadID)
    (hunique : uniqueNames s.m_windows)
    (hparents : parentRefsOK s.m_windows)
    (hleaf : ∀ e ∈ s.m_newItemVec, e.item.getChildren = []) :
    uniqueNames (postrender tid runtimeDflt tCreate tEnd s).m_windows ∧
    parentRefsOK (postrender tid runtimeDflt tCreate tEnd s).m_windows ∧
    (∀ p ∈ itemsIn (postrender tid runtimeDflt tCreate tEnd s).m_windows, ∀ c ∈ p.getChildren,
      c.getType ≠ mvAppItemType.Window →
        ∃ q ∈ itemsIn (postrender tid runtimeDflt tCreate tEnd s).m_windows, c.getParent = some q.addr) := by
  subst hmain
  have h := postrender_invariant s runtimeDflt tCreate tEnd hunique ((parentRefsOK_iff _).1 hparents) hleaf
  have hp := (parentRefsOK_iff _).2 h.2
  exact ⟨h.1, hp, fun p hpm c hc ht => ⟨p, hpm, hp p hpm c hc ht⟩⟩

theorem C4_tree_invariant_preserved_witness :
    (7 = ({ construct 7 100 30 2 false with
        m_windows := [mvAppItem.mk 100 "MainWindow" mvAppItemType.Window none
          [mvAppItem.mk 1 "A" mvAppItemType.Child (some 100) [],
           mvAppItem.mk 2 "B" mvAppItemType.Child (some 100) []]]
        m_deleteQueue := ["A"]
        m_newItemVec := [⟨mvAppItem.mk 3 "A" mvAppItemType.Child none [], "", "MainWindow"⟩]
        m_upQueue := ["A"] } : mvApp).m_mainThreadID ∧
      uniqueNames [mvAppItem.mk 100 "MainWindow" mvAppItemType.Window none
          [mvAppItem.mk 1 "A" mvAppItemType.Child (some 100) [],
           mvAppItem.mk 2 "B" mvAppItemType.Child (some 100) []]] ∧
      parentRefsOK [mvAppItem.mk 100 "MainWindow" mvAppItemType.Window none
          [mvAppItem.mk 1 "A" mvAppItemType.Child (some 100) [],
           mvAppItem.mk 2 "B" mvAppItemType.Child (some 100) []]] ∧
      ∀ e ∈ [(⟨mvAppItem.mk 3 "A" mvAppItemType.Child none [], "", "MainWindow"⟩
          : NewRuntimeItem)], e.item.getChildren = []) ∧
    uniqueNames (postrender 7 false 0 0 { construct 7 100 30 2 false with
        m_windows := [mvAppItem.mk 100 "MainWindow" mvAppItemType.Window none
          [mvAppItem.mk 1 "A" mvAppItemType.Child (some 100) [],
           mvAppItem.mk 2 "B" mvAppItemType.Child (some 100) []]]
        m_deleteQueue := ["A"]
        m_newItemVec := [⟨mvAppItem.mk 3 "A" mvAppItemType.Child none [], "", "MainWindow"⟩]
        m_upQueue := ["A"] }).m_windows ∧
    (postrender 7 false 0 0 { construct 7 100 30 2 false with
        m_windows := [mvAppItem.mk 100 "MainWindow" mvAppItemType.Window none
          [mvAppItem.mk 1 "A" mvAppItemType.Child (some 100) [],
           mvAppItem.mk 2 "B" mvAppItemType.Child (some 100) []]]
        m_deleteQueue := ["A"]
        m_newItemVec := [⟨mvAppItem.mk 3 "A" mvAppItemType.Child none [], "", "MainWindow"⟩]
        m_upQueue := ["A"] }).m_windows =
      [mvAppItem.mk 100 "MainWindow" mvAppItemType.Window none
        [mvAppItem.mk 3 "A" mvAppItemType.Child (some 100) [],
         mvAppItem.mk 2 "B" mvAppItemType.Child (some 100) []]] :=
  ⟨⟨by decide, by decide, by decide,
      by intro e he; rw [List.mem_singleton.mp he]; rfl⟩,
    (C4_tree_invariant_preserved
      { construct 7 100 30 2 false with
        m_windows := [mvAppItem.mk 100 "MainWindow" mvAppItemType.Window none
          [mvAppItem.mk 1 "A" mvAppItemType.Child (some 100) [],
           mvAppItem.mk 2 "B" mvAppItemType.Child (some 100) []]]
        m_deleteQueue := ["A"]
        m_newItemVec := [⟨mvAppItem.mk 3 "A" mvAppItemType.Child none [], "", "MainWindow"⟩]
        m_upQueue := ["A"] }
      7 false 0 0 (by decide) (by decide) (by decide)
      (by intro e he; rw [List.mem_singleton.mp he]; rfl)).1,
    by rfl⟩

/-- C5: the delete loop handles the queued names one by one in queue order (it is the
left fold of the one-name step over the queue) and leaves the queue empty.  For the
name at any position of the queue: if no item carries it when its turn comes, the step
reports exactly one error naming it and leaves the tree as it is; if an item carries
it, the step reports nothing and removes an item of that name (with unique names, no
item of that name is left); either way the loop goes on with the names behind it. -/
theorem C5_delete_queue_fifo (s : mvApp) (q : List String) :
    ((drainDeleteQueue q s).m_windows =
        q.foldl (fun ws nm => (deleteItem nm ws).1) s.m_windows ∧
      (drainDeleteQueue q s).m_errors =
        (q.foldl (fun (acc : List mvAppItem × List String) nm =>
          ((deleteItem nm acc.1).1, acc.2 ++ (deleteItem nm acc.1).2))
          (s.m_windows, s.m_errors)).2 ∧
      (s.m_deleteQueue = q → (drainDeleteQueue q s).m_deleteQueue = [])) ∧
    (∀ pre nm post, q = pre ++ nm :: post →
      (nm ∉ namesIn (drainDeleteQueue pre s).m_windows →
        deleteItem nm (drainDeleteQueue pre s).m_windows =
          ((drainDeleteQueue pre s).m_windows,
            [nm ++ " not deleted because it was not found"])) ∧
      (nm ∈ namesIn (drainDeleteQueue pre s).m_windows →
        (deleteItem nm (drainDeleteQueue pre s).m_windows).2 = [] ∧
        (namesIn (deleteItem nm (drainDeleteQueue pre s).m_windows).1).count nm <
          (namesIn (drainDeleteQueue pre s).m_windows).count nm ∧
        (uniqueNames (drainDeleteQueue pre s).m_windows →
          nm ∉ namesIn (deleteItem nm (drainDeleteQueue pre s).m_windows).1)) ∧
      (drainDeleteQueue q s).m_windows =
        post.foldl (fun ws n => (deleteItem n ws).1)
          (deleteItem nm (drainDeleteQueue pre s).m_windows).1 ∧
      (drainDeleteQueue q s).m_errors =
        (post.foldl (fun (acc : List mvAppItem × List String) n =>
          ((deleteItem n acc.1).1, acc.2 ++ (deleteItem n acc.1).2))
          ((deleteItem nm (drainDeleteQueue pre s).m_windows).1,
            (drainDeleteQueue pre s).m_errors ++
              (deleteItem nm (drainDeleteQueue pre s).m_windows).2)).2) := by
  refine ⟨⟨(drainDeleteQueue_fold q s).1, (drainDeleteQueue_fold q s).2.1,
    drainDeleteQueue_empties q s⟩, ?_⟩
  intro pre nm post hq
  refine ⟨?_, ?_, ?_, ?_⟩
  · intro h
    exact deleteItem_not_found _ nm h
  · intro h
    exact ⟨(deleteItem_found nm _ h).1, (deleteItem_found nm _ h).2,
      fun hu => deleteItem_found_unique nm _ h hu⟩
  · rw [(drainDeleteQueue_fold q s).1, hq, List.foldl_append, List.foldl_cons,
      (drainDeleteQueue_fold pre s).1]
  · obtain ⟨hw, he, hp⟩ := drainDeleteQueue_fold pre s
    rw [(drainDeleteQueue_fold q s).2.1, hq, List.foldl_append, List.foldl_cons]
    have e : (pre.foldl (fun (acc : List mvAppItem × List String) n =>
          ((deleteItem n acc.1).1, acc.2 ++ (deleteItem n acc.1).2))
          (s.m_windows, s.m_errors)) =
        ((drainDeleteQueue pre s).m_windows, (drainDeleteQueue pre s).m_errors) := by
      rw [hw, he, ← hp]
    rw [e]

theorem C5_delete_queue_fifo_witness :
    (["ghost", "A"] = [] ++ "ghost" :: ["A"] ∧
      "ghost" ∉ namesIn (drainDeleteQueue []
        { construct 7 100 30 2 false with
          m_windows := [mvAppItem.mk 1 "W" mvAppItemType.Window none
            [mvAppItem.mk 2 "A" mvAppItemType.Child (some 1) []]] }).m_windows) ∧
    (drainDeleteQueue ["ghost", "A"]
        { construct 7 100 30 2 false with
          m_windows := [mvAppItem.mk 1 "W" mvAppItemType.Window none
            [mvAppItem.mk 2 "A" mvAppItemType.Child (some 1) []]] }).m_windows =
      [mvAppItem.mk 1 "W" mvAppItemType.Window none []] ∧
    (drainDeleteQueue ["ghost", "A"]
        { construct 7 100 30 2 false with
          m_windows := [mvAppItem.mk 1 "W" mvAppItemType.Window none
            [mvAppItem.mk 2 "A" mvAppItemType.Child (some 1) []]] }).m_errors =
      ["ghost not deleted because it was not found"] ∧
    deleteItem "ghost" (drainDeleteQueue []
        { construct 7 100 30 2 false with
          m_windows := [mvAppItem.mk 1 "W" mvAppItemType.Window none
            [mvAppItem.mk 2 "A" mvAppItemType.Child (some 1) []]] }).m_windows =
      ((drainDeleteQueue []
        { construct 7 100 30 2 false with
          m_windows := [mvAppItem.mk 1 "W" mvAppItemType.Window none
            [mvAppItem.mk 2 "A" mvAppItemType.Child (some 1) []]] }).m_windows,
        ["ghost not deleted because it was not found"]) :=
  ⟨⟨by decide, by decide⟩, by rfl, by decide,
    ((C5_delete_queue_fifo
      { construct 7 100 30 2 false with
        m_windows := [mvAppItem.mk 1 "W" mvAppItemType.Window none
          [mvAppItem.mk 2 "A" mvAppItemType.Child (some 1) []]] }
      ["ghost", "A"]).2 [] "ghost" ["A"] (by decide)).1 (by decide)⟩

/-- C6: a queued non-window item whose name is free and whose parent is the name of no
window and of no descendant gets exactly one error naming the item, is not inserted,
and the tree stays as it was; the loop goes on with the rest of the vector. -/
theorem C6_parent_not_found (s : mvApp) (tid : Nat) (e : NewRuntimeItem)
    (rest : List NewRuntimeItem) (runtimeDflt : Bool) (tCreate tEnd : ℚ)
    (hmain : tid = s.m_mainThreadID)
    (hname : e.item.getName ∉ namesIn s.m_windows)
    (htype : e.item.getType ≠ mvAppItemType.Window)
    (hparent : e.parent ∉ namesIn s.m_windows) :
    addNewItem tid e s =
      (s.m_windows, [e.item.getName ++ " not added because its parent was not found"]) ∧
    addNewItems tid (e :: rest) s =
      addNewItems tid rest
        { s with m_errors :=
            s.m_errors ++ [e.item.getName ++ " not added because its parent was not found"] } ∧
    (s.m_deleteChildrenQueue = [] → s.m_deleteQueue = [] → s.m_newItemVec = [e] →
      s.m_upQueue = [] → s.m_downQueue = [] →
      (postrender tid runtimeDflt tCreate tEnd s).m_windows = s.m_windows ∧
      (postrender tid runtimeDflt tCreate tEnd s).m_errors =
        s.m_errors ++ [e.item.getName ++ " not added because its parent was not found"] ∧
      (postrender tid runtimeDflt tCreate tEnd s).m_newItemVec = []) := by
  subst hmain
  have hstep := addNewItem_no_parent s e hname htype hparent
  simp only [parentNotFoundMessage] at hstep
  refine ⟨hstep, ?_, ?_⟩
  · simp [addNewItems, hstep]
  · intro h1 h2 h3 h4 h5
    simp [postrender, h1, h2, h3, h4, h5, drainDeleteChildrenQueue, drainDeleteQueue,
      addNewItems, drainUpQueue, drainDownQueue, hstep]

theorem C6_parent_not_found_witness :
    (7 = (construct 7 100 30 2 false).m_mainThreadID ∧
      "B" ∉ namesIn (construct 7 100 30 2 false).m_windows ∧
      mvAppItemType.Child ≠ mvAppItemType.Window ∧
      "nowhere" ∉ namesIn (construct 7 100 30 2 false).m_windows) ∧
    addNewItem 7 ⟨mvAppItem.mk 101 "B" mvAppItemType.Child none [], "", "nowhere"⟩
        (construct 7 100 30 2 false) =
      ((construct 7 100 30 2 false).m_windows, ["B not added because its parent was not found"]) :=
  ⟨⟨by decide, by decide, by decide, by decide⟩,
    (C6_parent_not_found (construct 7 100 30 2 false) 7
      ⟨mvAppItem.mk 101 "B" mvAppItemType.Child none [], "", "nowhere"⟩ [] false 0 0
      (by decide) (by decide) (by decide) (by decide)).1⟩

/-- C8: a delete request whose name is the name of a top-level window reports no error,
and the window list afterwards is the old list without the windows of that name, the
others in their original order: as a list of objects (addresses) and of names always;
it is the filtered list left by the `deleteChild` pass that runs first, which is the
old list itself, subtrees included, when no descendant carries the name as well.  When
it is the only request of the frame this is the window list after `postrender`. -/
theorem C8_delete_window (s : mvApp) (tid : Nat) (nm : String) (runtimeDflt : Bool) (tCreate tEnd : ℚ)
    (hwin : nm ∈ s.m_windows.map getName) :
    (deleteItem nm s.m_windows).2 = [] ∧
    (deleteItem nm s.m_windows).1.map addr =
      (s.m_windows.filter (fun w => decide (w.getName ≠ nm))).map addr ∧
    (deleteItem nm s.m_windows).1.map getName =
      (s.m_windows.filter (fun w => decide (w.getName ≠ nm))).map getName ∧
    (deleteItem nm s.m_windows).1 =
      (deleteFromWindows nm s.m_windows).2.filter (fun w => decide (w.getName ≠ nm)) ∧
    ((∀ w ∈ s.m_windows, nm ∉ namesIn w.getChildren) →
      (deleteItem nm s.m_windows).1 = s.m_windows.filter (fun w => decide (w.getName ≠ nm))) ∧
    (s.m_deleteChildrenQueue = [] → s.m_deleteQueue = [nm] → s.m_newItemVec = [] →
      s.m_upQueue = [] → s.m_downQueue = [] →
      (postrender tid runtimeDflt tCreate tEnd s).m_windows = (deleteItem nm s.m_windows).1 ∧
      (postrender tid runtimeDflt tCreate tEnd s).m_errors = s.m_errors) := by
  have hstep := deleteItem_window nm s.m_windows hwin
  refine ⟨by rw [hstep], ?_, ?_, by rw [hstep], ?_, ?_⟩
  · rw [hstep]
    exact deleteFromWindows_filter_addr nm (fun n => decide (n ≠ nm)) s.m_windows
  · rw [hstep]
    exact deleteFromWindows_filter_getName nm (fun n => decide (n ≠ nm)) s.m_windows
  · intro hd
    rw [hstep, deleteFromWindows_no_descendant nm s.m_windows hd]
  · intro h1 h2 h3 h4 h5
    simp [postrender, h1, h2, h3, h4, h5, drainDeleteChildrenQueue, drainDeleteQueue,
      addNewItems, drainUpQueue, drainDownQueue, hstep]

theorem C8_delete_window_witness :
    "W2" ∈ ([mvAppItem.mk 1 "W1" mvAppItemType.Window none
              [mvAppItem.mk 3 "W2" mvAppItemType.Child (some 1) []],
            mvAppItem.mk 2 "W2" mvAppItemType.Window none []].map getName) ∧
    (deleteItem "W2" [mvAppItem.mk 1 "W1" mvAppItemType.Window none
              [mvAppItem.mk 3 "W2" mvAppItemType.Child (some 1) []],
            mvAppItem.mk 2 "W2" mvAppItemType.Window none []]).2 = [] :=
  ⟨by decide,
    (C8_delete_window
      { construct 7 100 30 2 false with
        m_windows := [mvAppItem.mk 1 "W1" mvAppItemType.Window none
              [mvAppItem.mk 3 "W2" mvAppItemType.Child (some 1) []],
            mvAppItem.mk 2 "W2" mvAppItemType.Window none []] }
      7 "W2" false 0 0 (by decide)).1⟩

/-- C9: with no pool and `K ≥ 1` queued jobs, `postrender` creates one pool (one
"Threadpool created" entry is logged, the pool is built with the configured thread
count, the flag is set and the start time taken), hands it exactly the queued jobs, in
queue order and each with its handler name, payload and return-handler name, and
clears the submission queue; with an empty submission queue it leaves the pool and
the log as they were, so no pool is created. -/
theorem C9_pool_created_once (s : mvApp) (tid : Nat) (runtimeDflt : Bool) (tCreate tEnd : ℚ) (K : Nat) :
    (1 ≤ K → s.m_asyncCallbacks.length = K → s.m_tpool = none →
      (postrender tid runtimeDflt tCreate tEnd s).m_tpool =
        some ⟨if s.m_threadPoolHighPerformance then 0 else s.m_threads, s.m_asyncCallbacks⟩ ∧
      ((postrender tid runtimeDflt tCreate tEnd s).m_tpool.map
        (fun pool => pool.submitted.length)) = some K ∧
      (postrender tid runtimeDflt tCreate tEnd s).m_log = s.m_log ++ ["Threadpool created"] ∧
      (postrender tid runtimeDflt tCreate tEnd s).m_threadPool = true ∧
      (postrender tid runtimeDflt tCreate tEnd s).m_poolStart = tCreate ∧
      (postrender tid runtimeDflt tCreate tEnd s).m_asyncCallbacks = []) ∧
    (s.m_asyncCallbacks = [] →
      (postrender tid runtimeDflt tCreate tEnd s).m_tpool = s.m_tpool ∧
      (postrender tid runtimeDflt tCreate tEnd s).m_log = s.m_log) := by
  obtain ⟨s5, hpost, hpool, hjobs, hlog, hthreads, hhp, -, -, -⟩ :=
    postrender_eq tid runtimeDflt tCreate tEnd s
  refine ⟨?_, ?_⟩
  · intro hK hlen hnone
    have hne : s5.m_asyncCallbacks.isEmpty = false := by
      rw [hjobs]
      cases hq : s.m_asyncCallbacks with
      | nil => rw [hq] at hlen; simp at hlen; omega
      | cons a b => rfl
    have hsub : submitAsyncCallbacks tCreate s5 =
        { s5 with
          m_tpool := some ⟨if s.m_threadPoolHighPerformance then 0 else s.m_threads,
            s.m_asyncCallbacks⟩
          m_poolStart := tCreate
          m_threadPool := true
          m_log := s.m_log ++ ["Threadpool created"]
          m_asyncCallbacks := [] } := by
      unfold submitAsyncCallbacks
      rw [if_pos hne, hpool.trans hnone]
      simp [submitAll_submitted, hjobs, hlog, hthreads, hhp]
    rw [hpost]
    simp [hsub, hlen]
  · intro hnil
    rw [hpost, submitAsyncCallbacks_nil tCreate s5 (hjobs.trans hnil)]
    simp [hpool, hlog]

theorem C9_pool_created_once_witness :
    (1 ≤ 2 ∧
      ({ construct 7 100 30 2 false with
          m_asyncCallbacks := [⟨"h1", some (PyObject.object 42), "r1"⟩, ⟨"h2", none, ""⟩] }
        : mvApp).m_asyncCallbacks.length = 2 ∧
      ({ construct 7 100 30 2 false with
          m_asyncCallbacks := [⟨"h1", some (PyObject.object 42), "r1"⟩, ⟨"h2", none, ""⟩] }
        : mvApp).m_tpool = none) ∧
    (postrender 7 false 5 6
      { construct 7 100 30 2 false with
        m_asyncCallbacks := [⟨"h1", some (PyObject.object 42), "r1"⟩, ⟨"h2", none, ""⟩] }).m_tpool =
      some ⟨2, [⟨"h1", some (PyObject.object 42), "r1"⟩, ⟨"h2", none, ""⟩]⟩ :=
  ⟨⟨by decide, by decide, by decide⟩,
    ((C9_pool_created_once
      { construct 7 100 30 2 false with
        m_asyncCallbacks := [⟨"h1", some (PyObject.object 42), "r1"⟩, ⟨"h2", none, ""⟩] }
      7 false 5 6 2).1 (by decide) (by decide) (by decide)).1⟩

/-- C10: `prerender` destroys the pool exactly when a pool exists and the tracked time
is strictly greater than the timeout; it then leaves no pool, tracked time 0 and the
flag false (and logs the destruction); when no pool exists or the tracked time is at
most the timeout, the check changes nothing, and pool, tracked time and flag are after
`prerender` what they were before. -/
theorem C10_idle_teardown (s : mvApp) :
    ((s.m_tpool.isSome = true ∧ (prerender s).m_tpool = none) ↔
      (s.m_tpool.isSome = true ∧ s.m_threadTime > s.m_threadPoolTimeout)) ∧
    (s.m_tpool.isSome = true → s.m_threadTime > s.m_threadPoolTimeout →
      (prerender s).m_tpool = none ∧ (prerender s).m_threadTime = 0 ∧
      (prerender s).m_threadPool = false ∧
      (prerender s).m_log = s.m_log ++ ["Threadpool destroyed"]) ∧
    ((s.m_tpool = none ∨ s.m_threadTime ≤ s.m_threadPoolTimeout) →
      cleanupThreadPool s = s ∧
      (prerender s).m_tpool = s.m_tpool ∧ (prerender s).m_threadTime = s.m_threadTime ∧
      (prerender s).m_threadPool = s.m_threadPool ∧ (prerender s).m_log = s.m_log) := by
  have hdestroy : s.m_tpool.isSome = true → s.m_threadTime > s.m_threadPoolTimeout →
      (prerender s).m_tpool = none ∧ (prerender s).m_threadTime = 0 ∧
      (prerender s).m_threadPool = false ∧
      (prerender s).m_log = s.m_log ++ ["Threadpool destroyed"] := by
    intro hsome htime
    obtain ⟨pool, hpool⟩ := Option.isSome_iff_exists.mp hsome
    simp [prerender, cleanupThreadPool_destroy s pool hpool htime]
  have hkeep : (s.m_tpool = none ∨ s.m_threadTime ≤ s.m_threadPoolTimeout) →
      cleanupThreadPool s = s ∧
      (prerender s).m_tpool = s.m_tpool ∧ (prerender s).m_threadTime = s.m_threadTime ∧
      (prerender s).m_threadPool = s.m_threadPool ∧ (prerender s).m_log = s.m_log := by
    intro h
    simp [prerender, cleanupThreadPool_keep s h]
  refine ⟨⟨?_, ?_⟩, hdestroy, hkeep⟩
  · rintro ⟨hsome, hnone⟩
    refine ⟨hsome, ?_⟩
    by_contra hle
    have hk := (hkeep (Or.inr (not_lt.mp hle))).2.1
    rw [hnone] at hk
    rw [← hk] at hsome
    simp at hsome
  · rintro ⟨hsome, htime⟩
    exact ⟨hsome, (hdestroy hsome htime).1⟩

theorem C10_idle_teardown_witness :
    (({ construct 7 100 30 2 false with m_tpool := some ⟨2, []⟩, m_threadTime := 31 }
        : mvApp).m_tpool.isSome = true ∧
      ({ construct 7 100 30 2 false with m_tpool := some ⟨2, []⟩, m_threadTime := 31 }
        : mvApp).m_threadTime >
      ({ construct 7 100 30 2 false with m_tpool := some ⟨2, []⟩, m_threadTime := 31 }
        : mvApp).m_threadPoolTimeout) ∧
    (prerender { construct 7 100 30 2 false with m_tpool := some ⟨2, []⟩, m_threadTime := 31 }).m_tpool
      = none :=
  ⟨⟨by decide, by decide⟩,
    ((C10_idle_teardown
      { construct 7 100 30 2 false with m_tpool := some ⟨2, []⟩, m_threadTime := 31 }).2.1
      (by decide) (by decide)).1⟩

/-- C11 (counterexample): a job is submitted and the first frame, at time 0, creates the
pool and hands it the job; the second frame ends at time 31.  No worker has run the job
to its end, so it is still in flight, and the `prerender` of the third frame destroys
the pool, the time since its creation being above the timeout of 30. -/
theorem C11_counterexample :
    (PoolWorld.run
      [PoolEvent.addMTCallback "h1" (some (PyObject.object 42)) "r1", PoolEvent.prerender,
        PoolEvent.postrender 7 false 0 0, PoolEvent.prerender,
        PoolEvent.postrender 7 false 31 31]
      ⟨construct 7 100 30 2 false, []⟩).app.m_tpool =
      some ⟨2, [⟨"h1", some (PyObject.object 42), "r1"⟩]⟩ ∧
    (PoolWorld.run
      [PoolEvent.addMTCallback "h1" (some (PyObject.object 42)) "r1", PoolEvent.prerender,
        PoolEvent.postrender 7 false 0 0, PoolEvent.prerender,
        PoolEvent.postrender 7 false 31 31]
      ⟨construct 7 100 30 2 false, []⟩).jobsInFlight = true ∧
    (PoolWorld.step PoolEvent.prerender
      (PoolWorld.run
        [PoolEvent.addMTCallback "h1" (some (PyObject.object 42)) "r1", PoolEvent.prerender,
          PoolEvent.postrender 7 false 0 0, PoolEvent.prerender,
          PoolEvent.postrender 7 false 31 31]
        ⟨construct 7 100 30 2 false, []⟩)).app.m_tpool = none := by
  refine ⟨by decide!, by decide!, by decide!⟩

/-- C11 (amended): the pool is destroyed on its age alone.  In every state reached by a
sequence of events, `prerender` keeps the pool, with the jobs that are in flight, when
the tracked time, which is the time between the creation of the pool and the end of
the last `postrender`, is at most the timeout; when a pool exists and the tracked time
exceeds the timeout, `prerender` destroys it, whether or not submitted jobs are still
pending or running. -/
theorem C11_pool_destroyed_on_age_only (w0 : PoolWorld) (evs : List PoolEvent) :
    ((PoolWorld.run evs w0).app.m_threadTime ≤ (PoolWorld.run evs w0).app.m_threadPoolTimeout →
      (PoolWorld.step PoolEvent.prerender (PoolWorld.run evs w0)).app.m_tpool =
        (PoolWorld.run evs w0).app.m_tpool ∧
      (PoolWorld.step PoolEvent.prerender (PoolWorld.run evs w0)).jobsInFlight =
        (PoolWorld.run evs w0).jobsInFlight) ∧
    ((PoolWorld.run evs w0).app.m_tpool.isSome = true →
      (PoolWorld.run evs w0).app.m_threadTime > (PoolWorld.run evs w0).app.m_threadPoolTimeout →
      (PoolWorld.step PoolEvent.prerender (PoolWorld.run evs w0)).app.m_tpool = none) := by
  generalize PoolWorld.run evs w0 = w
  refine ⟨?_, ?_⟩
  · intro hle
    have hk := (mvApp.prerender_keep w.app (Or.inr hle)).1
    have ha : (PoolWorld.step PoolEvent.prerender w).app = prerender w.app := rfl
    refine ⟨ha ▸ hk, ?_⟩
    simp only [PoolWorld.jobsInFlight, PoolWorld.step, hk]
    cases hp : w.app.m_tpool with
    | none => rfl
    | some pool => rfl
  · intro hsome htime
    obtain ⟨pool, hpool⟩ := Option.isSome_iff_exists.mp hsome
    have hd := (mvApp.prerender_destroy w.app pool hpool htime).1
    have ha : (PoolWorld.step PoolEvent.prerender w).app = prerender w.app := rfl
    exact ha ▸ hd

theorem C11_pool_destroyed_on_age_only_witness :
    (PoolWorld.run [PoolEvent.addMTCallback "h2" none ""]
      ⟨{ construct 7 100 30 2 false with
          m_tpool := some ⟨2, [⟨"h1", some (PyObject.object 42), "r1"⟩]⟩
          m_threadPool := true, m_threadTime := 20 }, []⟩).app.m_threadTime ≤
      (PoolWorld.run [PoolEvent.addMTCallback "h2" none ""]
        ⟨{ construct 7 100 30 2 false with
            m_tpool := some ⟨2, [⟨"h1", some (PyObject.object 42), "r1"⟩]⟩
            m_threadPool := true, m_threadTime := 20 }, []⟩).app.m_threadPoolTimeout ∧
    (PoolWorld.step PoolEvent.prerender
      (PoolWorld.run [PoolEvent.addMTCallback "h2" none ""]
        ⟨{ construct 7 100 30 2 false with
            m_tpool := some ⟨2, [⟨"h1", some (PyObject.object 42), "r1"⟩]⟩
            m_threadPool := true, m_threadTime := 20 }, []⟩)).jobsInFlight =
      (PoolWorld.run [PoolEvent.addMTCallback "h2" none ""]
        ⟨{ construct 7 100 30 2 false with
            m_tpool := some ⟨2, [⟨"h1", some (PyObject.object 42), "r1"⟩]⟩
            m_threadPool := true, m_threadTime := 20 }, []⟩).jobsInFlight :=
  ⟨by decide,
    ((C11_pool_destroyed_on_age_only
      ⟨{ construct 7 100 30 2 false with
          m_tpool := some ⟨2, [⟨"h1", some (PyObject.object 42), "r1"⟩]⟩
          m_threadPool := true, m_threadTime := 20 }, []⟩
      [PoolEvent.addMTCallback "h2" none ""]).1 (by decide)).2⟩

/-- C12 (counterexample): a pool created at time 0 exists and one job is queued;
`postrender` submits the job at time 10 and ends at time 11.  The tracked time it stores
is 11, the time since the creation of the pool, and not the time 1 elapsed since the
submission. -/
theorem C12_counterexample :
    ({ construct 7 100 30 2 false with
        m_tpool := some ⟨2, []⟩, m_poolStart := 0, m_threadPool := true
        m_asyncCallbacks := [⟨"h1", some (PyObject.object 42), "r1"⟩] } : mvApp).m_tpool.isSome
      = true ∧
    (postrender 7 false 10 11
      { construct 7 100 30 2 false with
        m_tpool := some ⟨2, []⟩, m_poolStart := 0, m_threadPool := true
        m_asyncCallbacks := [⟨"h1", some (PyObject.object 42), "r1"⟩] }).m_tpool =
      some ⟨2, [⟨"h1", some (PyObject.object 42), "r1"⟩]⟩ ∧
    (postrender 7 false 10 11
      { construct 7 100 30 2 false with
        m_tpool := some ⟨2, []⟩, m_poolStart := 0, m_threadPool := true
        m_asyncCallbacks := [⟨"h1", some (PyObject.object 42), "r1"⟩] }).m_threadTime = 11 ∧
    (postrender 7 false 10 11
      { construct 7 100 30 2 false with
        m_tpool := some ⟨2, []⟩, m_poolStart := 0, m_threadPool := true
        m_asyncCallbacks := [⟨"h1", some (PyObject.object 42), "r1"⟩] }).m_threadTime
      ≠ 11 - 10 := by
  have h := postrender_pool_some 7 false 10 11
    { construct 7 100 30 2 false with
      m_tpool := some ⟨2, []⟩, m_poolStart := 0, m_threadPool := true
      m_asyncCallbacks := [⟨"h1", some (PyObject.object 42), "r1"⟩] } ⟨2, []⟩ rfl
  refine ⟨by decide, by decide, ?_, ?_⟩
  · rw [h.2.1]; norm_num
  · rw [h.2.1]; norm_num

/-- C12 (amended): the tracked time is the time elapsed since the creation of the pool.
When `postrender` starts with a pool, whether or not it submits jobs to it, the tracked
time it stores is the reading of the clock at its end minus the start time taken when
the pool was created, and that start time is not moved by the submission; the queued
jobs are appended to the jobs of the pool.  When `postrender` creates the pool, the
start time is the reading of the clock at the creation. -/
theorem C12_tracked_time_since_creation (s : mvApp) (tid : Nat) (runtimeDflt : Bool)
    (tCreate tEnd : ℚ) :
    (∀ pool, s.m_tpool = some pool →
      (postrender tid runtimeDflt tCreate tEnd s).m_threadTime = tEnd - s.m_poolStart ∧
      (postrender tid runtimeDflt tCreate tEnd s).m_poolStart = s.m_poolStart ∧
      (postrender tid runtimeDflt tCreate tEnd s).m_tpool =
        some ⟨pool.threads, pool.submitted ++ s.m_asyncCallbacks⟩) ∧
    (s.m_tpool = none → s.m_asyncCallbacks ≠ [] →
      (postrender tid runtimeDflt tCreate tEnd s).m_threadTime = tEnd - tCreate ∧
      (postrender tid runtimeDflt tCreate tEnd s).m_poolStart = tCreate) := by
  refine ⟨?_, ?_⟩
  · intro pool hpool
    obtain ⟨h1, h2, h3, -, -⟩ := postrender_pool_some tid runtimeDflt tCreate tEnd s pool hpool
    exact ⟨h2, h3, h1⟩
  · intro hnone hq
    obtain ⟨-, h2, h3, -, -⟩ := postrender_pool_create tid runtimeDflt tCreate tEnd s hnone hq
    exact ⟨h2, h3⟩

theorem C12_tracked_time_since_creation_witness :
    ({ construct 7 100 30 2 false with
        m_tpool := some ⟨2, []⟩, m_poolStart := 3, m_threadPool := true
        m_asyncCallbacks := [⟨"h1", some (PyObject.object 42), "r1"⟩] } : mvApp).m_tpool =
      some ⟨2, []⟩ ∧
    (postrender 7 false 10 11
      { construct 7 100 30 2 false with
        m_tpool := some ⟨2, []⟩, m_poolStart := 3, m_threadPool := true
        m_asyncCallbacks := [⟨"h1", some (PyObject.object 42), "r1"⟩] }).m_threadTime =
      11 - 3 :=
  ⟨rfl, ((C12_tracked_time_since_creation
      { construct 7 100 30 2 false with
        m_tpool := some ⟨2, []⟩, m_poolStart := 3, m_threadPool := true
        m_asyncCallbacks := [⟨"h1", some (PyObject.object 42), "r1"⟩] }
      7 false 10 11).1 ⟨2, []⟩ rfl).1⟩

/-- C13: a pool exists, its tracked time exceeds the timeout and the submission queue
is empty.  Over every sequence of events that starts with `prerender` and contains no
submission (in particular every sequence of frames, `prerender` then `postrender`), the
pool is destroyed once: at every point after the first `prerender` there is no pool,
the tracked time is 0, the flag is false and the log is the old log with the single
entry "Threadpool destroyed" appended.  When jobs are then submitted, the `postrender`
of the next frame creates a pool again, built with the configured thread count and
handed exactly these jobs. -/
theorem C13_destroyed_once_then_recreated (w : PoolWorld) (pool : mvThreadPool)
    (hpool : w.app.m_tpool = some pool)
    (htime : w.app.m_threadTime > w.app.m_threadPoolTimeout)
    (hq : w.app.m_asyncCallbacks = [])
    (evs : List PoolEvent) (hevs : ∀ e ∈ evs, e.isSubmission = false) :
    ((PoolWorld.run (PoolEvent.prerender :: evs) w).app.m_tpool = none ∧
      (PoolWorld.run (PoolEvent.prerender :: evs) w).app.m_threadTime = 0 ∧
      (PoolWorld.run (PoolEvent.prerender :: evs) w).app.m_threadPool = false ∧
      (PoolWorld.run (PoolEvent.prerender :: evs) w).app.m_log =
        w.app.m_log ++ ["Threadpool destroyed"]) ∧
    (∀ (jobs : List AsyncronousCallback) (tid : Nat) (runtimeDflt : Bool) (tCreate tEnd : ℚ),
      jobs ≠ [] →
      (PoolWorld.run
        (PoolEvent.prerender :: evs ++
          (jobs.map (fun j => PoolEvent.addMTCallback j.name j.data j.returnname) ++
            [PoolEvent.prerender, PoolEvent.postrender tid runtimeDflt tCreate tEnd]))
        w).app.m_tpool =
        some ⟨if w.app.m_threadPoolHighPerformance then 0 else w.app.m_threads, jobs⟩ ∧
      (PoolWorld.run
        (PoolEvent.prerender :: evs ++
          (jobs.map (fun j => PoolEvent.addMTCallback j.name j.data j.returnname) ++
            [PoolEvent.prerender, PoolEvent.postrender tid runtimeDflt tCreate tEnd]))
        w).app.m_log =
        w.app.m_log ++ ["Threadpool destroyed", "Threadpool created"]) := by
  obtain ⟨d1, d2, d3, d4⟩ := mvApp.prerender_destroy w.app pool hpool htime
  obtain ⟨-, p2, p3, p4⟩ := mvApp.prerender_settings w.app
  have h0 : (PoolWorld.step PoolEvent.prerender w).app = prerender w.app := rfl
  obtain ⟨⟨r1, r2, r3, r4⟩, r5, r6, r7⟩ :=
    PoolWorld.run_absent evs (PoolWorld.step PoolEvent.prerender w) hevs
      ⟨h0 ▸ d1, h0 ▸ d2, h0 ▸ d3, h0 ▸ (p4.trans hq)⟩
  rw [h0] at r5 r6 r7
  refine ⟨⟨?_, ?_, ?_, ?_⟩, ?_⟩
  · exact r1
  · exact r2
  · exact r3
  · exact r5.trans d4
  · intro jobs tid runtimeDflt tCreate tEnd hjobs
    have hrun : PoolWorld.run
        (PoolEvent.prerender :: evs ++
          (jobs.map (fun j => PoolEvent.addMTCallback j.name j.data j.returnname) ++
            [PoolEvent.prerender, PoolEvent.postrender tid runtimeDflt tCreate tEnd])) w =
        PoolWorld.run [PoolEvent.prerender, PoolEvent.postrender tid runtimeDflt tCreate tEnd]
          (PoolWorld.run
            (jobs.map (fun j => PoolEvent.addMTCallback j.name j.data j.returnname))
            (PoolWorld.run (PoolEvent.prerender :: evs) w)) := by
      rw [PoolWorld.run_append, PoolWorld.run_append]
    rw [hrun, PoolWorld.run_submissions]
    have hw1 : PoolWorld.run (PoolEvent.prerender :: evs) w =
        PoolWorld.run evs (PoolWorld.step PoolEvent.prerender w) := rfl
    rw [hw1]
    obtain ⟨c1, c2⟩ := mvApp.frame_recreates tid runtimeDflt tCreate tEnd
      { (PoolWorld.run evs (PoolWorld.step PoolEvent.prerender w)).app with
        m_asyncCallbacks :=
          (PoolWorld.run evs (PoolWorld.step PoolEvent.prerender w)).app.m_asyncCallbacks ++ jobs }
      r1 (by simp [r4, hjobs])
    refine ⟨c1.trans ?_, c2.trans ?_⟩
    · simp [r4, r6, r7, p2, p3]
    · simp [r5, d4]

theorem C13_destroyed_once_then_recreated_witness :
    ((⟨{ construct 7 100 30 2 false with
          m_tpool := some ⟨2, []⟩, m_threadTime := 31, m_threadPool := true }, []⟩
        : PoolWorld).app.m_tpool = some ⟨2, []⟩ ∧
      (⟨{ construct 7 100 30 2 false with
          m_tpool := some ⟨2, []⟩, m_threadTime := 31, m_threadPool := true }, []⟩
        : PoolWorld).app.m_threadTime >
      (⟨{ construct 7 100 30 2 false with
          m_tpool := some ⟨2, []⟩, m_threadTime := 31, m_threadPool := true }, []⟩
        : PoolWorld).app.m_threadPoolTimeout) ∧
    (PoolWorld.run
      [PoolEvent.prerender, PoolEvent.postrender 7 false 40 41, PoolEvent.prerender,
        PoolEvent.postrender 7 false 50 51]
      ⟨{ construct 7 100 30 2 false with
          m_tpool := some ⟨2, []⟩, m_threadTime := 31, m_threadPool := true }, []⟩).app.m_log =
      ["Threadpool destroyed"] :=
  ⟨⟨rfl, by decide⟩,
    (C13_destroyed_once_then_recreated
      ⟨{ construct 7 100 30 2 false with
          m_tpool := some ⟨2, []⟩, m_threadTime := 31, m_threadPool := true }, []⟩
      ⟨2, []⟩ rfl (by decide) rfl
      [PoolEvent.postrender 7 false 40 41, PoolEvent.prerender,
        PoolEvent.postrender 7 false 50 51]
      (by decide)).1.2.2.2⟩

/-- C14: `prerender` hands every record of the result queue to `runReturnCallback`
exactly once and in queue order, with the record's return-handler name and payload:
the invocations and the messages of the frame are the concatenation, in queue order,
of what the dispatch of each record yields, a named record being dispatched through
`runCallback` with its name and its payload (`None` for a null payload); when every
record names a callable definition there is exactly one invocation per record, in
queue order; the queue is empty afterwards. -/
theorem C14_results_dispatched_fifo (s : mvApp) :
    (prerender s).m_asyncReturns = [] ∧
    (prerender s).m_hostCalls =
      s.m_hostCalls ++ s.m_asyncReturns.flatMap
        (fun r => (runReturnCallback s r.name "Asyncrounous Callback" r.data).1) ∧
    (prerender s).m_errors =
      s.m_errors ++ s.m_asyncReturns.flatMap
        (fun r => (runReturnCallback s r.name "Asyncrounous Callback" r.data).2) ∧
    (∀ r ∈ s.m_asyncReturns, r.name ≠ "" →
      runReturnCallback s r.name "Asyncrounous Callback" r.data =
        runCallback s r.name "Asyncrounous Callback" (some (r.data.getD PyObject.None))) ∧
    ((∀ r ∈ s.m_asyncReturns, r.name ≠ "" ∧
        ∃ h, resolveHandler s r.name = some h ∧ h.callable = true) →
      (prerender s).m_hostCalls =
        s.m_hostCalls ++ s.m_asyncReturns.map (fun r =>
          ⟨((resolveHandler s r.name).map PyHandler.id).getD 0, "Asyncrounous Callback",
            r.data.getD PyObject.None⟩)) := by
  obtain ⟨f1, f2, f3, f4, f5, -⟩ := cleanupThreadPool_frame s
  have hfold := drainAsyncReturns_fold s (cleanupThreadPool s).m_asyncReturns
    (cleanupThreadPool s) f4 f5
  have hcalls : (prerender s).m_hostCalls =
      s.m_hostCalls ++ s.m_asyncReturns.flatMap
        (fun r => (runReturnCallback s r.name "Asyncrounous Callback" r.data).1) := by
    simp only [prerender]
    rw [hfold.1, f1, f3]
  refine ⟨?_, hcalls, ?_, ?_, ?_⟩
  · simp only [prerender]
    exact drainAsyncReturns_empties _ _ rfl
  · simp only [prerender]
    rw [hfold.2, f2, f3]
  · intro r _ hr
    exact runReturnCallback_named s r.name _ r.data hr
  · intro hall
    rw [hcalls]
    congr 1
    have hgen : ∀ q : List AsyncronousCallback,
        (∀ r ∈ q, r.name ≠ "" ∧ ∃ h, resolveHandler s r.name = some h ∧ h.callable = true) →
        q.flatMap (fun r => (runReturnCallback s r.name "Asyncrounous Callback" r.data).1) =
          q.map (fun r =>
            ⟨((resolveHandler s r.name).map PyHandler.id).getD 0, "Asyncrounous Callback",
              r.data.getD PyObject.None⟩) := by
      intro q
      induction q with
      | nil => intro _; rfl
      | cons r q ih =>
        intro hq
        obtain ⟨hnm, h, hres, hcall⟩ := hq r (List.mem_cons_self _ _)
        rw [List.flatMap_cons, List.map_cons, ih (fun x hx => hq x (List.mem_cons_of_mem _ hx)),
          runReturnCallback_named s r.name _ r.data hnm,
          runCallback_callable s r.name _ _ hnm h hres hcall, hres]
        simp
    exact hgen _ hall

theorem C14_results_dispatched_fifo_witness :
    (prerender { construct 7 100 30 2 false with
      m_hostMain := [("r1", ⟨5, true, fun _ _ => some PyObject.None⟩)]
      m_hostModules := [[("r2", ⟨6, true, fun _ _ => some PyObject.None⟩)]]
      m_asyncReturns := [⟨"r2", some (PyObject.object 1), ""⟩,
        ⟨"r1", none, ""⟩] }).m_hostCalls =
      [⟨6, "Asyncrounous Callback", PyObject.object 1⟩,
        ⟨5, "Asyncrounous Callback", PyObject.None⟩] :=
  ((C14_results_dispatched_fifo { construct 7 100 30 2 false with
      m_hostMain := [("r1", ⟨5, true, fun _ _ => some PyObject.None⟩)]
      m_hostModules := [[("r2", ⟨6, true, fun _ _ => some PyObject.None⟩)]]
      m_asyncReturns := [⟨"r2", some (PyObject.object 1), ""⟩,
        ⟨"r1", none, ""⟩] }).2.2.2.2
    (by
      intro r hr
      simp only [List.mem_cons, List.mem_singleton, List.not_mem_nil, or_false] at hr
      rcases hr with e | e
      · subst e; exact ⟨by decide, _, rfl, rfl⟩
      · subst e; exact ⟨by decide, _, rfl, rfl⟩)).trans (by rfl)

/-- C15: the record `{ "r1", 42 }` waits in the result queue and `r1` is a callable
definition of the primary namespace.  `prerender` invokes it once with the payload of
the record, but the sender tag it passes is the string "Asyncrounous Callback" of line
160, which is not the tag "Asynchronous Callback". -/
theorem C15_sender_tag_misspelt :
    (prerender { construct 7 100 30 2 false with
      m_hostMain := [("r1", ⟨5, true, fun _ _ => some PyObject.None⟩)]
      m_asyncReturns := [⟨"r1", some (PyObject.object 42), ""⟩] }).m_hostCalls =
      [⟨5, "Asyncrounous Callback", PyObject.object 42⟩] ∧
    (prerender { construct 7 100 30 2 false with
      m_hostMain := [("r1", ⟨5, true, fun _ _ => some PyObject.None⟩)]
      m_asyncReturns := [⟨"r1", some (PyObject.object 42), ""⟩] }).m_hostCalls ≠
      [⟨5, "Asynchronous Callback", PyObject.object 42⟩] := by
  refine ⟨by decide, by decide⟩

/-- C16 (counterexample): the job `("h1", 42, "")` has no return-handler name and `h1` is
a callable definition of the primary namespace.  One execution of `runAsyncCallback`
invokes `h1`, returns, and appends no record to the result queue. -/
theorem C16_counterexample :
    (runAsyncCallback "h1" (some (PyObject.object 42)) ""
      { construct 7 100 30 2 false with
        m_hostMain := [("h1", ⟨5, true, fun _ x => some x⟩)] }).map
        (fun t => (t.m_hostCalls, t.m_asyncReturns)) =
      some ([⟨5, "Async", PyObject.object 42⟩], []) := by
  decide

/-- C16 (amended): for a job whose payload is not null, one execution of
`runAsyncCallback` returns and appends exactly one record to the result queue, tagged
with the return-handler name of the job and carrying the result of the call, when the
handler name is not empty, resolves to a callable definition and the return-handler
name is not empty; in every other case it returns and appends no record.  When the
handler name is empty, does not resolve or resolves to a definition that is not
callable, no record is appended whatever the payload is.  The records already in the
queue stay in front, in their order. -/
theorem C16_result_enqueued_once (s : mvApp) (nm : String) (d : PyObject)
    (returnname : String) :
    (∀ h, nm ≠ "" → resolveHandler s nm = some h → h.callable = true → returnname ≠ "" →
      (runAsyncCallback nm (some d) returnname s).map (fun t => t.m_asyncReturns) =
        some (s.m_asyncReturns ++ [⟨returnname, h.call "Async" d, ""⟩])) ∧
    (¬ (nm ≠ "" ∧ (∃ h, resolveHandler s nm = some h ∧ h.callable = true) ∧ returnname ≠ "") →
      (runAsyncCallback nm (some d) returnname s).map (fun t => t.m_asyncReturns) =
        some s.m_asyncReturns) ∧
    (∀ data : Option PyObject,
      (nm = "" ∨ resolveHandler s nm = none ∨
        ∃ h, resolveHandler s nm = some h ∧ h.callable = false) →
      (runAsyncCallback nm data returnname s).map (fun t => t.m_asyncReturns) =
        some s.m_asyncReturns) := by
  refine ⟨?_, ?_, ?_⟩
  · intro h hnm hres hcall hret
    simp [runAsyncCallback, runAsyncCallbackCore, hnm, hres, hcall, hret]
  · intro hnot
    simp only [runAsyncCallback, runAsyncCallbackCore]
    by_cases hnm : nm = ""
    · simp [hnm]
    · cases hres : resolveHandler s nm with
      | none => simp [hnm]
      | some h =>
        by_cases hcall : h.callable = true
        · by_cases hret : returnname = ""
          · simp [hnm, hcall, hret]
          · exact absurd ⟨hnm, ⟨h, hres, hcall⟩, hret⟩ hnot
        · simp [hnm, hcall]
  · intro data hcase
    simp only [runAsyncCallback, runAsyncCallbackCore]
    rcases hcase with hnm | hres | ⟨h, hres, hcall⟩
    · simp [hnm]
    · by_cases hnm : nm = ""
      · simp [hnm]
      · simp [hnm, hres]
    · by_cases hnm : nm = ""
      · simp [hnm]
      · simp [hnm, hres, hcall]

theorem C16_result_enqueued_once_witness :
    ("h1" ≠ "" ∧
      resolveHandler { construct 7 100 30 2 false with
        m_hostMain := [("h1", ⟨5, true, fun _ x => some x⟩)] } "h1" =
        some ⟨5, true, fun _ x => some x⟩ ∧
      "r1" ≠ "") ∧
    (runAsyncCallback "h1" (some (PyObject.object 42)) "r1"
      { construct 7 100 30 2 false with
        m_hostMain := [("h1", ⟨5, true, fun _ x => some x⟩)] }).map
        (fun t => t.m_asyncReturns) =
      some [⟨"r1", some (PyObject.object 42), ""⟩] :=
  ⟨⟨by decide, rfl, by decide⟩,
    (C16_result_enqueued_once { construct 7 100 30 2 false with
        m_hostMain := [("h1", ⟨5, true, fun _ x => some x⟩)] }
      "h1" (PyObject.object 42) "r1").1 ⟨5, true, fun _ x => some x⟩
      (by decide) rfl rfl (by decide)⟩

/-- C17: `h1` is a callable definition of the primary namespace and the payload is
null.  `runCallback` replaces the null payload by `None`, invokes `h1` once and
returns.  `runAsyncCallback` resolves the same definition but stores the null payload
in the argument tuple as it is (lines 689-693), and the call does not return.  With
the payload 42 it makes the invocation and the report that `runCallback` makes. -/
theorem C17_async_call_keeps_null_payload :
    resolveHandler
      { construct 7 100 30 2 false with
        m_hostMain := [("h1", ⟨5, true, fun _ x => some x⟩)] } "h1" =
      some ⟨5, true, fun _ x => some x⟩ ∧
    runCallback
      { construct 7 100 30 2 false with
        m_hostMain := [("h1", ⟨5, true, fun _ x => some x⟩)] } "h1" "Async" none =
      ([⟨5, "Async", PyObject.None⟩], []) ∧
    (runAsyncCallback "h1" none ""
      { construct 7 100 30 2 false with
        m_hostMain := [("h1", ⟨5, true, fun _ x => some x⟩)] }).isNone = true ∧
    (runAsyncCallback "h1" (some (PyObject.object 42)) ""
      { construct 7 100 30 2 false with
        m_hostMain := [("h1", ⟨5, true, fun _ x => some x⟩)] }).map
        (fun t => (t.m_hostCalls, t.m_errors)) =
      some (runCallback
        { construct 7 100 30 2 false with
          m_hostMain := [("h1", ⟨5, true, fun _ x => some x⟩)] }
        "h1" "Async" (some (PyObject.object 42))) := by
  refine ⟨rfl, by decide, by decide, by decide⟩

/-- C18: on a thread other than the main thread, `addRuntimeItem`, `addItem` and
`addWindow` do nothing but report the wrong-thread error: the state after the call is
the state before it with that one message appended to the error channel, so the
pending-add vector, the window list with every subtree and the parent stack are
unchanged; `getItem`, `getRuntimeItem` and `getWindow` return no item and report the
same error, whatever the arguments. -/
theorem C18_wrong_thread_rejected (s : mvApp) (tid : Nat) (h : tid ≠ s.m_mainThreadID) :
    (∀ parent before item,
      addRuntimeItem tid parent before item s =
        { s with m_errors := s.m_errors ++ [wrongThreadMessage s.m_hostLine] }) ∧
    (∀ runtimeDflt duplicatesAllowed count item,
      addItem tid runtimeDflt duplicatesAllowed count item s =
        some { s with m_errors := s.m_errors ++ [wrongThreadMessage s.m_hostLine] }) ∧
    (∀ item,
      addWindow tid item s =
        { s with m_errors := s.m_errors ++ [wrongThreadMessage s.m_hostLine] }) ∧
    (∀ parent before item,
      (addRuntimeItem tid parent before item s).m_newItemVec = s.m_newItemVec ∧
      (addRuntimeItem tid parent before item s).m_windows = s.m_windows ∧
      (addRuntimeItem tid parent before item s).m_parents = s.m_parents) ∧
    (∀ runtimeDflt duplicatesAllowed count item,
      (addItem tid runtimeDflt duplicatesAllowed count item s).map
        (fun t => (t.m_newItemVec, t.m_windows, t.m_parents)) =
        some (s.m_newItemVec, s.m_windows, s.m_parents)) ∧
    (∀ item,
      (addWindow tid item s).m_newItemVec = s.m_newItemVec ∧
      (addWindow tid item s).m_windows = s.m_windows ∧
      (addWindow tid item s).m_parents = s.m_parents) ∧
    (∀ nm ignoreRuntime,
      getItem s tid nm ignoreRuntime = (none, [wrongThreadMessage s.m_hostLine])) ∧
    (∀ nm, getRuntimeItem s tid nm = (none, [wrongThreadMessage s.m_hostLine])) ∧
    (∀ runtimeDflt nm,
      getWindow s tid runtimeDflt nm = (none, [wrongThreadMessage s.m_hostLine])) := by
  have hc : checkIfMainThread s tid = (false, [wrongThreadMessage s.m_hostLine]) := by
    simp [checkIfMainThread, h]
  refine ⟨?_, ?_, ?_, ?_, ?_, ?_, ?_, ?_, ?_⟩
  · intro parent before item
    simp [addRuntimeItem, hc]
  · intro runtimeDflt duplicatesAllowed count item
    simp [addItem, hc]
  · intro item
    simp [addWindow, hc]
  · intro parent before item
    simp [addRuntimeItem, hc]
  · intro runtimeDflt duplicatesAllowed count item
    simp [addItem, hc]
  · intro item
    simp [addWindow, hc]
  · intro nm ignoreRuntime
    simp [getItem, hc]
  · intro nm
    simp [getRuntimeItem, hc]
  · intro runtimeDflt nm
    simp [getWindow, hc]

theorem C18_wrong_thread_rejected_witness :
    (8 ≠ (construct 7 100 30 2 false).m_mainThreadID) ∧
    (addWindow 8 (mvAppItem.mk 200 "w2" mvAppItemType.Window none [])
      (construct 7 100 30 2 false)).m_windows = (construct 7 100 30 2 false).m_windows ∧
    getItem (construct 7 100 30 2 false) 8 "MainWindow" false =
      (none, [wrongThreadMessage 0]) :=
  ⟨by decide,
    ((C18_wrong_thread_rejected (construct 7 100 30 2 false) 8 (by decide)).2.2.2.2.2.1
      (mvAppItem.mk 200 "w2" mvAppItemType.Window none [])).2.1,
    (C18_wrong_thread_rejected (construct 7 100 30 2 false) 8 (by decide)).2.2.2.2.2.2.1
      "MainWindow" false⟩

/-- C19 (counterexample): the windows are `W1` with the child `A` and `W2` with the
children `B`, `A`; the move-up request names `A`, the first child of `W1`.  The loop
over the windows goes on after `W1` has returned false and `W2` swaps its children:
the request is reported as moved (no error) and the order of the children of `W2` has
changed. -/
theorem C19_counterexample :
    (∃ p ∈ itemsIn
        [mvAppItem.mk 100 "W1" mvAppItemType.Window none
            [mvAppItem.mk 101 "A" mvAppItemType.Child (some 100) []],
          mvAppItem.mk 200 "W2" mvAppItemType.Window none
            [mvAppItem.mk 201 "B" mvAppItemType.Child (some 200) [],
              mvAppItem.mk 202 "A" mvAppItemType.Child (some 200) []]],
      (p.getChildren.head?).map getName = some "A") ∧
    (moveChildUp "A" (mvAppItem.mk 100 "W1" mvAppItemType.Window none
      [mvAppItem.mk 101 "A" mvAppItemType.Child (some 100) []])).1 = false ∧
    (postrender 7 false 0 0
      { construct 7 100 30 2 false with
        m_windows :=
          [mvAppItem.mk 100 "W1" mvAppItemType.Window none
              [mvAppItem.mk 101 "A" mvAppItemType.Child (some 100) []],
            mvAppItem.mk 200 "W2" mvAppItemType.Window none
              [mvAppItem.mk 201 "B" mvAppItemType.Child (some 200) [],
                mvAppItem.mk 202 "A" mvAppItemType.Child (some 200) []]]
        m_upQueue := ["A"] }).m_windows =
      [mvAppItem.mk 100 "W1" mvAppItemType.Window none
          [mvAppItem.mk 101 "A" mvAppItemType.Child (some 100) []],
        mvAppItem.mk 200 "W2" mvAppItemType.Window none
          [mvAppItem.mk 202 "A" mvAppItemType.Child (some 200) [],
            mvAppItem.mk 201 "B" mvAppItemType.Child (some 200) []]] ∧
    (postrender 7 false 0 0
      { construct 7 100 30 2 false with
        m_windows :=
          [mvAppItem.mk 100 "W1" mvAppItemType.Window none
              [mvAppItem.mk 101 "A" mvAppItemType.Child (some 100) []],
            mvAppItem.mk 200 "W2" mvAppItemType.Window none
              [mvAppItem.mk 201 "B" mvAppItemType.Child (some 200) [],
                mvAppItem.mk 202 "A" mvAppItemType.Child (some 200) []]]
        m_upQueue := ["A"] }).m_errors = [] := by
  refine ⟨⟨mvAppItem.mk 100 "W1" mvAppItemType.Window none
      [mvAppItem.mk 101 "A" mvAppItemType.Child (some 100) []], ?_, rfl⟩, rfl, rfl, by decide⟩
  simp [itemsIn, items]

/-- C19 (amended): when the requested name is carried by at most one item of the tree
and that item is the first child of its parent, the move operation of a move-up
request returns false for every window and leaves the tree as it is; a `postrender`
that drains this request (and no other structural request) leaves the window list with
every child sequence unchanged and reports the request as not moved.  The same holds
for a move-down request when the item is the last child of its parent. -/
theorem C19_boundary_move_noop (s : mvApp) (nm : String) (tid : Nat) (runtimeDflt : Bool)
    (tCreate tEnd : ℚ) (hcount : (namesIn s.m_windows).count nm ≤ 1)
    (h1 : s.m_deleteChildrenQueue = []) (h2 : s.m_deleteQueue = [])
    (h3 : s.m_newItemVec = []) :
    ((∃ p ∈ itemsIn s.m_windows, (p.getChildren.head?).map getName = some nm) →
      moveUpInWindows nm s.m_windows = (false, s.m_windows) ∧
      (s.m_upQueue = [nm] → s.m_downQueue = [] →
        (postrender tid runtimeDflt tCreate tEnd s).m_windows = s.m_windows ∧
        (postrender tid runtimeDflt tCreate tEnd s).m_errors =
          s.m_errors ++ [notMovedMessage nm])) ∧
    ((∃ p ∈ itemsIn s.m_windows, (p.getChildren.getLast?).map getName = some nm) →
      moveDownInWindows nm s.m_windows = (false, s.m_windows) ∧
      (s.m_upQueue = [] → s.m_downQueue = [nm] →
        (postrender tid runtimeDflt tCreate tEnd s).m_windows = s.m_windows ∧
        (postrender tid runtimeDflt tCreate tEnd s).m_errors =
          s.m_errors ++ [notMovedMessage nm])) := by
  obtain ⟨pw, pe⟩ := postrender_moves_only tid runtimeDflt tCreate tEnd s h1 h2 h3
  refine ⟨?_, ?_⟩
  · intro hex
    have hm := moveUpInWindows_boundary nm s.m_windows hcount hex
    refine ⟨hm, ?_⟩
    intro hu hd
    rw [pw, pe, hu, hd]
    simp [drainUpQueue, drainDownQueue, moveItemUp, hm]
  · intro hex
    have hm := moveDownInWindows_boundary nm s.m_windows hcount hex
    refine ⟨hm, ?_⟩
    intro hu hd
    rw [pw, pe, hu, hd]
    simp [drainUpQueue, drainDownQueue, moveItemDown, hm]

theorem C19_boundary_move_noop_witness :
    ((namesIn
        ({ construct 7 100 30 2 false with
          m_windows :=
            [mvAppItem.mk 100 "W1" mvAppItemType.Window none
              [mvAppItem.mk 101 "A" mvAppItemType.Child (some 100) [],
                mvAppItem.mk 102 "B" mvAppItemType.Child (some 100) []]]
          m_upQueue := ["A"] } : mvApp).m_windows).count "A" ≤ 1 ∧
      ∃ p ∈ itemsIn
        ({ construct 7 100 30 2 false with
          m_windows :=
            [mvAppItem.mk 100 "W1" mvAppItemType.Window none
              [mvAppItem.mk 101 "A" mvAppItemType.Child (some 100) [],
                mvAppItem.mk 102 "B" mvAppItemType.Child (some 100) []]]
          m_upQueue := ["A"] } : mvApp).m_windows,
        (p.getChildren.head?).map getName = some "A") ∧
    (postrender 7 false 0 0
      { construct 7 100 30 2 false with
        m_windows :=
          [mvAppItem.mk 100 "W1" mvAppItemType.Window none
            [mvAppItem.mk 101 "A" mvAppItemType.Child (some 100) [],
              mvAppItem.mk 102 "B" mvAppItemType.Child (some 100) []]]
        m_upQueue := ["A"] }).m_errors = [] ++ [notMovedMessage "A"] :=
  ⟨⟨by decide,
      ⟨mvAppItem.mk 100 "W1" mvAppItemType.Window none
        [mvAppItem.mk 101 "A" mvAppItemType.Child (some 100) [],
          mvAppItem.mk 102 "B" mvAppItemType.Child (some 100) []],
        by simp [itemsIn, items, construct], rfl⟩⟩,
    (((C19_boundary_move_noop
      { construct 7 100 30 2 false with
        m_windows :=
          [mvAppItem.mk 100 "W1" mvAppItemType.Window none
            [mvAppItem.mk 101 "A" mvAppItemType.Child (some 100) [],
              mvAppItem.mk 102 "B" mvAppItemType.Child (some 100) []]]
        m_upQueue := ["A"] }
      "A" 7 false 0 0 (by decide) rfl rfl rfl).1
      ⟨mvAppItem.mk 100 "W1" mvAppItemType.Window none
        [mvAppItem.mk 101 "A" mvAppItemType.Child (some 100) [],
          mvAppItem.mk 102 "B" mvAppItemType.Child (some 100) []],
        by simp [itemsIn, items, construct], rfl⟩).2 rfl rfl).2⟩

/-- C20: the tree is the main window alone and the delete-children queue holds the
request "ghost", a name that is not in the tree.  `postrender`, on the main thread,
drops the request without reporting anything: the error channel is as empty after it
as before, where the delete loop reports "ghost not deleted because it was not found"
for the same name. -/
theorem C20_delete_children_failure_silent :
    "ghost" ∉ namesIn (construct 7 100 30 2 false).m_windows ∧
    (postrender 7 false 0 0
      { construct 7 100 30 2 false with m_deleteChildrenQueue := ["ghost"] }).m_errors = [] ∧
    (postrender 7 false 0 0
      { construct 7 100 30 2 false with m_deleteChildrenQueue := ["ghost"] }).m_deleteChildrenQueue
      = [] ∧
    (postrender 7 false 0 0
      { construct 7 100 30 2 false with m_deleteChildrenQueue := ["ghost"] }).m_windows =
      (construct 7 100 30 2 false).m_windows ∧
    (postrender 7 false 0 0
      { construct 7 100 30 2 false with m_deleteQueue := ["ghost"] }).m_errors =
      ["ghost not deleted because it was not found"] := by
  refine ⟨by decide, by decide, by decide, by rfl, by decide⟩

/-- C21: one job `h1` is queued and there is no pool.  The render thread runs the test
and the submission loop of the block "async callbacks" of `postrender`, a worker thread
then pushes the job `h2` through `addMTCallback`, and the render thread runs
`m_asyncCallbacks.clear()`: the job `h2` was not handed to the pool and is no longer
queued, so it is lost.  Pushed before the block the same job is submitted with `h1`,
pushed behind the block it stays queued for the next frame. -/
theorem C21_job_lost_between_submit_and_clear :
    (asyncBlockStep 0 (asyncBlockEnqueue "h2" none "r2"
      (asyncBlockStep 0 (AsyncBlockPC.atTest,
        { construct 7 100 30 2 false with
          m_asyncCallbacks := [⟨"h1", some (PyObject.object 42), "r1"⟩] })))).1 =
      AsyncBlockPC.done ∧
    (asyncBlockStep 0 (asyncBlockEnqueue "h2" none "r2"
      (asyncBlockStep 0 (AsyncBlockPC.atTest,
        { construct 7 100 30 2 false with
          m_asyncCallbacks := [⟨"h1", some (PyObject.object 42), "r1"⟩] })))).2.m_tpool =
      some ⟨2, [⟨"h1", some (PyObject.object 42), "r1"⟩]⟩ ∧
    (asyncBlockStep 0 (asyncBlockEnqueue "h2" none "r2"
      (asyncBlockStep 0 (AsyncBlockPC.atTest,
        { construct 7 100 30 2 false with
          m_asyncCallbacks := [⟨"h1", some (PyObject.object 42), "r1"⟩] })))).2.m_asyncCallbacks =
      [] ∧
    (submitAsyncCallbacks 0 (addMTCallback "h2" none "r2"
      { construct 7 100 30 2 false with
        m_asyncCallbacks := [⟨"h1", some (PyObject.object 42), "r1"⟩] })).m_tpool =
      some ⟨2, [⟨"h1", some (PyObject.object 42), "r1"⟩, ⟨"h2", none, "r2"⟩]⟩ ∧
    (addMTCallback "h2" none "r2" (submitAsyncCallbacks 0
      { construct 7 100 30 2 false with
        m_asyncCallbacks := [⟨"h1", some (PyObject.object 42), "r1"⟩] })).m_asyncCallbacks =
      [⟨"h2", none, "r2"⟩] := by
  refine ⟨by decide, by decide, by decide, by decide, by decide⟩

/-- C22: right after construction the window list is the main window, named
"MainWindow".  With the delete queue ["MainWindow"], `postrender` (on the main thread)
removes that window, reports no error and leaves the window list empty.  On the state
it leaves, `setWindowSize` reads `m_windows[0]` out of range, and so does `addItem` once
the parent stack is empty: a non-empty window list is not an invariant of
`postrender`. -/
theorem C22_main_window_deleted (tid mainAddr : Nat) (timeout : ℚ) (threads : Nat)
    (highPerformance runtimeDflt : Bool) (tCreate tEnd : ℚ) :
    (construct tid mainAddr timeout threads highPerformance).m_windows.map getName =
      ["MainWindow"] ∧
    (postrender tid runtimeDflt tCreate tEnd
      { construct tid mainAddr timeout threads highPerformance with
        m_deleteQueue := ["MainWindow"] }).m_windows = [] ∧
    (postrender tid runtimeDflt tCreate tEnd
      { construct tid mainAddr timeout threads highPerformance with
        m_deleteQueue := ["MainWindow"] }).m_errors = [] ∧
    (postrender tid runtimeDflt tCreate tEnd
      { construct tid mainAddr timeout threads highPerformance with
        m_deleteQueue := ["MainWindow"] }).m_deleteQueue = [] ∧
    (∀ width height,
      setWindowSize width height
        (postrender tid runtimeDflt tCreate tEnd
          { construct tid mainAddr timeout threads highPerformance with
            m_deleteQueue := ["MainWindow"] }) = none) ∧
    (∀ duplicatesAllowed count item,
      addItem tid runtimeDflt duplicatesAllowed count item
        (popParent
          (postrender tid runtimeDflt tCreate tEnd
            { construct tid mainAddr timeout threads highPerformance with
              m_deleteQueue := ["MainWindow"] })).2 = none) := by
  have hw : (postrender tid runtimeDflt tCreate tEnd
      { construct tid mainAddr timeout threads highPerformance with
        m_deleteQueue := ["MainWindow"] }).m_windows = [] := rfl
  refine ⟨rfl, hw, rfl, rfl, ?_, ?_⟩
  · intro width height
    simp only [setWindowSize, hw]
  · intro duplicatesAllowed count item
    exact addItem_empty
      (popParent
        (postrender tid runtimeDflt tCreate tEnd
          { construct tid mainAddr timeout threads highPerformance with
            m_deleteQueue := ["MainWindow"] })).2
      runtimeDflt duplicatesAllowed count item rfl rfl rfl

/-- C23: `h1` is a callable definition whose call fails and `r1` a callable return
handler.  For the job `("h1", null, "r1")` the handler name is not empty, resolves to a
callable definition and the return-handler name is not empty, yet the execution of
`runAsyncCallback` does not return and no record is appended: the null payload goes
into the argument tuple as it is (lines 689-693).  For the job `("h1", 42, "r1")` the
failed call is reported, the record `{ "r1", null }` is appended and the next
`prerender` calls `r1` with `None`. -/
theorem C23_no_record_for_null_payload :
    ("h1" ≠ "" ∧
      (∃ h, resolveHandler
        { construct 7 100 30 2 false with
          m_hostMain := [("h1", ⟨5, true, fun _ _ => none⟩),
            ("r1", ⟨6, true, fun _ x => some x⟩)] } "h1" = some h ∧ h.callable = true) ∧
      "r1" ≠ "") ∧
    (runAsyncCallback "h1" none "r1"
      { construct 7 100 30 2 false with
        m_hostMain := [("h1", ⟨5, true, fun _ _ => none⟩),
          ("r1", ⟨6, true, fun _ x => some x⟩)] }).isNone = true ∧
    (runAsyncCallback "h1" (some (PyObject.object 42)) "r1"
      { construct 7 100 30 2 false with
        m_hostMain := [("h1", ⟨5, true, fun _ _ => none⟩),
          ("r1", ⟨6, true, fun _ x => some x⟩)] }).map
        (fun t => (t.m_asyncReturns, t.m_errors, (prerender t).m_hostCalls)) =
      some ([⟨"r1", none, ""⟩], ["h1Callback failed"],
        [⟨5, "Async", PyObject.object 42⟩,
          ⟨6, "Asyncrounous Callback", PyObject.None⟩]) := by
  refine ⟨⟨by decide, ⟨_, rfl, rfl⟩, by decide⟩, by decide, by decide⟩

/-- C24: one iteration of the move-up loop of `postrender` reports the message
"<name> not moved because it was not found", and only that message, exactly when
`moveChildUp` returns false on every top-level window, and reports nothing when one
window returns true; the report depends on the returned flags alone, so a name that is
absent from the tree and an item for which no swap occurred are reported alike.  In
both cases the request is popped and the loop goes on with the remaining requests on
the state the iteration leaves: the messages reported before stay, those of the
iteration follow, and the queue is empty at the end.  The same holds for the move-down
loop with `moveChildDown`. -/
theorem C24_move_failure_report (s : mvApp) (nm : String) (q : List String) :
    notMovedMessage nm = nm ++ " not moved because it was not found" ∧
    (((moveItemUp nm s.m_windows).2 = [notMovedMessage nm] ↔
        ∀ w ∈ s.m_windows, (moveChildUp nm w).1 = false) ∧
      ((moveItemUp nm s.m_windows).2 = [] ↔
        ∃ w ∈ s.m_windows, (moveChildUp nm w).1 = true) ∧
      drainUpQueue (nm :: q) s =
        drainUpQueue q { s with
          m_windows := (moveItemUp nm s.m_windows).1
          m_errors := s.m_errors ++ (moveItemUp nm s.m_windows).2
          m_upQueue := q } ∧
      (∃ msgs, (drainUpQueue (nm :: q) s).m_errors =
        s.m_errors ++ (moveItemUp nm s.m_windows).2 ++ msgs) ∧
      (drainUpQueue (nm :: q) s).m_upQueue = []) ∧
    (((moveItemDown nm s.m_windows).2 = [notMovedMessage nm] ↔
        ∀ w ∈ s.m_windows, (moveChildDown nm w).1 = false) ∧
      ((moveItemDown nm s.m_windows).2 = [] ↔
        ∃ w ∈ s.m_windows, (moveChildDown nm w).1 = true) ∧
      drainDownQueue (nm :: q) s =
        drainDownQueue q { s with
          m_windows := (moveItemDown nm s.m_windows).1
          m_errors := s.m_errors ++ (moveItemDown nm s.m_windows).2
          m_downQueue := q } ∧
      (∃ msgs, (drainDownQueue (nm :: q) s).m_errors =
        s.m_errors ++ (moveItemDown nm s.m_windows).2 ++ msgs) ∧
      (drainDownQueue (nm :: q) s).m_downQueue = []) := by
  refine ⟨rfl, ⟨?_, ?_, rfl, ?_, ?_⟩, ⟨?_, ?_, rfl, ?_, ?_⟩⟩
  · rw [← moveUpInWindows_false_iff]
    cases h : (moveUpInWindows nm s.m_windows).1 <;> simp [moveItemUp, h]
  · have hiff := moveUpInWindows_false_iff nm s.m_windows
    cases h : (moveUpInWindows nm s.m_windows).1
    · rw [h] at hiff
      have hall := hiff.mp rfl
      simp only [moveItemUp, h, if_true]
      constructor
      · intro hc; simp at hc
      · rintro ⟨w, hw, ht⟩
        rw [hall w hw] at ht
        simp at ht
    · have hex : ∃ w ∈ s.m_windows, (moveChildUp nm w).1 = true := by
        by_contra hne
        have hall : ∀ w ∈ s.m_windows, (moveChildUp nm w).1 = false := by
          intro w hw
          cases hb : (moveChildUp nm w).1
          · rfl
          · exact absurd ⟨w, hw, hb⟩ hne
        have := hiff.mpr hall
        rw [h] at this
        simp at this
      simp only [moveItemUp, h]
      exact ⟨fun _ => hex, fun _ => by simp⟩
  · obtain ⟨msgs, hm⟩ := drainUpQueue_errors q { s with
      m_windows := (moveItemUp nm s.m_windows).1
      m_errors := s.m_errors ++ (moveItemUp nm s.m_windows).2
      m_upQueue := q }
    exact ⟨msgs, hm⟩
  · exact drainUpQueue_empties q _ rfl
  · rw [← moveDownInWindows_false_iff]
    cases h : (moveDownInWindows nm s.m_windows).1 <;> simp [moveItemDown, h]
  · have hiff := moveDownInWindows_false_iff nm s.m_windows
    cases h : (moveDownInWindows nm s.m_windows).1
    · rw [h] at hiff
      have hall := hiff.mp rfl
      simp only [moveItemDown, h, if_true]
      constructor
      · intro hc; simp at hc
      · rintro ⟨w, hw, ht⟩
        rw [hall w hw] at ht
        simp at ht
    · have hex : ∃ w ∈ s.m_windows, (moveChildDown nm w).1 = true := by
        by_contra hne
        have hall : ∀ w ∈ s.m_windows, (moveChildDown nm w).1 = false := by
          intro w hw
          cases hb : (moveChildDown nm w).1
          · rfl
          · exact absurd ⟨w, hw, hb⟩ hne
        have := hiff.mpr hall
        rw [h] at this
        simp at this
      simp only [moveItemDown, h]
      exact ⟨fun _ => hex, fun _ => by simp⟩
  · obtain ⟨msgs, hm⟩ := drainDownQueue_errors q { s with
      m_windows := (moveItemDown nm s.m_windows).1
      m_errors := s.m_errors ++ (moveItemDown nm s.m_windows).2
      m_downQueue := q }
    exact ⟨msgs, hm⟩
  · exact drainDownQueue_empties q _ rfl

theorem C24_move_failure_report_witness :
    "A" ∈ namesIn
      ({ construct 7 100 30 2 false with
        m_windows :=
          [mvAppItem.mk 100 "W1" mvAppItemType.Window none
            [mvAppItem.mk 101 "A" mvAppItemType.Child (some 100) [],
              mvAppItem.mk 102 "B" mvAppItemType.Child (some 100) []]] } : mvApp).m_windows ∧
    (∀ w ∈
      ({ construct 7 100 30 2 false with
        m_windows :=
          [mvAppItem.mk 100 "W1" mvAppItemType.Window none
            [mvAppItem.mk 101 "A" mvAppItemType.Child (some 100) [],
              mvAppItem.mk 102 "B" mvAppItemType.Child (some 100) []]] } : mvApp).m_windows,
      (moveChildUp "A" w).1 = false) ∧
    (moveItemUp "A"
      ({ construct 7 100 30 2 false with
        m_windows :=
          [mvAppItem.mk 100 "W1" mvAppItemType.Window none
            [mvAppItem.mk 101 "A" mvAppItemType.Child (some 100) [],
              mvAppItem.mk 102 "B" mvAppItemType.Child (some 100) []]] } : mvApp).m_windows).2 =
      ["A not moved because it was not found"] :=
  ⟨by decide, by decide,
    ((C24_move_failure_report
      { construct 7 100 30 2 false with
        m_windows :=
          [mvAppItem.mk 100 "W1" mvAppItemType.Window none
            [mvAppItem.mk 101 "A" mvAppItemType.Child (some 100) [],
              mvAppItem.mk 102 "B" mvAppItemType.Child (some 100) []]] }
      "A" []).2.1.1.mpr (by decide)).trans (by decide)⟩
